import Mathlib

/-!
Verification development for a slotted-page on-disk record store
(`archive.py`): a schema catalog, a fixed-width binary record codec, a
per-type paged data file, and CRUD handlers composing them.

The embedding below translates the Python source into Lean:
* Python `str` values are modelled as lists of Unicode code points
  (`PyStr`), Python `bytes`/`bytearray`/file contents as lists of byte
  values (`List Nat`, each element < 256 in every reachable state).
* Pure helpers (`int_to_bytes`, `pack_record`, `unpack_record`, ...)
  become Lean functions; fallible code returns `Except`/`Option`.
* File-mutating handlers become functions from the current data-file
  contents (an `Option (List Nat)`, `none` meaning the file does not
  exist) to the resulting contents.
* The handlers re-read the catalog from the metadata store on every
  call; the embedding passes the materialized mapping (`Catalog`)
  directly, and models the raw line parser `read_catalog` separately.
-/

namespace Archive

/-- A Python `str`: a list of Unicode code points. -/
abbrev PyStr := List Nat

/-- ASCII decimal digit test (as used by `int()` on plain literals). -/
def isDigitB (c : Nat) : Bool := 48 ≤ c && c ≤ 57

/-- ASCII whitespace test (Python `str.strip` / `int()` strip ASCII and
Unicode whitespace; the embedding models the ASCII cases). -/
def isSpaceB (c : Nat) : Bool := c = 32 || c = 9 || c = 10 || c = 13 || c = 12 || c = 11

/-- Strip leading and trailing whitespace, as Python `str.strip()`. -/
def stripWs (s : PyStr) : PyStr := ((s.dropWhile isSpaceB).reverse.dropWhile isSpaceB).reverse

/-- Decimal value of a digit string. -/
def digitsVal (ds : List Nat) : Nat := ds.foldl (fun a c => a * 10 + (c - 48)) 0

/-- After an initial digit: remaining characters of a Python int literal,
digits with single underscores allowed between digits. -/
def digitsTail : List Nat → Bool
  | [] => true
  | c :: rest =>
    if isDigitB c then digitsTail rest
    else if c = 95 then
      match rest with
      | d :: rest' => isDigitB d && digitsTail rest'
      | [] => false
    else false

/-- `digit ( _? digit )*`: the digit part of a Python decimal int literal. -/
def validDigits : List Nat → Bool
  | [] => false
  | c :: rest => isDigitB c && digitsTail rest

/-- Models Python `int(s)` on text: strip whitespace, optional sign, then
decimal digits (single underscores between digits allowed).  Returns
`none` where Python raises `ValueError`. -/
def pyInt (s : PyStr) : Option Int :=
  let t := stripWs s
  let p : Bool × List Nat :=
    match t with
    | 45 :: rest => (true, rest)
    | 43 :: rest => (false, rest)
    | _ => (false, t)
  if validDigits p.2 then
    let n : Nat := digitsVal (p.2.filter (fun c => c != 95))
    some (if p.1 then -(n : Int) else (n : Int))
  else none

/-- Decimal digits of a natural number, most significant first. -/
def natToDigits (n : Nat) : List Nat :=
  if h : n < 10 then [48 + n] else natToDigits (n / 10) ++ [48 + n % 10]
termination_by n
decreasing_by
  simp only [not_lt] at h
  omega

/-- Models Python `str(i)` for an int. -/
def intToStr (i : Int) : PyStr :=
  if i < 0 then 45 :: natToDigits (-i).toNat else natToDigits i.toNat

/-- Errors raised by the record encoder: `ValueError` from `int(val)`,
`OverflowError` from `int.to_bytes` on an out-of-range value. -/
inductive PackErr where
  | valueError
  | overflowError
deriving DecidableEq

deriving instance DecidableEq for Except

/-- Source: `int_to_bytes`.  `x.to_bytes(4, byteorder="big", signed=True)`:
the 4 big-endian bytes of the 32-bit two's-complement representation;
raises `OverflowError` outside the signed 32-bit range. -/
def int_to_bytes (x : Int) : Except PackErr (List Nat) :=
  if -(2 ^ 31) ≤ x ∧ x < 2 ^ 31 then
    let u := (x % (2 ^ 32 : Int)).toNat
    Except.ok [u / 2 ^ 24 % 256, u / 2 ^ 16 % 256, u / 2 ^ 8 % 256, u % 256]
  else Except.error PackErr.overflowError

/-- Big-endian unsigned value of a byte string. -/
def bytesToNatBE (bs : List Nat) : Nat := bs.foldl (fun a b => a * 256 + b) 0

/-- Source: `bytes_to_int`.  `int.from_bytes(b, byteorder="big", signed=True)`:
big-endian value, interpreted in two's complement (the sign is taken from
the top bit of the first byte; the empty string gives 0). -/
def bytes_to_int (bs : List Nat) : Int :=
  match bs with
  | [] => 0
  | b0 :: _ =>
    let u := bytesToNatBE bs
    if 128 ≤ b0 then (u : Int) - 2 ^ (8 * bs.length) else (u : Int)

/-- UTF-8 bytes of one code point (valid for non-surrogate code points
below 0x110000, the only values a Python `str` can be encoded from). -/
def utf8EncodeChar (c : Nat) : List Nat :=
  if c < 0x80 then [c]
  else if c < 0x800 then [0xC0 + c / 0x40, 0x80 + c % 0x40]
  else if c < 0x10000 then
    [0xE0 + c / 0x1000, 0x80 + c / 0x40 % 0x40, 0x80 + c % 0x40]
  else
    [0xF0 + c / 0x40000, 0x80 + c / 0x1000 % 0x40, 0x80 + c / 0x40 % 0x40, 0x80 + c % 0x40]

/-- Models Python `s.encode("utf-8")`. -/
def utf8Encode (s : PyStr) : List Nat := (s.map utf8EncodeChar).flatten

/-- A code point a Python `str` can hold and encode: below 0x110000 and
not a surrogate. -/
def ValidCp (c : Nat) : Prop := c < 0x110000 ∧ ¬(0xD800 ≤ c ∧ c < 0xE000)

instance : DecidablePred ValidCp := fun c => by unfold ValidCp; infer_instance

/-- A UTF-8 continuation byte. -/
def contOK (b : Nat) : Bool := 0x80 ≤ b && b < 0xC0

/-- Valid second byte for a 3-byte lead (rejects overlongs and surrogates,
as CPython's UTF-8 decoder does). -/
def cont2OK (b0 b1 : Nat) : Bool :=
  if b0 = 0xE0 then 0xA0 ≤ b1 && b1 < 0xC0
  else if b0 = 0xED then 0x80 ≤ b1 && b1 < 0xA0
  else 0x80 ≤ b1 && b1 < 0xC0

/-- Valid second byte for a 4-byte lead (rejects overlongs and values
above U+10FFFF). -/
def cont2OK4 (b0 b1 : Nat) : Bool :=
  if b0 = 0xF0 then 0x90 ≤ b1 && b1 < 0xC0
  else if b0 = 0xF4 then 0x80 ≤ b1 && b1 < 0x90
  else 0x80 ≤ b1 && b1 < 0xC0

/-- Models Python `bs.decode("utf-8", errors="ignore")`: decode valid
sequences, skip the bytes of each maximal invalid subpart. -/
def utf8DecodeIgnore : List Nat → List Nat
  | [] => []
  | b0 :: r0 =>
    if b0 < 0x80 then b0 :: utf8DecodeIgnore r0
    else if b0 < 0xC2 then utf8DecodeIgnore r0
    else if b0 < 0xE0 then
      match h0 : r0 with
      | [] => []
      | b1 :: r1 =>
        if contOK b1 then ((b0 - 0xC0) * 0x40 + (b1 - 0x80)) :: utf8DecodeIgnore r1
        else utf8DecodeIgnore r0
    else if b0 < 0xF0 then
      match h0 : r0 with
      | [] => []
      | b1 :: r1 =>
        if cont2OK b0 b1 then
          match h1 : r1 with
          | [] => []
          | b2 :: r2 =>
            if contOK b2 then
              ((b0 - 0xE0) * 0x1000 + (b1 - 0x80) * 0x40 + (b2 - 0x80)) :: utf8DecodeIgnore r2
            else utf8DecodeIgnore r1
        else utf8DecodeIgnore r0
    else if b0 < 0xF5 then
      match h0 : r0 with
      | [] => []
      | b1 :: r1 =>
        if cont2OK4 b0 b1 then
          match h1 : r1 with
          | [] => []
          | b2 :: r2 =>
            if contOK b2 then
              match h2 : r2 with
              | [] => []
              | b3 :: r3 =>
                if contOK b3 then
                  ((b0 - 0xF0) * 0x40000 + (b1 - 0x80) * 0x1000 + (b2 - 0x80) * 0x40 + (b3 - 0x80))
                    :: utf8DecodeIgnore r3
                else utf8DecodeIgnore r2
            else utf8DecodeIgnore r1
        else utf8DecodeIgnore r0
    else utf8DecodeIgnore r0
termination_by bs => bs.length
decreasing_by all_goals (simp_all [List.length_cons]; try omega)

/-- Modelled from the spec: `bs.decode("utf-8", errors="replace")`, the
lenient decoding the specification describes ("substituting a replacement
marker for invalid byte sequences"): each maximal invalid subpart becomes
one U+FFFD. -/
def utf8DecodeReplace : List Nat → List Nat
  | [] => []
  | b0 :: r0 =>
    if b0 < 0x80 then b0 :: utf8DecodeReplace r0
    else if b0 < 0xC2 then 0xFFFD :: utf8DecodeReplace r0
    else if b0 < 0xE0 then
      match h0 : r0 with
      | [] => [0xFFFD]
      | b1 :: r1 =>
        if contOK b1 then ((b0 - 0xC0) * 0x40 + (b1 - 0x80)) :: utf8DecodeReplace r1
        else 0xFFFD :: utf8DecodeReplace r0
    else if b0 < 0xF0 then
      match h0 : r0 with
      | [] => [0xFFFD]
      | b1 :: r1 =>
        if cont2OK b0 b1 then
          match h1 : r1 with
          | [] => [0xFFFD]
          | b2 :: r2 =>
            if contOK b2 then
              ((b0 - 0xE0) * 0x1000 + (b1 - 0x80) * 0x40 + (b2 - 0x80)) :: utf8DecodeReplace r2
            else 0xFFFD :: utf8DecodeReplace r1
        else 0xFFFD :: utf8DecodeReplace r0
    else if b0 < 0xF5 then
      match h0 : r0 with
      | [] => [0xFFFD]
      | b1 :: r1 =>
        if cont2OK4 b0 b1 then
          match h1 : r1 with
          | [] => [0xFFFD]
          | b2 :: r2 =>
            if contOK b2 then
              match h2 : r2 with
              | [] => [0xFFFD]
              | b3 :: r3 =>
                if contOK b3 then
                  ((b0 - 0xF0) * 0x40000 + (b1 - 0x80) * 0x1000 + (b2 - 0x80) * 0x40 + (b3 - 0x80))
                    :: utf8DecodeReplace r3
                else 0xFFFD :: utf8DecodeReplace r2
            else 0xFFFD :: utf8DecodeReplace r1
        else 0xFFFD :: utf8DecodeReplace r0
    else 0xFFFD :: utf8DecodeReplace r0
termination_by bs => bs.length
decreasing_by all_goals (simp_all [List.length_cons]; try omega)

/-- `bs.rstrip(b'\x00')`: drop trailing zero bytes. -/
def rstrip0 (bs : List Nat) : List Nat := (bs.reverse.dropWhile (fun b => b == 0)).reverse

/-! ## Schema and record codec -/

/-- A schema field, the `(fname, ftype, flen)` tuples of the source. -/
structure Field where
  fname : PyStr
  ftype : PyStr
  flen : Nat
deriving DecidableEq

/-- The string `"int"`. -/
def strInt : PyStr := [105, 110, 116]

/-- The string `"str"`. -/
def strStr : PyStr := [115, 116, 114]

/-- Source: `compute_record_size`.  1 valid-flag byte plus the field widths. -/
def compute_record_size (fields : List Field) : Nat :=
  fields.foldl (fun total f => total + f.flen) 1

/-- Source: the field loop of `pack_record`, over `zip(fields, values)`.
An Integer field whose text does not parse raises `ValueError`; an
in-range parse is stored as 4 big-endian bytes (out of range raises
`OverflowError` from `int_to_bytes`).  Any other field kind is encoded as
UTF-8, truncated at `flen` bytes, zero-padded to `flen`. -/
def packFields : List (Field × PyStr) → Except PackErr (List Nat)
  | [] => Except.ok []
  | (f, v) :: rest =>
    if f.ftype = strInt then
      match pyInt v with
      | none => Except.error PackErr.valueError
      | some ival =>
        match int_to_bytes ival with
        | Except.error e => Except.error e
        | Except.ok bs =>
          match packFields rest with
          | Except.error e => Except.error e
          | Except.ok tail => Except.ok (bs ++ tail)
    else
      let s := utf8Encode v
      let s := if f.flen < s.length then s.take f.flen else s
      match packFields rest with
      | Except.error e => Except.error e
      | Except.ok tail => Except.ok (s ++ List.replicate (f.flen - s.length) 0 ++ tail)

/-- Source: `pack_record`.  First byte 1 (valid), then the packed fields. -/
def pack_record (fields : List Field) (values : List PyStr) : Except PackErr (List Nat) :=
  match packFields (fields.zip values) with
  | Except.error e => Except.error e
  | Except.ok body => Except.ok (1 :: body)

/-- One decoded field value: an Integer field renders the big-endian
signed value as text, any other field strips trailing zero bytes and
decodes UTF-8 with `errors="ignore"`. -/
def renderField (f : Field) (chunk : List Nat) : PyStr :=
  if f.ftype = strInt then intToStr (bytes_to_int chunk)
  else utf8DecodeIgnore (rstrip0 chunk)

/-- Source: the field loop of `unpack_record`: slice
`record_bytes[offset : offset + flen]` for each field in order. -/
def unpackFields (rb : List Nat) : List Field → Nat → List PyStr
  | [], _ => []
  | f :: rest, offset =>
    renderField f ((rb.drop offset).take f.flen) :: unpackFields rb rest (offset + f.flen)

/-- Source: `unpack_record`.  Skips the valid-flag byte at offset 0. -/
def unpack_record (fields : List Field) (record_bytes : List Nat) : List PyStr :=
  unpackFields record_bytes fields 1

/-! ## Page layout constants and the data file -/

def NUM_SLOTS : Nat := 10

/-- Page header: 1 occupied-count byte + `NUM_SLOTS` slot-bitmap bytes. -/
def PAGE_HEADER_SIZE : Nat := 1 + NUM_SLOTS

def MAX_PAGES : Nat := 1000

/-- Page size for a record size: header plus `NUM_SLOTS` slots. -/
def pageSize (rec_size : Nat) : Nat := PAGE_HEADER_SIZE + NUM_SLOTS * rec_size

/-- `f.seek(off); f.write(data)` on a file with contents `file`: bytes
before `off` are kept (a seek past EOF zero-fills the gap), `data`
replaces the next `data.length` bytes, the remainder is kept. -/
def writeBytes (file : List Nat) (off : Nat) (data : List Nat) : List Nat :=
  file.take off ++ List.replicate (off - file.length) 0 ++ data ++ file.drop (off + data.length)

/-- The byte of `file` at offset `i` (0 past EOF; real file bytes are
always < 256). -/
def byteAt (file : List Nat) (i : Nat) : Nat := file.getD i 0

/-- Source: `find_free_slot_in_page`.  Reads the page header; a short
header or a full page gives `None`, otherwise the first bitmap byte equal
to 0.  (The source also receives the schema but uses it only to compute
sizes it never reads.) -/
def find_free_slot_in_page (file : List Nat) (page_offset : Nat) : Option Nat :=
  let header := (file.drop page_offset).take PAGE_HEADER_SIZE
  if header.length < PAGE_HEADER_SIZE then none
  else if NUM_SLOTS ≤ header.getD 0 0 then none
  else ((header.drop 1).take NUM_SLOTS).findIdx? (fun b => b == 0)

/-- Does the occupied slot `slot` of the page at `page_offset` hold a
record whose decoded primary-key text equals `pk`?  (The record slice and
`unpack_record` comparison of the source's slot loop.) -/
def slotPkMatches (fields : List Field) (pkIdx rec_size : Nat) (pk : PyStr)
    (file : List Nat) (page_offset slot : Nat) : Bool :=
  (unpack_record fields ((file.drop (page_offset + PAGE_HEADER_SIZE + slot * rec_size)).take rec_size)).getD pkIdx [] == pk

/-- Source: the page-scan loop of `find_record_page_slot`: stop on a short
header; skip a page whose occupied-count is 0; otherwise return the first
slot whose bitmap byte is 1 and whose record's decoded primary key equals
`pk`; advance one page otherwise. -/
def findPages (fields : List Field) (pkIdx : Nat) (pk : PyStr)
    (file : List Nat) (page_offset : Nat) : Option (Nat × Nat) :=
  let rec_size := compute_record_size fields
  let page_size := pageSize rec_size
  let header := (file.drop page_offset).take PAGE_HEADER_SIZE
  -- `f.read(PAGE_HEADER_SIZE)` returns fewer than `PAGE_HEADER_SIZE` bytes
  -- exactly when the file is shorter than `page_offset + PAGE_HEADER_SIZE`.
  if h11 : file.length < page_offset + PAGE_HEADER_SIZE then none
  else if header.getD 0 0 = 0 then
    findPages fields pkIdx pk file (page_offset + page_size)
  else
    match (List.range NUM_SLOTS).find? (fun s =>
        header.getD (1 + s) 0 == 1 && slotPkMatches fields pkIdx rec_size pk file page_offset s) with
    | some s => some (page_offset, s)
    | none => findPages fields pkIdx pk file (page_offset + page_size)
termination_by file.length - page_offset
decreasing_by
  all_goals simp only [not_lt, pageSize, PAGE_HEADER_SIZE, NUM_SLOTS] at *
  all_goals omega

/-! ## Catalog (materialized mapping, as the handlers consume it) -/

/-- One catalog entry as the handlers read it back. -/
structure TypeInfo where
  num_fields : Nat
  pk_index : Nat
  fields : List Field
deriving DecidableEq

/-- The materialized catalog mapping (dict insertion order preserved). -/
abbrev Catalog := List (PyStr × TypeInfo)

/-- `tname in catalog` / `catalog[tname]`. -/
def lookupType (catalog : Catalog) (tname : PyStr) : Option TypeInfo :=
  (catalog.find? (fun e => e.1 == tname)).map (fun e => e.2)

/-- Source: `find_record_page_slot`.  `none` models both "type not in
catalog" and "data file does not exist". -/
def find_record_page_slot (catalog : Catalog) (dat : Option (List Nat))
    (tname pk_value : PyStr) : Option (Nat × Nat) :=
  match lookupType catalog tname with
  | none => none
  | some ti =>
    match dat with
    | none => none
    | some file => findPages ti.fields (ti.pk_index - 1) pk_value file 0

/-! ## CRUD handlers -/

/-- The write performed once a free slot is chosen: write the record
bytes into the slot, then rewrite the page header with occupied-count + 1
and the slot's bitmap byte set to 1. -/
def applyInsert (fields : List Field) (record_bytes file : List Nat)
    (page_offset free_slot : Nat) : List Nat :=
  let rec_size := compute_record_size fields
  let record_offset := page_offset + PAGE_HEADER_SIZE + free_slot * rec_size
  let f1 := writeBytes file record_offset record_bytes
  let header := (f1.drop page_offset).take PAGE_HEADER_SIZE
  let header' := (header.set 0 (header.getD 0 0 + 1)).set (1 + free_slot) 1
  writeBytes f1 page_offset header'

/-- Source: the free-slot scan loop of `handle_create_record`: scan all
pages present when the loop started (`page_offset < file_size`); on the
first page with a free slot, perform `applyInsert` there; `none` when no
existing page has room. -/
def insertScanLoop (fields : List Field) (record_bytes : List Nat)
    (file : List Nat) (file_size page_offset : Nat) : Option (List Nat) :=
  let rec_size := compute_record_size fields
  let page_size := pageSize rec_size
  if h : page_offset < file_size then
    match find_free_slot_in_page file page_offset with
    | some free_slot => some (applyInsert fields record_bytes file page_offset free_slot)
    | none => insertScanLoop fields record_bytes file file_size (page_offset + page_size)
  else none
termination_by file_size - page_offset
decreasing_by
  all_goals simp only [pageSize, PAGE_HEADER_SIZE, NUM_SLOTS] at *
  all_goals omega

/-- A freshly zeroed page: occupied-count 0, all bitmap bytes 0, all slot
bytes 0. -/
def emptyPage (rec_size : Nat) : List Nat :=
  List.replicate PAGE_HEADER_SIZE 0 ++ List.replicate (NUM_SLOTS * rec_size) 0

/-- The page appended when no existing page has room: header with
occupied-count 1 and bitmap bit 0 set, the record in slot 0, the other
slots zeroed (`page_content[0:rec_size] = record_bytes` on a zeroed
buffer). -/
def appendedPage (rec_size : Nat) (record_bytes : List Nat) : List Nat :=
  (1 :: 1 :: List.replicate (NUM_SLOTS - 1) 0)
    ++ record_bytes ++ List.replicate (NUM_SLOTS * rec_size - rec_size) 0

/-- Source: `handle_create_record`.  The result is `Except.error` for an
exception that escapes the handler (an `OverflowError` from the encoder,
which the handler's `except ValueError` does not catch); otherwise
`(success?, new data-file contents)`.  Token-count, schema, value-count,
duplicate-key and encoding checks happen in this order before any write;
an empty (or missing) file is first initialized with one zeroed page. -/
def handle_create_record (catalog : Catalog) (dat : Option (List Nat))
    (tokens : List PyStr) : Except PackErr (Bool × Option (List Nat)) :=
  if tokens.length < 4 then Except.ok (false, dat)
  else
    let tname := tokens.getD 2 []
    let value_tokens := tokens.drop 3
    match lookupType catalog tname with
    | none => Except.ok (false, dat)
    | some ti =>
      let num_fields := ti.num_fields
      let pk_index := ti.pk_index - 1
      let fields := ti.fields
      let rec_size := compute_record_size fields
      let page_size := pageSize rec_size
      if value_tokens.length ≠ num_fields then Except.ok (false, dat)
      else
        let pk_value := value_tokens.getD pk_index []
        match find_record_page_slot catalog dat tname pk_value with
        | some _ => Except.ok (false, dat)
        | none =>
          match pack_record fields value_tokens with
          | Except.error PackErr.valueError => Except.ok (false, dat)
          | Except.error PackErr.overflowError => Except.error PackErr.overflowError
          | Except.ok record_bytes =>
            let file0 := dat.getD []
            let file1 := if file0.length = 0 then emptyPage rec_size else file0
            match insertScanLoop fields record_bytes file1 file1.length 0 with
            | some f2 => Except.ok (true, some f2)
            | none =>
              if MAX_PAGES ≤ file1.length / page_size then Except.ok (false, some file1)
              else Except.ok (true, some (file1 ++ appendedPage rec_size record_bytes))

/-- The writes a successful delete performs: zero the record's valid-flag
byte, then reread the page header, decrement the occupied-count if
positive, clear the slot's bitmap byte, and write the header back. -/
def applyDelete (fields : List Field) (file : List Nat) (page_off slot_idx : Nat) :
    List Nat :=
  let rec_size := compute_record_size fields
  let record_offset := page_off + PAGE_HEADER_SIZE + slot_idx * rec_size
  let f1 := writeBytes file record_offset [0]
  let header := (f1.drop page_off).take PAGE_HEADER_SIZE
  let header1 :=
    if 0 < header.getD 0 0 then header.set 0 (header.getD 0 0 - 1) else header
  let header2 := header1.set (1 + slot_idx) 0
  writeBytes f1 page_off header2

/-- Source: `handle_delete_record`.  Exactly 4 tokens; locate the record;
then `applyDelete` its slot. -/
def handle_delete_record (catalog : Catalog) (dat : Option (List Nat))
    (tokens : List PyStr) : Bool × Option (List Nat) :=
  if tokens.length ≠ 4 then (false, dat)
  else
    let tname := tokens.getD 2 []
    let pk_value := tokens.getD 3 []
    match lookupType catalog tname with
    | none => (false, dat)
    | some ti =>
      match find_record_page_slot catalog dat tname pk_value with
      | none => (false, dat)
      | some (page_off, slot_idx) =>
        match dat with
        | none => (false, dat)  -- unreachable: locating a record required the file to exist
        | some file => (true, some (applyDelete ti.fields file page_off slot_idx))

/-- Source: `handle_search_record`.  Exactly 4 tokens; locate the record;
read and decode its slot. -/
def handle_search_record (catalog : Catalog) (dat : Option (List Nat))
    (tokens : List PyStr) : Option (List PyStr) :=
  if tokens.length ≠ 4 then none
  else
    let tname := tokens.getD 2 []
    let pk_value := tokens.getD 3 []
    match lookupType catalog tname with
    | none => none
    | some ti =>
      let rec_size := compute_record_size ti.fields
      match find_record_page_slot catalog dat tname pk_value with
      | none => none
      | some (page_off, slot_idx) =>
        match dat with
        | none => none  -- unreachable: locating a record required the file to exist
        | some file =>
          some (unpack_record ti.fields
            ((file.drop (page_off + PAGE_HEADER_SIZE + slot_idx * rec_size)).take rec_size))

/-! ## CreateType -/

/-- Source: the per-field validation loop of `handle_create_type`: each
(name, kind) pair needs a name of at most 20 characters and kind `int` or
`str`; byte lengths 4 and 20 are assigned.  The caller has already
checked the token list has even length `2 * nf`. -/
def pairFields : List PyStr → Option (List Field)
  | [] => some []
  | fname :: ftype :: rest =>
    if 20 < fname.length then none
    else if ftype ≠ strInt ∧ ftype ≠ strStr then none
    else
      let flen := if ftype = strInt then 4 else 20
      match pairFields rest with
      | none => none
      | some fs => some (⟨fname, ftype, flen⟩ :: fs)
  | _ => none

/-- Source: `handle_create_type`.  Validates in source order: token count
≥ 6; `nf` and `pk_index` parse as ints; `1 ≤ nf ≤ 6`; `1 ≤ pk_index ≤ nf`;
type name at most 12 characters; exactly `2 * nf` field tokens; no
duplicate type; field names/kinds as in `pairFields`.  Returns the
catalog entry appended on success (the data-file creation always succeeds
in the model), `none` on any validation failure. -/
def handle_create_type (catalog : Catalog) (tokens : List PyStr) :
    Option (PyStr × TypeInfo) :=
  if tokens.length < 6 then none
  else
    let tname := tokens.getD 2 []
    let nf_str := tokens.getD 3 []
    let pk_str := tokens.getD 4 []
    let field_tokens := tokens.drop 5
    match pyInt nf_str, pyInt pk_str with
    | some nf, some pk_index =>
      if nf < 1 ∨ 6 < nf then none
      else if pk_index < 1 ∨ nf < pk_index then none
      else if 12 < tname.length then none
      else if (field_tokens.length : Int) ≠ nf * 2 then none
      else
        match lookupType catalog tname with
        | some _ => none
        | none =>
          match pairFields field_tokens with
          | none => none
          | some fields_list => some (tname, ⟨nf.toNat, pk_index.toNat, fields_list⟩)
    | _, _ => none

/-! ## Catalog metadata store parsing (`read_catalog`) -/

/-- A catalog entry exactly as parsed back from a metadata-store line
(counts and lengths are arbitrary parsed ints). -/
structure RawTypeInfo where
  num_fields : Int
  pk_index : Int
  fields : List (PyStr × PyStr × Int)
deriving DecidableEq

abbrev RawCatalog := List (PyStr × RawTypeInfo)

/-- Python `s.split(d)` for a one-character delimiter: empty pieces kept,
`"".split(d) = [""]`. -/
def splitByte (d : Nat) (s : PyStr) : List PyStr :=
  s.foldr (fun c acc =>
    match acc with
    | [] => [[c]]
    | a :: as => if c == d then [] :: a :: as else (c :: a) :: as) [[]]

/-- One `fname,ftype,flen` field token: `fld.split(",")` must give
exactly three pieces and the length must parse (else that line's
`ValueError` skips the line). -/
def parseFieldTok (fld : PyStr) : Option (PyStr × PyStr × Int) :=
  match splitByte 44 fld with
  | [fname, ftype, flen_str] =>
    match pyInt flen_str with
    | some flen => some (fname, ftype, flen)
    | none => none
  | _ => none

/-- All field tokens of a line, first failure skips the line. -/
def parseFieldToks : List PyStr → Option (List (PyStr × PyStr × Int))
  | [] => some []
  | fld :: rest =>
    match parseFieldTok fld with
    | none => none
    | some f =>
      match parseFieldToks rest with
      | none => none
      | some fs => some (f :: fs)

/-- Source: the per-line body of `read_catalog`: strip; skip blank lines;
split on `|` into at least `tname|nf|pk`; parse the ints and the field
tokens; require the parsed field count to equal `nf`.  `none` for every
malformed (skipped) line. -/
def parseCatalogLine (line : PyStr) : Option (PyStr × RawTypeInfo) :=
  let l := stripWs line
  if l.isEmpty then none
  else
    match splitByte 124 l with
    | tname :: nf_str :: pk_str :: flds =>
      match pyInt nf_str, pyInt pk_str with
      | some nf, some pk =>
        match parseFieldToks flds with
        | none => none
        | some fields =>
          if (fields.length : Int) = nf then some (tname, ⟨nf, pk, fields⟩) else none
      | _, _ => none
    | _ => none

/-- `catalog[tname] = entry` on the insertion-ordered mapping: overwrite
an existing key in place, else append. -/
def upsert (c : RawCatalog) (t : PyStr) (e : RawTypeInfo) : RawCatalog :=
  if c.any (fun p => p.1 == t) then c.map (fun p => if p.1 == t then (t, e) else p)
  else c ++ [(t, e)]

/-- Source: `read_catalog`, over the metadata store's lines: well-formed
lines populate the mapping in order (later duplicates overwrite),
malformed lines are skipped. -/
def read_catalog (lines : List PyStr) : RawCatalog :=
  lines.foldl (fun cat line =>
    match parseCatalogLine line with
    | some (t, e) => upsert cat t e
    | none => cat) []

/-- Dictionary lookup on the parsed catalog. -/
def lookupRaw (c : RawCatalog) (t : PyStr) : Option RawTypeInfo :=
  (c.find? (fun p => p.1 == t)).map (fun p => p.2)

/-- The entry the last well-formed line naming `t` defines (what a
loaded catalog should expose for `t`). -/
def lastCatalogEntry (lines : List PyStr) (t : PyStr) : Option RawTypeInfo :=
  (((lines.filterMap parseCatalogLine).filter (fun p => p.1 == t)).getLast?).map (fun p => p.2)

/-! ## Catalog-parsing lemmas -/

theorem getLast?_cons {α : Type} (a : α) (l : List α) :
    (a :: l).getLast? = l.getLast?.or (some a) := by
  induction l generalizing a with
  | nil => rfl
  | cons b bs ih =>
    rw [List.getLast?_cons_cons, ih b]
    cases hbs : bs.getLast? <;> simp [Option.or]

theorem lookupRaw_nil (t : PyStr) : lookupRaw [] t = none := rfl

theorem lookupRaw_cons (p : PyStr × RawTypeInfo) (c : RawCatalog) (t : PyStr) :
    lookupRaw (p :: c) t = if p.1 = t then some p.2 else lookupRaw c t := by
  by_cases h : p.1 = t
  · have hb : (p.1 == t) = true := beq_iff_eq.mpr h
    simp [lookupRaw, List.find?_cons_of_pos, hb, h]
  · have hb : (p.1 == t) = false := beq_eq_false_iff_ne.mpr h
    simp only [lookupRaw, if_neg h]
    rw [List.find?_cons_of_neg]
    simp [hb]

theorem lookupRaw_map_ne (c : RawCatalog) (t : PyStr) (e : RawTypeInfo) (t' : PyStr)
    (hne : t' ≠ t) :
    lookupRaw (c.map (fun p => if p.1 == t then (t, e) else p)) t' = lookupRaw c t' := by
  induction c with
  | nil => rfl
  | cons p cs ih =>
    simp only [List.map_cons]
    by_cases hp : p.1 = t
    · have hb : (p.1 == t) = true := beq_iff_eq.mpr hp
      rw [if_pos hb, lookupRaw_cons, lookupRaw_cons]
      rw [if_neg (show ¬(((t, e) : PyStr × RawTypeInfo).1 = t') from fun h => hne h.symm)]
      rw [if_neg (show ¬(p.1 = t') from by rw [hp]; exact fun h => hne h.symm)]
      exact ih
    · have hb : (p.1 == t) = false := beq_eq_false_iff_ne.mpr hp
      rw [if_neg (show ¬((p.1 == t) = true) from by simp [hb]), lookupRaw_cons, lookupRaw_cons]
      by_cases hm : p.1 = t'
      · rw [if_pos hm, if_pos hm]
      · rw [if_neg hm, if_neg hm]
        exact ih

theorem lookupRaw_map_eq (c : RawCatalog) (t : PyStr) (e : RawTypeInfo)
    (hany : c.any (fun p => p.1 == t) = true) :
    lookupRaw (c.map (fun p => if p.1 == t then (t, e) else p)) t = some e := by
  induction c with
  | nil => simp at hany
  | cons p cs ih =>
    simp only [List.map_cons]
    by_cases hp : p.1 = t
    · have hb : (p.1 == t) = true := beq_iff_eq.mpr hp
      rw [if_pos hb, lookupRaw_cons]
      simp
    · have hb : (p.1 == t) = false := beq_eq_false_iff_ne.mpr hp
      simp only [List.any_cons, hb, Bool.false_or] at hany
      rw [if_neg (show ¬((p.1 == t) = true) from by simp [hb]), lookupRaw_cons, if_neg hp]
      exact ih hany

theorem lookupRaw_upsert (c : RawCatalog) (t : PyStr) (e : RawTypeInfo) (t' : PyStr) :
    lookupRaw (upsert c t e) t' = if t' = t then some e else lookupRaw c t' := by
  unfold upsert
  by_cases hany : c.any (fun p => p.1 == t) = true
  · rw [if_pos hany]
    by_cases ht : t' = t
    · subst ht
      rw [if_pos rfl]
      exact lookupRaw_map_eq c t' e hany
    · rw [if_neg ht]
      exact lookupRaw_map_ne c t e t' ht
  · rw [if_neg hany]
    induction c with
    | nil =>
      rw [List.nil_append, lookupRaw_cons]
      by_cases ht : t' = t
      · rw [if_pos ht.symm, if_pos ht]
      · rw [if_neg (fun h => ht h.symm), if_neg ht]
    | cons p cs ih =>
      simp only [List.any_cons, Bool.or_eq_true, not_or] at hany
      rw [List.cons_append, lookupRaw_cons, lookupRaw_cons]
      by_cases hm : p.1 = t'
      · rw [if_pos hm, if_pos hm]
        have : t' ≠ t := by
          intro h
          exact hany.1 (beq_iff_eq.mpr (hm.trans h))
        rw [if_neg this]
      · rw [if_neg hm, if_neg hm]
        exact ih (by simpa using hany.2)

theorem lookupRaw_read_catalog_aux (lines : List PyStr) (c : RawCatalog) (t : PyStr) :
    lookupRaw (lines.foldl (fun cat line =>
      match parseCatalogLine line with
      | some p => upsert cat p.1 p.2
      | none => cat) c) t
    = (lastCatalogEntry lines t).or (lookupRaw c t) := by
  induction lines generalizing c with
  | nil => simp [lastCatalogEntry, Option.or]
  | cons l ls ih =>
    simp only [List.foldl_cons]
    cases hparse : parseCatalogLine l with
    | none =>
      simp only [hparse]
      rw [ih c]
      simp [lastCatalogEntry, List.filterMap_cons, hparse]
    | some p =>
      simp only [hparse]
      rw [ih (upsert c p.1 p.2)]
      simp only [lastCatalogEntry, List.filterMap_cons, hparse]
      rw [List.filter_cons]
      by_cases hk : p.1 = t
      · rw [if_pos (show ((p.1 == t) = true) from beq_iff_eq.mpr hk)]
        rw [getLast?_cons, lookupRaw_upsert c p.1 p.2 t, if_pos hk.symm]
        cases hrest : ((ls.filterMap parseCatalogLine).filter (fun q => q.1 == t)).getLast? with
        | none => simp [Option.or]
        | some q => simp [Option.or]
      · rw [if_neg (show ¬((p.1 == t) = true) from by simp [hk])]
        rw [lookupRaw_upsert c p.1 p.2 t, if_neg (fun h => hk h.symm)]

theorem lookupRaw_read_catalog (lines : List PyStr) (t : PyStr) :
    lookupRaw (read_catalog lines) t = lastCatalogEntry lines t := by
  have h := lookupRaw_read_catalog_aux lines [] t
  unfold read_catalog
  have heq : (fun (cat : RawCatalog) (line : PyStr) =>
      match parseCatalogLine line with
      | some (t, e) => upsert cat t e
      | none => cat)
    = (fun (cat : RawCatalog) (line : PyStr) =>
      match parseCatalogLine line with
      | some p => upsert cat p.1 p.2
      | none => cat) := by
    funext cat line
    cases parseCatalogLine line with
    | none => rfl
    | some p => rfl
  rw [heq, h]
  cases hlast : lastCatalogEntry lines t <;> simp [lookupRaw, Option.or]

/-- The well-formed metadata line `A|1|1|x,int,4`. -/
def lineGoodA : PyStr := [65, 124, 49, 124, 49, 124, 120, 44, 105, 110, 116, 44, 52]

/-- The malformed metadata line `B|z|1|x,int,4` (non-integer field count). -/
def lineBadB : PyStr := [66, 124, 122, 124, 49, 124, 120, 44, 105, 110, 116, 44, 52]

/-- A second well-formed line for type `A`: `A|1|1|y,str,20`. -/
def lineGoodA2 : PyStr := [65, 124, 49, 124, 49, 124, 121, 44, 115, 116, 114, 44, 50, 48]

/-- C8: catalog load keeps exactly the well-formed lines.  For every
metadata-store content, the loaded mapping's entry for a type name is the
one defined by the last well-formed line naming it — so malformed lines
(too few tokens, non-integer counts/indices/lengths, field tokens that do
not split in three, field-count mismatches: every `parseCatalogLine`
failure) are skipped without aborting the rest, and later well-formed
duplicates overwrite earlier ones.  In particular a store with the
well-formed `A|1|1|x,int,4` and the malformed `B|z|1|x,int,4` exposes
only `A`, and a second well-formed `A` line overwrites the first. -/
theorem c8_catalog_load_skips_malformed_lines :
    (∀ (lines : List PyStr) (t : PyStr),
      lookupRaw (read_catalog lines) t = lastCatalogEntry lines t)
    ∧ lookupRaw (read_catalog [lineGoodA, lineBadB]) [65]
        = some ⟨1, 1, [([120], [105, 110, 116], 4)]⟩
    ∧ lookupRaw (read_catalog [lineGoodA, lineBadB]) [66] = none
    ∧ lookupRaw (read_catalog [lineGoodA, lineGoodA2]) [65]
        = some ⟨1, 1, [([121], [115, 116, 114], 20)]⟩ :=
  ⟨lookupRaw_read_catalog, by decide, by decide, by decide⟩

/-! ## CreateType validation lemmas -/

theorem pairFields_none_of_long_name (ftoks : List PyStr) (k : Nat)
    (hk : 2 * k < ftoks.length) (hlong : 20 < (ftoks.getD (2 * k) []).length) :
    pairFields ftoks = none := by
  induction k generalizing ftoks with
  | zero =>
    match ftoks with
    | [] => simp at hk
    | [a] =>
      rfl
    | a :: b :: rest =>
      simp only [Nat.mul_zero, List.getD_cons_zero] at hlong
      unfold pairFields
      rw [if_pos hlong]
  | succ n ih =>
    match ftoks with
    | [] => simp at hk
    | [a] => rfl
    | a :: b :: rest =>
      unfold pairFields
      by_cases h1 : 20 < a.length
      · rw [if_pos h1]
      · rw [if_neg h1]
        by_cases h2 : b ≠ strInt ∧ b ≠ strStr
        · rw [if_pos h2]
        · rw [if_neg h2]
          have : pairFields rest = none := by
            apply ih
            · simp only [List.length_cons] at hk
              omega
            · have : (a :: b :: rest).getD (2 * (n + 1)) [] = rest.getD (2 * n) [] := by
                have h2n : 2 * (n + 1) = (2 * n + 1) + 1 := by omega
                rw [h2n, List.getD_cons_succ, List.getD_cons_succ]
              rw [this] at hlong
              exact hlong
          rw [this]

theorem pairFields_none_of_bad_kind (ftoks : List PyStr) (k : Nat)
    (hk : 2 * k + 1 < ftoks.length)
    (hbad : ftoks.getD (2 * k + 1) [] ≠ strInt ∧ ftoks.getD (2 * k + 1) [] ≠ strStr) :
    pairFields ftoks = none := by
  induction k generalizing ftoks with
  | zero =>
    match ftoks with
    | [] => simp at hk
    | [a] => rfl
    | a :: b :: rest =>
      simp only [Nat.mul_zero, Nat.zero_add, List.getD_cons_succ, List.getD_cons_zero] at hbad
      unfold pairFields
      by_cases h1 : 20 < a.length
      · rw [if_pos h1]
      · rw [if_neg h1, if_pos hbad]
  | succ n ih =>
    match ftoks with
    | [] => simp at hk
    | [a] => rfl
    | a :: b :: rest =>
      unfold pairFields
      by_cases h1 : 20 < a.length
      · rw [if_pos h1]
      · rw [if_neg h1]
        by_cases h2 : b ≠ strInt ∧ b ≠ strStr
        · rw [if_pos h2]
        · rw [if_neg h2]
          have : pairFields rest = none := by
            apply ih
            · simp only [List.length_cons] at hk
              omega
            · have heq : (a :: b :: rest).getD (2 * (n + 1) + 1) [] = rest.getD (2 * n + 1) [] := by
                have h2n : 2 * (n + 1) + 1 = (2 * n + 1 + 1) + 1 := by omega
                rw [h2n, List.getD_cons_succ, List.getD_cons_succ]
              rw [heq] at hbad
              exact hbad
          rw [this]

theorem pairFields_pairs (pairs : List (PyStr × PyStr))
    (hok : ∀ p ∈ pairs, p.1.length ≤ 20 ∧ (p.2 = strInt ∨ p.2 = strStr)) :
    pairFields (pairs.flatMap fun p => [p.1, p.2])
      = some (pairs.map fun p => ⟨p.1, p.2, if p.2 = strInt then 4 else 20⟩) := by
  induction pairs with
  | nil => rfl
  | cons p ps ih =>
    have hp := hok p (List.mem_cons_self p ps)
    have hps : ∀ q ∈ ps, q.1.length ≤ 20 ∧ (q.2 = strInt ∨ q.2 = strStr) :=
      fun q hq => hok q (List.mem_cons_of_mem p hq)
    simp only [List.flatMap_cons, List.cons_append, List.nil_append]
    unfold pairFields
    rw [if_neg (by omega : ¬(20 < p.1.length))]
    rw [if_neg (by
      intro hcon
      rcases hp.2 with h | h
      · exact hcon.1 h
      · exact hcon.2 h)]
    rw [ih hps]
    simp

theorem getD2_cons (a b c : PyStr) (l : List PyStr) : (a :: b :: c :: l).getD 2 [] = c := rfl

theorem getD3_cons (a b c d : PyStr) (l : List PyStr) :
    (a :: b :: c :: d :: l).getD 3 [] = d := rfl

theorem getD4_cons (a b c d e : PyStr) (l : List PyStr) :
    (a :: b :: c :: d :: e :: l).getD 4 [] = e := rfl

theorem flatMap_pairs_length (pairs : List (PyStr × PyStr)) :
    (pairs.flatMap fun p => [p.1, p.2]).length = 2 * pairs.length := by
  induction pairs with
  | nil => rfl
  | cons p ps ih => simp [List.flatMap_cons, ih]; omega

theorem create_type_none_of_nf (cat : Catalog) (c0 c1 tname nfs pks : PyStr)
    (ftoks : List PyStr) (nf : Int) (hnf : pyInt nfs = some nf) (hr : nf < 1 ∨ 6 < nf) :
    handle_create_type cat (c0 :: c1 :: tname :: nfs :: pks :: ftoks) = none := by
  unfold handle_create_type
  by_cases hlen : (c0 :: c1 :: tname :: nfs :: pks :: ftoks).length < 6
  · rw [if_pos hlen]
  · rw [if_neg hlen]
    simp only [getD2_cons, getD3_cons, getD4_cons]
    rw [hnf]
    cases hpk : pyInt pks with
    | none => rfl
    | some pk =>
      simp only []
      rw [if_pos hr]

theorem create_type_none_of_pk (cat : Catalog) (c0 c1 tname nfs pks : PyStr)
    (ftoks : List PyStr) (nf pk : Int) (hnf : pyInt nfs = some nf)
    (hpk : pyInt pks = some pk) (hr : pk < 1 ∨ nf < pk) :
    handle_create_type cat (c0 :: c1 :: tname :: nfs :: pks :: ftoks) = none := by
  unfold handle_create_type
  by_cases hlen : (c0 :: c1 :: tname :: nfs :: pks :: ftoks).length < 6
  · rw [if_pos hlen]
  · rw [if_neg hlen]
    simp only [getD2_cons, getD3_cons, getD4_cons]
    rw [hnf, hpk]
    simp only []
    by_cases h1 : nf < 1 ∨ 6 < nf
    · rw [if_pos h1]
    · rw [if_neg h1, if_pos hr]

theorem create_type_none_of_name (cat : Catalog) (c0 c1 tname nfs pks : PyStr)
    (ftoks : List PyStr) (hname : 12 < tname.length) :
    handle_create_type cat (c0 :: c1 :: tname :: nfs :: pks :: ftoks) = none := by
  unfold handle_create_type
  by_cases hlen : (c0 :: c1 :: tname :: nfs :: pks :: ftoks).length < 6
  · rw [if_pos hlen]
  · rw [if_neg hlen]
    simp only [getD2_cons, getD3_cons, getD4_cons]
    cases hnf : pyInt nfs with
    | none => rfl
    | some nf =>
      cases hpk : pyInt pks with
      | none => rfl
      | some pk =>
        simp only []
        by_cases h1 : nf < 1 ∨ 6 < nf
        · rw [if_pos h1]
        · rw [if_neg h1]
          by_cases h2 : pk < 1 ∨ nf < pk
          · rw [if_pos h2]
          · rw [if_neg h2, if_pos hname]

theorem create_type_none_of_count (cat : Catalog) (c0 c1 tname nfs pks : PyStr)
    (ftoks : List PyStr) (nf : Int) (hnf : pyInt nfs = some nf)
    (hcount : (ftoks.length : Int) ≠ nf * 2) :
    handle_create_type cat (c0 :: c1 :: tname :: nfs :: pks :: ftoks) = none := by
  unfold handle_create_type
  by_cases hlen : (c0 :: c1 :: tname :: nfs :: pks :: ftoks).length < 6
  · rw [if_pos hlen]
  · rw [if_neg hlen]
    simp only [getD2_cons, getD3_cons, getD4_cons]
    rw [hnf]
    cases hpk : pyInt pks with
    | none => rfl
    | some pk =>
      simp only []
      by_cases h1 : nf < 1 ∨ 6 < nf
      · rw [if_pos h1]
      · rw [if_neg h1]
        by_cases h2 : pk < 1 ∨ nf < pk
        · rw [if_pos h2]
        · rw [if_neg h2]
          by_cases h3 : 12 < tname.length
          · rw [if_pos h3]
          · rw [if_neg h3, if_pos (by simpa only [List.drop_succ_cons, List.drop_zero] using hcount)]

theorem create_type_none_of_pairFields (cat : Catalog) (c0 c1 tname nfs pks : PyStr)
    (ftoks : List PyStr) (hpf : pairFields ftoks = none) :
    handle_create_type cat (c0 :: c1 :: tname :: nfs :: pks :: ftoks) = none := by
  unfold handle_create_type
  by_cases hlen : (c0 :: c1 :: tname :: nfs :: pks :: ftoks).length < 6
  · rw [if_pos hlen]
  · rw [if_neg hlen]
    simp only [getD2_cons, getD3_cons, getD4_cons]
    cases hnf : pyInt nfs with
    | none => rfl
    | some nf =>
      cases hpk : pyInt pks with
      | none => rfl
      | some pk =>
        simp only []
        by_cases h1 : nf < 1 ∨ 6 < nf
        · rw [if_pos h1]
        · rw [if_neg h1]
          by_cases h2 : pk < 1 ∨ nf < pk
          · rw [if_pos h2]
          · rw [if_neg h2]
            by_cases h3 : 12 < tname.length
            · rw [if_pos h3]
            · rw [if_neg h3]
              by_cases h4 : (((c0 :: c1 :: tname :: nfs :: pks :: ftoks).drop 5).length : Int) ≠ nf * 2
              · rw [if_pos h4]
              · rw [if_neg h4]
                cases hcat : lookupType cat tname with
                | some ti => rfl
                | none =>
                  have : ((c0 :: c1 :: tname :: nfs :: pks :: ftoks).drop 5) = ftoks := rfl
                  rw [this, hpf]

theorem create_type_success (cat : Catalog) (c0 c1 tname nfs pks : PyStr)
    (pairs : List (PyStr × PyStr)) (nf pk : Int)
    (hnf : pyInt nfs = some nf) (hpk : pyInt pks = some pk)
    (hnf1 : 1 ≤ nf) (hnf6 : nf ≤ 6) (hpk1 : 1 ≤ pk) (hpknf : pk ≤ nf)
    (hname : tname.length ≤ 12) (hcat : lookupType cat tname = none)
    (hplen : (pairs.length : Int) = nf)
    (hok : ∀ p ∈ pairs, p.1.length ≤ 20 ∧ (p.2 = strInt ∨ p.2 = strStr)) :
    handle_create_type cat
      (c0 :: c1 :: tname :: nfs :: pks :: (pairs.flatMap fun p => [p.1, p.2]))
    = some (tname, ⟨nf.toNat, pk.toNat,
        pairs.map fun p => ⟨p.1, p.2, if p.2 = strInt then 4 else 20⟩⟩) := by
  have hftlen : (pairs.flatMap fun p => [p.1, p.2]).length = 2 * pairs.length :=
    flatMap_pairs_length pairs
  unfold handle_create_type
  rw [if_neg (by
    simp only [List.length_cons, hftlen]
    omega)]
  simp only [getD2_cons, getD3_cons, getD4_cons]
  rw [hnf, hpk]
  simp only []
  rw [if_neg (by omega), if_neg (by omega), if_neg (by omega)]
  rw [if_neg (by
    simp only [List.drop_succ_cons, List.drop_zero, hftlen]
    push_neg
    omega)]
  rw [hcat]
  simp only []
  rw [show List.drop 5 (c0 :: c1 :: tname :: nfs :: pks :: pairs.flatMap fun p => [p.1, p.2])
        = pairs.flatMap fun p => [p.1, p.2] from rfl]
  rw [pairFields_pairs pairs hok]

/-- C6, counterexample to the claim as stated: the claim says "a type
name longer than 12 bytes fails", but the source checks `len(tname)`,
which counts characters.  A name of seven u-umlaut characters (U+00FC)
is 14 bytes of UTF-8 yet 7 characters, and CreateType accepts it. -/
theorem c6_counterexample_name_byte_length :
    (utf8Encode [252, 252, 252, 252, 252, 252, 252]).length = 14
    ∧ 12 < (utf8Encode [252, 252, 252, 252, 252, 252, 252]).length
    ∧ (handle_create_type []
        ([99, 114, 101, 97, 116, 101] :: [116, 121, 112, 101]
          :: [252, 252, 252, 252, 252, 252, 252] :: [49] :: [49]
          :: [[120], [105, 110, 116]])).isSome = true := by
  refine ⟨by decide, by decide, ?_⟩
  decide

/-- C6 (amended): CreateType validates in order and rejects exactly the
out-of-range shapes, with name lengths measured in characters (Python
`len`), not bytes: `fieldCount` outside `[1,6]` fails (so 0 and 7 fail)
while values in `[1,6]` pass; `pkIndex` outside `[1, fieldCount]` fails
(so 0 and `fieldCount+1` fail) while in-range values pass; a type name
longer than 12 characters fails; a supplied field-token count other than
`2 * fieldCount` fails; a field name longer than 20 characters fails; a
field kind outside `{int, str}` fails; accepted fields are assigned
byteLength 4 for `int` and 20 for `str`. -/
theorem c6_createtype_validation_boundaries :
    (∀ (cat : Catalog) (c0 c1 tname nfs pks : PyStr) (ftoks : List PyStr) (nf : Int),
      pyInt nfs = some nf → (nf < 1 ∨ 6 < nf) →
      handle_create_type cat (c0 :: c1 :: tname :: nfs :: pks :: ftoks) = none)
    ∧ (∀ (cat : Catalog) (c0 c1 tname nfs pks : PyStr) (ftoks : List PyStr) (nf pk : Int),
      pyInt nfs = some nf → pyInt pks = some pk → (pk < 1 ∨ nf < pk) →
      handle_create_type cat (c0 :: c1 :: tname :: nfs :: pks :: ftoks) = none)
    ∧ (∀ (cat : Catalog) (c0 c1 tname nfs pks : PyStr) (ftoks : List PyStr),
      12 < tname.length →
      handle_create_type cat (c0 :: c1 :: tname :: nfs :: pks :: ftoks) = none)
    ∧ (∀ (cat : Catalog) (c0 c1 tname nfs pks : PyStr) (ftoks : List PyStr) (nf : Int),
      pyInt nfs = some nf → (ftoks.length : Int) ≠ nf * 2 →
      handle_create_type cat (c0 :: c1 :: tname :: nfs :: pks :: ftoks) = none)
    ∧ (∀ (cat : Catalog) (c0 c1 tname nfs pks : PyStr) (ftoks : List PyStr) (k : Nat),
      2 * k < ftoks.length → 20 < (ftoks.getD (2 * k) []).length →
      handle_create_type cat (c0 :: c1 :: tname :: nfs :: pks :: ftoks) = none)
    ∧ (∀ (cat : Catalog) (c0 c1 tname nfs pks : PyStr) (ftoks : List PyStr) (k : Nat),
      2 * k + 1 < ftoks.length →
      ftoks.getD (2 * k + 1) [] ≠ strInt → ftoks.getD (2 * k + 1) [] ≠ strStr →
      handle_create_type cat (c0 :: c1 :: tname :: nfs :: pks :: ftoks) = none)
    ∧ (∀ (cat : Catalog) (c0 c1 tname nfs pks : PyStr) (pairs : List (PyStr × PyStr))
        (nf pk : Int),
      pyInt nfs = some nf → pyInt pks = some pk →
      1 ≤ nf → nf ≤ 6 → 1 ≤ pk → pk ≤ nf →
      tname.length ≤ 12 → lookupType cat tname = none →
      (pairs.length : Int) = nf →
      (∀ p ∈ pairs, p.1.length ≤ 20 ∧ (p.2 = strInt ∨ p.2 = strStr)) →
      handle_create_type cat
        (c0 :: c1 :: tname :: nfs :: pks :: (pairs.flatMap fun p => [p.1, p.2]))
      = some (tname, ⟨nf.toNat, pk.toNat,
          pairs.map fun p => ⟨p.1, p.2, if p.2 = strInt then 4 else 20⟩⟩)) :=
  ⟨create_type_none_of_nf,
   create_type_none_of_pk,
   create_type_none_of_name,
   create_type_none_of_count,
   fun cat c0 c1 tname nfs pks ftoks k hk hlong =>
     create_type_none_of_pairFields cat c0 c1 tname nfs pks ftoks
       (pairFields_none_of_long_name ftoks k hk hlong),
   fun cat c0 c1 tname nfs pks ftoks k hk h1 h2 =>
     create_type_none_of_pairFields cat c0 c1 tname nfs pks ftoks
       (pairFields_none_of_bad_kind ftoks k hk ⟨h1, h2⟩),
   create_type_success⟩

/-- Witness for `c6_createtype_validation_boundaries`: each hypothesis
discharged at concrete inputs — `fieldCount` 0 and 7 fail, `pkIndex` 0
fails, a 13-character name fails, a wrong token count fails, a 21-character
field name fails, kind `float` fails, and a valid `Person` type is
accepted with byteLengths 20/4/20. -/
theorem c6_createtype_validation_boundaries_witness :
    handle_create_type [] ([99] :: [114] :: [80] :: [48] :: [49] :: [[120], [105, 110, 116]])
      = none
    ∧ handle_create_type [] ([99] :: [114] :: [80] :: [55] :: [49] :: [[120], [105, 110, 116]])
      = none
    ∧ handle_create_type [] ([99] :: [114] :: [80] :: [49] :: [48] :: [[120], [105, 110, 116]])
      = none
    ∧ handle_create_type []
        ([99] :: [114] :: [80, 80, 80, 80, 80, 80, 80, 80, 80, 80, 80, 80, 80]
          :: [49] :: [49] :: [[120], [105, 110, 116]]) = none
    ∧ handle_create_type []
        ([99] :: [114] :: [80] :: [49] :: [49]
          :: [[120], [105, 110, 116], [121], [105, 110, 116]]) = none
    ∧ handle_create_type []
        ([99] :: [114] :: [80] :: [49] :: [49]
          :: [[120, 120, 120, 120, 120, 120, 120, 120, 120, 120, 120,
              120, 120, 120, 120, 120, 120, 120, 120, 120, 120], [105, 110, 116]]) = none
    ∧ handle_create_type []
        ([99] :: [114] :: [80] :: [49] :: [49]
          :: [[120], [102, 108, 111, 97, 116]]) = none
    ∧ handle_create_type []
        ([99] :: [114] :: [80, 101, 114, 115, 111, 110] :: [51] :: [49]
          :: ([([110, 97, 109, 101], [115, 116, 114]),
               ([97, 103, 101], [105, 110, 116]),
               ([99, 105, 116, 121], [115, 116, 114])].flatMap fun p => [p.1, p.2]))
      = some ([80, 101, 114, 115, 111, 110],
          ⟨3, 1, [⟨[110, 97, 109, 101], [115, 116, 114], 20⟩,
                  ⟨[97, 103, 101], [105, 110, 116], 4⟩,
                  ⟨[99, 105, 116, 121], [115, 116, 114], 20⟩]⟩) := by
  obtain ⟨h1, h2, h3, h4, h5, h6, h7⟩ := c6_createtype_validation_boundaries
  refine ⟨h1 [] [99] [114] [80] [48] [49] [[120], [105, 110, 116]] 0 (by decide) (by decide),
    h1 [] [99] [114] [80] [55] [49] [[120], [105, 110, 116]] 7 (by decide) (by decide),
    h2 [] [99] [114] [80] [49] [48] [[120], [105, 110, 116]] 1 0 (by decide) (by decide)
      (by decide),
    h3 [] [99] [114] [80, 80, 80, 80, 80, 80, 80, 80, 80, 80, 80, 80, 80] [49] [49]
      [[120], [105, 110, 116]] (by decide),
    h4 [] [99] [114] [80] [49] [49] [[120], [105, 110, 116], [121], [105, 110, 116]] 1
      (by decide) (by decide),
    h5 [] [99] [114] [80] [49] [49]
      [[120, 120, 120, 120, 120, 120, 120, 120, 120, 120, 120,
        120, 120, 120, 120, 120, 120, 120, 120, 120, 120], [105, 110, 116]] 0
      (by decide) (by decide),
    h6 [] [99] [114] [80] [49] [49] [[120], [102, 108, 111, 97, 116]] 0
      (by decide) (by decide) (by decide),
    ?_⟩
  exact h7 [] [99] [114] [80, 101, 114, 115, 111, 110] [51] [49]
    [([110, 97, 109, 101], [115, 116, 114]),
     ([97, 103, 101], [105, 110, 116]),
     ([99, 105, 116, 121], [115, 116, 114])] 3 1
    (by decide) (by decide) (by decide) (by decide) (by decide) (by decide)
    (by decide) (by decide) (by decide) (by decide)

/-! ## Decode (`unpack_record`) refinement -/

/-- Placeholder field for out-of-range `getD` (never reached in the
characterizations below). -/
def dummyField : Field := ⟨[], [], 0⟩

/-- Byte offset of field `i` in a record: 1 validity byte plus the widths
of the preceding fields. -/
def fieldOffset (fields : List Field) (i : Nat) : Nat :=
  1 + ((fields.take i).map Field.flen).sum

/-- Modelled from the spec (§4.2 `decode`): skip the validity byte; for
each Integer field reinterpret its bytes as a big-endian signed integer
rendered as text; for each Text field strip trailing zero bytes, then
decode UTF-8 leniently, dropping the bytes of invalid sequences. -/
def unpackRecordSpecIgnore (fields : List Field) (rb : List Nat) : List PyStr :=
  (List.range fields.length).map fun i =>
    let f := fields.getD i dummyField
    let chunk := (rb.drop (fieldOffset fields i)).take f.flen
    if f.ftype = strInt then intToStr (bytes_to_int chunk)
    else utf8DecodeIgnore (rstrip0 chunk)

/-- Modelled from the spec's words in the claim: like the decode of §4.2
but substituting a replacement marker (U+FFFD) for each invalid byte
sequence, as `errors="replace"` would. -/
def unpackRecordSpecReplace (fields : List Field) (rb : List Nat) : List PyStr :=
  (List.range fields.length).map fun i =>
    let f := fields.getD i dummyField
    let chunk := (rb.drop (fieldOffset fields i)).take f.flen
    if f.ftype = strInt then intToStr (bytes_to_int chunk)
    else utf8DecodeReplace (rstrip0 chunk)

theorem unpackFields_eq_map (rb : List Nat) (fields : List Field) (off : Nat) :
    unpackFields rb fields off = (List.range fields.length).map (fun i =>
      renderField (fields.getD i dummyField)
        ((rb.drop (off + ((fields.take i).map Field.flen).sum)).take
          (fields.getD i dummyField).flen)) := by
  induction fields generalizing off with
  | nil => simp [unpackFields]
  | cons f rest ih =>
    rw [unpackFields, ih (off + f.flen)]
    simp only [List.length_cons, List.range_succ_eq_map, List.map_cons, List.map_map,
      Function.comp_def, List.getD_cons_succ, List.getD_cons_zero, List.take_succ_cons,
      List.take_zero, List.map_nil, List.sum_cons, List.sum_nil, Nat.add_zero,
      Nat.add_assoc]

/-- C5, counterexample to the claim as stated: the source decodes Text
fields with `errors="ignore"`, which drops invalid bytes; it does not
substitute a replacement marker.  On the record `[1, 0xFF, 0, ..., 0]`
(the schema's record size, 21 bytes) the code yields the empty string,
while the claimed replacement-marker decoding yields U+FFFD. -/
theorem c5_counterexample_replacement_marker :
    unpack_record [⟨[102], strStr, 20⟩] (1 :: 255 :: List.replicate 19 0) = [[]]
    ∧ unpackRecordSpecReplace [⟨[102], strStr, 20⟩] (1 :: 255 :: List.replicate 19 0)
        = [[0xFFFD]]
    ∧ ([[]] : List PyStr) ≠ [[0xFFFD]] := by
  have hIg : utf8DecodeIgnore [255] = [] := by simp [utf8DecodeIgnore]
  have hRe : utf8DecodeReplace [255] = [0xFFFD] := by simp [utf8DecodeReplace]
  refine ⟨?_, ?_, by decide⟩
  · have h : unpack_record [⟨[102], strStr, 20⟩] (1 :: 255 :: List.replicate 19 0)
        = [utf8DecodeIgnore [255]] := rfl
    rw [h, hIg]
  · have h : unpackRecordSpecReplace [⟨[102], strStr, 20⟩] (1 :: 255 :: List.replicate 19 0)
        = [utf8DecodeReplace [255]] := rfl
    rw [h, hRe]

/-- C5 (amended): for every schema and every record byte sequence,
decoding (`unpack_record`) never fails and produces one value per schema
field: it skips the validity byte, renders each Integer field's bytes as
a big-endian signed integer in text, and for each Text field strips
trailing zero bytes then decodes UTF-8 leniently, dropping invalid byte
sequences rather than failing. -/
theorem c5_decode_never_fails (fields : List Field) (rb : List Nat) :
    unpack_record fields rb = unpackRecordSpecIgnore fields rb
    ∧ (unpack_record fields rb).length = fields.length := by
  constructor
  · rw [unpack_record, unpackFields_eq_map]
    rfl
  · rw [unpack_record, unpackFields_eq_map]
    simp

/-! ## Codec round-trip lemmas -/

theorem bytes_to_int_int_to_bytes (x : Int) (bs : List Nat)
    (h : int_to_bytes x = Except.ok bs) : bytes_to_int bs = x := by
  unfold int_to_bytes at h
  by_cases hr : -(2 ^ 31) ≤ x ∧ x < 2 ^ 31
  · rw [if_pos hr] at h
    obtain ⟨h1, h2⟩ := hr
    injection h with h
    subst h
    have hnn : (0 : Int) ≤ x % (2 ^ 32 : Int) := Int.emod_nonneg x (by norm_num)
    have hlt : x % (2 ^ 32 : Int) < 2 ^ 32 := Int.emod_lt_of_pos x (by norm_num)
    have hux : (((x % (2 ^ 32 : Int)).toNat : Int)) = x % (2 ^ 32 : Int) :=
      Int.toNat_of_nonneg hnn
    simp only [bytes_to_int, bytesToNatBE, List.foldl_cons, List.foldl_nil,
      List.length_cons, List.length_nil]
    split
    · omega
    · omega
  · rw [if_neg hr] at h
    exact absurd h (by simp)

theorem rstrip0_append_zeros (l : List Nat) (k : Nat) :
    rstrip0 (l ++ List.replicate k 0) = rstrip0 l := by
  unfold rstrip0
  rw [List.reverse_append, List.reverse_replicate]
  congr 1
  induction k with
  | zero => simp
  | succ n ih =>
    rw [List.replicate_succ, List.cons_append, List.dropWhile_cons_of_pos (by simp)]
    exact ih

theorem rstrip0_of_no_trailing_zero (l : List Nat) (hl : l.getLast? ≠ some 0) :
    rstrip0 l = l := by
  unfold rstrip0
  cases hrev : l.reverse with
  | nil => simp at hrev; subst hrev; rfl
  | cons a as =>
    have ha : l.getLast? = some a := by
      rw [← List.head?_reverse, hrev]
      rfl
    have : a ≠ 0 := fun h0 => hl (by rw [ha, h0])
    rw [List.dropWhile_cons_of_neg (by simpa using this)]
    rw [← hrev, List.reverse_reverse]

theorem contOK_iff (b : Nat) : contOK b = true ↔ 0x80 ≤ b ∧ b < 0xC0 := by
  simp [contOK]

theorem utf8DecodeIgnore_encodeChar (c : Nat) (hc : ValidCp c) (rest : List Nat) :
    utf8DecodeIgnore (utf8EncodeChar c ++ rest) = c :: utf8DecodeIgnore rest := by
  obtain ⟨hlt, hsur⟩ := hc
  unfold utf8EncodeChar
  by_cases h1 : c < 0x80
  · rw [if_pos h1]
    simp only [List.cons_append, List.nil_append]
    rw [utf8DecodeIgnore.eq_def]
    simp only []
    rw [if_pos h1]
  · rw [if_neg h1]
    by_cases h2 : c < 0x800
    · rw [if_pos h2]
      simp only [List.cons_append, List.nil_append]
      rw [utf8DecodeIgnore.eq_def]
      simp only []
      rw [if_neg (by omega : ¬(0xC0 + c / 0x40 < 0x80))]
      rw [if_neg (by omega : ¬(0xC0 + c / 0x40 < 0xC2))]
      rw [if_pos (by omega : 0xC0 + c / 0x40 < 0xE0)]
      rw [if_pos ((contOK_iff _).mpr (by omega))]
      rw [show (0xC0 + c / 0x40 - 0xC0) * 0x40 + (0x80 + c % 0x40 - 0x80) = c by omega]
    · rw [if_neg h2]
      by_cases h3 : c < 0x10000
      · rw [if_pos h3]
        simp only [List.cons_append, List.nil_append]
        have hc2 : cont2OK (0xE0 + c / 0x1000) (0x80 + c / 0x40 % 0x40) = true := by
          unfold cont2OK
          by_cases hE : (0xE0 + c / 0x1000) = 0xE0
          · rw [if_pos hE]
            simp only [Bool.and_eq_true, decide_eq_true_eq]
            omega
          · rw [if_neg hE]
            by_cases hD : (0xE0 + c / 0x1000) = 0xED
            · rw [if_pos hD]
              simp only [Bool.and_eq_true, decide_eq_true_eq]
              omega
            · rw [if_neg hD]
              simp only [Bool.and_eq_true, decide_eq_true_eq]
              omega
        rw [utf8DecodeIgnore.eq_def]
        simp only []
        rw [if_neg (by omega : ¬(0xE0 + c / 0x1000 < 0x80))]
        rw [if_neg (by omega : ¬(0xE0 + c / 0x1000 < 0xC2))]
        rw [if_neg (by omega : ¬(0xE0 + c / 0x1000 < 0xE0))]
        rw [if_pos (by omega : 0xE0 + c / 0x1000 < 0xF0)]
        rw [if_pos hc2]
        rw [if_pos ((contOK_iff _).mpr (by omega))]
        rw [show (0xE0 + c / 0x1000 - 0xE0) * 0x1000 + (0x80 + c / 0x40 % 0x40 - 0x80) * 0x40
              + (0x80 + c % 0x40 - 0x80) = c by omega]
      · rw [if_neg h3]
        simp only [List.cons_append, List.nil_append]
        have hc2 : cont2OK4 (0xF0 + c / 0x40000) (0x80 + c / 0x1000 % 0x40) = true := by
          unfold cont2OK4
          by_cases hF0 : (0xF0 + c / 0x40000) = 0xF0
          · rw [if_pos hF0]
            simp only [Bool.and_eq_true, decide_eq_true_eq]
            omega
          · rw [if_neg hF0]
            by_cases hF4 : (0xF0 + c / 0x40000) = 0xF4
            · rw [if_pos hF4]
              simp only [Bool.and_eq_true, decide_eq_true_eq]
              omega
            · rw [if_neg hF4]
              simp only [Bool.and_eq_true, decide_eq_true_eq]
              omega
        rw [utf8DecodeIgnore.eq_def]
        simp only []
        rw [if_neg (by omega : ¬(0xF0 + c / 0x40000 < 0x80))]
        rw [if_neg (by omega : ¬(0xF0 + c / 0x40000 < 0xC2))]
        rw [if_neg (by omega : ¬(0xF0 + c / 0x40000 < 0xE0))]
        rw [if_neg (by omega : ¬(0xF0 + c / 0x40000 < 0xF0))]
        rw [if_pos (by omega : 0xF0 + c / 0x40000 < 0xF5)]
        rw [if_pos hc2]
        rw [if_pos ((contOK_iff _).mpr (by omega))]
        rw [if_pos ((contOK_iff _).mpr (by omega))]
        rw [show (0xF0 + c / 0x40000 - 0xF0) * 0x40000 + (0x80 + c / 0x1000 % 0x40 - 0x80) * 0x1000
              + (0x80 + c / 0x40 % 0x40 - 0x80) * 0x40 + (0x80 + c % 0x40 - 0x80) = c by omega]

/-- Decoding inverts encoding on valid Python strings. -/
theorem utf8DecodeIgnore_utf8Encode (s : PyStr) (hv : ∀ c ∈ s, ValidCp c) :
    utf8DecodeIgnore (utf8Encode s) = s := by
  induction s with
  | nil => simp [utf8Encode, utf8DecodeIgnore]
  | cons c cs ih =>
    simp only [utf8Encode, List.map_cons, List.flatten_cons] at ih ⊢
    rw [utf8DecodeIgnore_encodeChar c (hv c (by simp)) _]
    rw [ih (fun d hd => hv d (by simp [hd]))]

/-- The value the codec round trip actually returns for one field: an
Integer field re-renders the parsed integer; a Text field returns its
UTF-8 encoding truncated to `flen` bytes, stripped of trailing zero
bytes, and decoded leniently (invalid remnants dropped). -/
def canonField (f : Field) (v : PyStr) : PyStr :=
  if f.ftype = strInt then intToStr ((pyInt v).getD 0)
  else utf8DecodeIgnore (rstrip0 ((utf8Encode v).take f.flen))

theorem int_to_bytes_length (x : Int) (bs : List Nat) (h : int_to_bytes x = Except.ok bs) :
    bs.length = 4 := by
  unfold int_to_bytes at h
  split at h
  · injection h with h
    subst h
    rfl
  · exact absurd h (by simp)

theorem zipWith_eq_map_zip {α β γ : Type} (f : α → β → γ) :
    ∀ (l₁ : List α) (l₂ : List β),
      List.zipWith f l₁ l₂ = (l₁.zip l₂).map (fun p => f p.1 p.2)
  | [], _ => by simp
  | _ :: _, [] => by simp
  | a :: l₁, b :: l₂ => by
    simp only [List.zipWith_cons_cons, List.zip_cons_cons, List.map_cons]
    rw [zipWith_eq_map_zip f l₁ l₂]

theorem unpack_pack_aux (pairs : List (Field × PyStr)) (body : List Nat)
    (hpk : packFields pairs = Except.ok body)
    (hint : ∀ p ∈ pairs, p.1.ftype = strInt → p.1.flen = 4) :
    ∀ (pre : List Nat), unpackFields (pre ++ body) (pairs.map Prod.fst) pre.length
      = pairs.map (fun p => canonField p.1 p.2) := by
  induction pairs generalizing body with
  | nil =>
    intro pre
    unfold packFields at hpk
    injection hpk with hpk
    subst hpk
    rfl
  | cons p ps ih =>
    intro pre
    obtain ⟨f, v⟩ := p
    unfold packFields at hpk
    by_cases hty : f.ftype = strInt
    · rw [if_pos hty] at hpk
      cases hpi : pyInt v with
      | none => rw [hpi] at hpk; exact absurd hpk (by simp)
      | some n =>
        rw [hpi] at hpk
        simp only [] at hpk
        cases hib : int_to_bytes n with
        | error e => rw [hib] at hpk; simp only [] at hpk; exact absurd hpk (by simp)
        | ok ibs =>
          rw [hib] at hpk
          simp only [] at hpk
          cases hps : packFields ps with
          | error e => rw [hps] at hpk; simp only [] at hpk; exact absurd hpk (by simp)
          | ok tail =>
            rw [hps] at hpk
            simp only [] at hpk
            injection hpk with hpk
            subst hpk
            have hflen : f.flen = 4 := hint (f, v) (by simp) hty
            have hlen4 : ibs.length = 4 := int_to_bytes_length n ibs hib
            simp only [List.map_cons, unpackFields]
            congr 1
            · rw [List.drop_left' rfl]
              rw [hflen, List.take_left' hlen4]
              unfold renderField canonField
              rw [if_pos hty, if_pos hty, bytes_to_int_int_to_bytes n ibs hib, hpi]
              rfl
            · have hassoc : pre ++ (ibs ++ tail) = (pre ++ ibs) ++ tail :=
                (List.append_assoc pre ibs tail).symm
              rw [hassoc]
              have hoff : pre.length + f.flen = (pre ++ ibs).length := by
                simp [List.length_append, hflen, hlen4]
              rw [hoff]
              exact ih tail hps (fun q hq => hint q (by simp [hq])) (pre ++ ibs)
    · rw [if_neg hty] at hpk
      cases hps : packFields ps with
      | error e => rw [hps] at hpk; simp only [] at hpk; exact absurd hpk (by simp)
      | ok tail =>
        rw [hps] at hpk
        simp only [] at hpk
        injection hpk with hpk
        subst hpk
        set s := utf8Encode v with hs
        set s' := if f.flen < s.length then s.take f.flen else s with hs'
        have hs'len : s'.length ≤ f.flen := by
          rw [hs']
          by_cases hlt : f.flen < s.length
          · rw [if_pos hlt]
            simp only [List.length_take]
            omega
          · rw [if_neg hlt]
            omega
        have hfblen : (s' ++ List.replicate (f.flen - s'.length) 0).length = f.flen := by
          simp only [List.length_append, List.length_replicate]
          omega
        simp only [List.map_cons, unpackFields]
        congr 1
        · rw [List.drop_left' rfl, List.take_left' hfblen]
          unfold renderField canonField
          rw [if_neg hty, if_neg hty, rstrip0_append_zeros]
          have hstake : s' = s.take f.flen := by
            rw [hs']
            split
            · rfl
            · rw [List.take_of_length_le]
              omega
          rw [hstake]
        · have hassoc : pre ++ ((s' ++ List.replicate (f.flen - s'.length) 0) ++ tail)
              = (pre ++ (s' ++ List.replicate (f.flen - s'.length) 0)) ++ tail :=
            (List.append_assoc _ _ _).symm
          rw [hassoc]
          have hoff : pre.length + f.flen
              = (pre ++ (s' ++ List.replicate (f.flen - s'.length) 0)).length := by
            simp only [List.length_append, hfblen]
          rw [hoff]
          exact ih tail hps (fun q hq => hint q (by simp [hq]))
            (pre ++ (s' ++ List.replicate (f.flen - s'.length) 0))

theorem canonField_text_self (f : Field) (v : PyStr) (hty : f.ftype ≠ strInt)
    (hv : ∀ c ∈ v, ValidCp c) (hfits : (utf8Encode v).length ≤ f.flen)
    (hnz : (utf8Encode v).getLast? ≠ some 0) : canonField f v = v := by
  unfold canonField
  rw [if_neg hty, List.take_of_length_le hfits, rstrip0_of_no_trailing_zero _ hnz,
    utf8DecodeIgnore_utf8Encode v hv]

/-- C1, counterexample to the claim as stated: the Text value `"a\x00"`
satisfies every field constraint and needs no truncation (2 bytes of
UTF-8 against a 20-byte field), yet the round trip drops its trailing NUL
byte: the decoded value is `"a"`, not the original `"a\x00"`. -/
theorem c1_counterexample_trailing_nul :
    pack_record [⟨[102], strStr, 20⟩] [[97, 0]] = Except.ok (1 :: 97 :: List.replicate 19 0)
    ∧ (utf8Encode [97, 0]).length ≤ 20
    ∧ unpack_record [⟨[102], strStr, 20⟩] (1 :: 97 :: List.replicate 19 0) = [[97]]
    ∧ [[97]] ≠ [([97, 0] : PyStr)] := by
  refine ⟨by decide, by decide, ?_, by decide⟩
  have hIg : utf8DecodeIgnore [97] = [97] := by simp [utf8DecodeIgnore]
  have h : unpack_record [⟨[102], strStr, 20⟩] (1 :: 97 :: List.replicate 19 0)
      = [utf8DecodeIgnore [97]] := rfl
  rw [h, hIg]

/-- C1 (amended): for all schemas and value lists obeying the field
constraints, decoding an encoded record returns, for each Integer field,
the re-rendered parsed integer, and for each Text field the value's UTF-8
encoding truncated to the field's byteLength, stripped of trailing zero
bytes, and decoded leniently (`canonField`); in particular a Text value
whose UTF-8 encoding fits in the field and does not end in a zero byte is
returned unchanged. -/
theorem c1_codec_roundtrip (fields : List Field) (values : List PyStr) (bs : List Nat)
    (hlen : fields.length = values.length)
    (hint : ∀ f ∈ fields, f.ftype = strInt → f.flen = 4)
    (hok : pack_record fields values = Except.ok bs) :
    unpack_record fields bs = List.zipWith canonField fields values
    ∧ ∀ (f : Field) (v : PyStr), f.ftype ≠ strInt → (∀ c ∈ v, ValidCp c) →
        (utf8Encode v).length ≤ f.flen → (utf8Encode v).getLast? ≠ some 0 →
        canonField f v = v := by
  constructor
  · unfold pack_record at hok
    cases hpf : packFields (fields.zip values) with
    | error e => rw [hpf] at hok; simp only [] at hok; exact absurd hok (by simp)
    | ok body =>
      rw [hpf] at hok
      simp only [] at hok
      injection hok with hok
      subst hok
      have hfst : (fields.zip values).map Prod.fst = fields :=
        List.map_fst_zip fields values (le_of_eq hlen)
      have hintz : ∀ p ∈ fields.zip values, p.1.ftype = strInt → p.1.flen = 4 := by
        intro p hp
        obtain ⟨a, b⟩ := p
        exact hint a (List.mem_zip hp).1
      have h := unpack_pack_aux (fields.zip values) body hpf hintz [1]
      rw [hfst] at h
      rw [zipWith_eq_map_zip]
      exact h
  · exact fun f v => canonField_text_self f v

/-- Witness for `c1_codec_roundtrip`: a `(Text 20, Integer 4)` schema
with values `("hi", "42")` packs successfully and unpacks to the same
values. -/
theorem c1_codec_roundtrip_witness :
    pack_record [⟨[110], strStr, 20⟩, ⟨[97], strInt, 4⟩] [[104, 105], [52, 50]]
      = Except.ok ((1 :: 104 :: 105 :: List.replicate 18 0) ++ [0, 0, 0, 42])
    ∧ unpack_record [⟨[110], strStr, 20⟩, ⟨[97], strInt, 4⟩]
        ((1 :: 104 :: 105 :: List.replicate 18 0) ++ [0, 0, 0, 42])
      = [[104, 105], [52, 50]] := by
  have hpack : pack_record [⟨[110], strStr, 20⟩, ⟨[97], strInt, 4⟩] [[104, 105], [52, 50]]
      = Except.ok ((1 :: 104 :: 105 :: List.replicate 18 0) ++ [0, 0, 0, 42]) := by decide
  have h := (c1_codec_roundtrip [⟨[110], strStr, 20⟩, ⟨[97], strInt, 4⟩]
    [[104, 105], [52, 50]] ((1 :: 104 :: 105 :: List.replicate 18 0) ++ [0, 0, 0, 42])
    (by decide) (by decide) hpack).1
  refine ⟨hpack, ?_⟩
  rw [h]
  have h1 : List.zipWith canonField [⟨[110], strStr, 20⟩, ⟨[97], strInt, 4⟩]
      [[104, 105], [52, 50]]
      = [utf8DecodeIgnore [104, 105], intToStr 42] := rfl
  rw [h1]
  have h2 : utf8DecodeIgnore [104, 105] = [104, 105] := by simp [utf8DecodeIgnore]
  have h3 : intToStr 42 = [52, 50] := by
    simp [intToStr, natToDigits]
  rw [h2, h3]

/-! ## Byte-level file lemmas -/

theorem length_writeBytes (file : List Nat) (off : Nat) (data : List Nat) :
    (writeBytes file off data).length = max file.length (off + data.length) := by
  unfold writeBytes
  simp only [List.length_append, List.length_take, List.length_replicate, List.length_drop]
  omega

theorem byteAt_writeBytes (file : List Nat) (off : Nat) (data : List Nat) (i : Nat) :
    byteAt (writeBytes file off data) i =
      if off ≤ i ∧ i < off + data.length then data.getD (i - off) 0 else byteAt file i := by
  have hAB : (file.take off ++ List.replicate (off - file.length) 0).length = off := by
    simp only [List.length_append, List.length_take, List.length_replicate]
    omega
  unfold writeBytes byteAt
  rw [List.append_assoc]
  simp only [List.getD_eq_getElem?_getD]
  by_cases h1 : i < off
  · rw [if_neg (by omega)]
    rw [List.getElem?_append_left (by rw [hAB]; omega)]
    by_cases h2 : i < file.length
    · rw [List.getElem?_append_left (by simp only [List.length_take]; omega)]
      rw [List.getElem?_take_of_lt (by omega)]
    · rw [List.getElem?_append_right (by simp only [List.length_take]; omega)]
      rw [List.getElem?_replicate_of_lt (by simp only [List.length_take]; omega)]
      have : file[i]? = none := List.getElem?_eq_none (by omega)
      rw [this]
      rfl
  · by_cases h2 : i < off + data.length
    · rw [if_pos (by omega)]
      rw [List.getElem?_append_right (by rw [hAB]; omega)]
      rw [List.getElem?_append_left (by rw [hAB]; omega)]
      rw [hAB]
    · rw [if_neg (by omega)]
      rw [List.getElem?_append_right (by rw [hAB]; omega)]
      rw [List.getElem?_append_right (by rw [hAB]; omega)]
      rw [List.getElem?_drop]
      have hidx : off + data.length
          + (i - (file.take off ++ List.replicate (off - file.length) 0).length - data.length)
          = i := by
        rw [hAB]
        omega
      rw [hidx]

/-- A slice of the file, as the scans read it. -/
theorem slice_congr (f g : List Nat) (a n : Nat)
    (h : ∀ i, i < n → byteAt f (a + i) = byteAt g (a + i))
    (hf : a + n ≤ f.length) (hg : a + n ≤ g.length) :
    (f.drop a).take n = (g.drop a).take n := by
  apply List.ext_getElem?
  intro i
  by_cases hi : i < n
  · rw [List.getElem?_take_of_lt hi, List.getElem?_take_of_lt hi,
      List.getElem?_drop, List.getElem?_drop]
    have h1 : a + i < f.length := by omega
    have h2 : a + i < g.length := by omega
    have hb := h i hi
    unfold byteAt at hb
    simp only [List.getD_eq_getElem?_getD] at hb
    rw [List.getElem?_eq_getElem h1, List.getElem?_eq_getElem h2] at hb ⊢
    simp only [Option.getD_some] at hb
    rw [hb]
  · rw [List.getElem?_eq_none, List.getElem?_eq_none]
    · simp only [List.length_take, List.length_drop]
      omega
    · simp only [List.length_take, List.length_drop]
      omega

/-! ## Page layout predicates -/

/-- The occupied-count byte of page `k`. -/
def occAt (file : List Nat) (ps k : Nat) : Nat := byteAt file (k * ps)

/-- Bitmap byte of slot `s` of page `k`. -/
def bitAt (file : List Nat) (ps k s : Nat) : Nat := byteAt file (k * ps + 1 + s)

/-- The record bytes of slot `s` of page `k`. -/
def recBytesAt (file : List Nat) (ps rs k s : Nat) : List Nat :=
  (file.drop (k * ps + PAGE_HEADER_SIZE + s * rs)).take rs

/-- The occupancy invariant: on every page whose header is present, the
occupied-count byte equals the number of bitmap entries equal to 1. -/
def invOcc (ps : Nat) (file : List Nat) : Prop :=
  ∀ k, k * ps + PAGE_HEADER_SIZE ≤ file.length →
    occAt file ps k = (List.range NUM_SLOTS).countP (fun s => bitAt file ps k s == 1)

/-- Every bitmap byte is 0 or 1 (0 = free, 1 = occupied). -/
def bitsBool (ps : Nat) (file : List Nat) : Prop :=
  ∀ k s, k * ps + PAGE_HEADER_SIZE ≤ file.length → s < NUM_SLOTS →
    bitAt file ps k s = 0 ∨ bitAt file ps k s = 1

/-- First page (in file order) with a free slot, judged by its
occupied-count byte as the insert scan does. -/
def firstFreePage (ps n : Nat) (file : List Nat) : Option Nat :=
  (List.range n).find? (fun k => byteAt file (k * ps) < 10)

/-- First free slot of page `k`, judged by its bitmap byte. -/
def firstFreeSlot (ps : Nat) (file : List Nat) (k : Nat) : Option Nat :=
  (List.range NUM_SLOTS).find? (fun s => byteAt file (k * ps + 1 + s) == 0)

theorem pageSize_ge (rs : Nat) : PAGE_HEADER_SIZE ≤ pageSize rs := by
  unfold pageSize
  omega

/-! ## Header and scan characterizations -/

theorem header_getD (file : List Nat) (po i : Nat)
    (hpo : po + PAGE_HEADER_SIZE ≤ file.length) (hi : i < PAGE_HEADER_SIZE) :
    ((file.drop po).take PAGE_HEADER_SIZE).getD i 0 = byteAt file (po + i) := by
  unfold byteAt
  simp only [List.getD_eq_getElem?_getD]
  rw [List.getElem?_take_of_lt hi, List.getElem?_drop]

theorem header_length (file : List Nat) (po : Nat)
    (hpo : po + PAGE_HEADER_SIZE ≤ file.length) :
    ((file.drop po).take PAGE_HEADER_SIZE).length = PAGE_HEADER_SIZE := by
  simp only [List.length_take, List.length_drop]
  omega

theorem find?_congr_mem {α : Type} (l : List α) (p q : α → Bool)
    (h : ∀ a ∈ l, p a = q a) : l.find? p = l.find? q := by
  induction l with
  | nil => rfl
  | cons a t ih =>
    rw [List.find?_cons, List.find?_cons, h a (by simp)]
    cases hq : q a with
    | true => rfl
    | false => exact ih (fun b hb => h b (by simp [hb]))

theorem findIdx?_go_eq_find?_range (p : Nat → Bool) :
    ∀ (l : List Nat) (i : Nat),
      l.findIdx? p i = ((List.range l.length).find? (fun j => p (l.getD j 0))).map (· + i)
  | [], i => by rfl
  | a :: t, i => by
    rw [List.findIdx?_cons]
    simp only [List.length_cons, List.range_succ_eq_map, List.find?_cons]
    by_cases hp : p a
    · simp only [List.getD_cons_zero, hp, if_pos rfl, if_true, Option.map_some]
      simp
    · simp only [List.getD_cons_zero, hp, Bool.false_eq_true, if_false]
      rw [List.find?_map, findIdx?_go_eq_find?_range p t (i + 1)]
      have heq : ((fun j => p ((a :: t).getD j 0)) ∘ Nat.succ) = (fun j => p (t.getD j 0)) := by
        funext j
        simp [Function.comp]
      rw [heq]
      cases hfind : (List.range t.length).find? (fun j => p (t.getD j 0)) with
      | none => simp
      | some s => simp; omega

theorem findIdx?_eq_find?_range (l : List Nat) (p : Nat → Bool) :
    l.findIdx? p = (List.range l.length).find? (fun i => p (l.getD i 0)) := by
  rw [findIdx?_go_eq_find?_range p l 0]
  cases (List.range l.length).find? (fun i => p (l.getD i 0)) <;> simp

theorem find?_range_first (n : Nat) (p : Nat → Bool) (s : Nat)
    (h : (List.range n).find? p = some s) :
    s < n ∧ p s = true ∧ ∀ t < s, p t = false := by
  induction n with
  | zero => simp at h
  | succ m ih =>
    rw [List.range_succ, List.find?_append] at h
    cases hm : (List.range m).find? p with
    | some x =>
      rw [hm] at h
      simp only [Option.or] at h
      injection h with h
      subst h
      obtain ⟨h1, h2, h3⟩ := ih hm
      exact ⟨by omega, h2, h3⟩
    | none =>
      rw [hm] at h
      simp only [Option.or] at h
      rw [List.find?_cons] at h
      by_cases hpm : p m
      · rw [hpm] at h
        simp only [] at h
        injection h with h
        subst h
        refine ⟨by omega, hpm, ?_⟩
        intro t ht
        have := List.find?_eq_none.mp hm t (List.mem_range.mpr ht)
        exact Bool.eq_false_iff.mpr this
      · rw [Bool.eq_false_iff.mpr hpm] at h
        simp only [] at h
        exact absurd h (by simp)

theorem find_free_slot_eq (file : List Nat) (po : Nat)
    (hpo : po + PAGE_HEADER_SIZE ≤ file.length) :
    find_free_slot_in_page file po =
      if NUM_SLOTS ≤ byteAt file po then none
      else (List.range NUM_SLOTS).find? (fun s => byteAt file (po + 1 + s) == 0) := by
  unfold find_free_slot_in_page
  rw [if_neg (by rw [header_length file po hpo]; omega)]
  rw [header_getD file po 0 hpo (by unfold PAGE_HEADER_SIZE NUM_SLOTS; omega)]
  by_cases hocc : NUM_SLOTS ≤ byteAt file (po + 0)
  · rw [if_pos (by simpa using hocc), if_pos (by simpa using hocc)]
  · rw [if_neg (by simpa using hocc), if_neg (by simpa using hocc)]
    have hbm : (((file.drop po).take PAGE_HEADER_SIZE).drop 1).take NUM_SLOTS
        = (file.drop (po + 1)).take NUM_SLOTS := by
      rw [List.drop_take, List.drop_drop]
      simp [List.take_take, PAGE_HEADER_SIZE, NUM_SLOTS]
    rw [hbm]
    rw [findIdx?_eq_find?_range]
    have hlen : ((file.drop (po + 1)).take NUM_SLOTS).length = NUM_SLOTS := by
      simp only [List.length_take, List.length_drop]
      unfold PAGE_HEADER_SIZE at hpo
      unfold NUM_SLOTS at hpo ⊢
      omega
    rw [hlen]
    rw [find?_congr_mem _ _ _ (by
      intro i hi
      have hi' : i < NUM_SLOTS := List.mem_range.mp hi
      have hb : ((file.drop (po + 1)).take NUM_SLOTS).getD i 0 = byteAt file (po + 1 + i) := by
        unfold byteAt
        simp only [List.getD_eq_getElem?_getD]
        rw [List.getElem?_take_of_lt hi', List.getElem?_drop]
      rw [hb])]

theorem mul_page_bound (k n ps : Nat) (h : k < n) : k * ps + ps ≤ n * ps := by
  have h2 : (k + 1) * ps ≤ n * ps := Nat.mul_le_mul_right ps h
  simpa [Nat.succ_mul] using h2

/-- A live record with the given key at page `k`, slot `s` (bitmap byte 1
and the decoded primary key equal to `pk`). -/
def slotMatchProp (fields : List Field) (pkIdx : Nat) (pk : PyStr) (file : List Nat)
    (k s : Nat) : Prop :=
  bitAt file (pageSize (compute_record_size fields)) k s = 1 ∧
  (unpack_record fields
    (recBytesAt file (pageSize (compute_record_size fields)) (compute_record_size fields) k s)).getD pkIdx []
  = pk

theorem findPages_none_aux (fields : List Field) (pkIdx : Nat) (pk : PyStr)
    (file : List Nat) (n : Nat)
    (hal : file.length = n * pageSize (compute_record_size fields))
    (hno : ∀ k s, k < n → s < NUM_SLOTS → ¬ slotMatchProp fields pkIdx pk file k s) :
    ∀ (d k0 : Nat), n ≤ k0 + d →
      findPages fields pkIdx pk file (k0 * pageSize (compute_record_size fields)) = none := by
  have hps : PAGE_HEADER_SIZE ≤ pageSize (compute_record_size fields) :=
    pageSize_ge _
  have hphs : PAGE_HEADER_SIZE = 11 := rfl
  intro d
  induction d with
  | zero =>
    intro k0 hk0
    have hmul : n * pageSize (compute_record_size fields)
        ≤ k0 * pageSize (compute_record_size fields) :=
      Nat.mul_le_mul_right _ (by omega)
    rw [findPages]
    rw [dif_pos (by omega)]
  | succ d ih =>
    intro k0 hk0
    by_cases hend : n ≤ k0
    · have hmul : n * pageSize (compute_record_size fields)
          ≤ k0 * pageSize (compute_record_size fields) :=
        Nat.mul_le_mul_right _ hend
      rw [findPages]
      rw [dif_pos (by omega)]
    · have hk0n : k0 < n := by omega
      have hmul : k0 * pageSize (compute_record_size fields)
            + pageSize (compute_record_size fields)
          ≤ n * pageSize (compute_record_size fields) :=
        mul_page_bound _ _ _ hk0n
      have hhdr : k0 * pageSize (compute_record_size fields) + PAGE_HEADER_SIZE
          ≤ file.length := by omega
      have hnext : k0 * pageSize (compute_record_size fields)
            + pageSize (compute_record_size fields)
          = (k0 + 1) * pageSize (compute_record_size fields) :=
        (Nat.succ_mul k0 _).symm
      rw [findPages]
      rw [dif_neg (by omega)]
      have hfind : (List.range NUM_SLOTS).find? (fun s =>
          ((file.drop (k0 * pageSize (compute_record_size fields))).take
            PAGE_HEADER_SIZE).getD (1 + s) 0 == 1
          && slotPkMatches fields pkIdx (compute_record_size fields) pk file
              (k0 * pageSize (compute_record_size fields)) s) = none := by
        rw [List.find?_eq_none]
        intro s hs
        have hs' : s < NUM_SLOTS := List.mem_range.mp hs
        simp only [Bool.and_eq_true, not_and]
        intro hbit hmatch
        apply hno k0 s hk0n hs'
        constructor
        · have := header_getD file (k0 * pageSize (compute_record_size fields)) (1 + s)
            hhdr (by unfold NUM_SLOTS at hs'; unfold PAGE_HEADER_SIZE NUM_SLOTS; omega)
          rw [this] at hbit
          unfold bitAt
          rw [← Nat.add_assoc] at hbit
          exact eq_of_beq hbit
        · unfold slotPkMatches at hmatch
          unfold recBytesAt
          exact eq_of_beq hmatch
      rw [hfind]
      by_cases hocc : ((file.drop (k0 * pageSize (compute_record_size fields))).take
          PAGE_HEADER_SIZE).getD 0 0 = 0
      · rw [if_pos hocc, hnext]
        exact ih (k0 + 1) (by omega)
      · rw [if_neg hocc, hnext]
        exact ih (k0 + 1) (by omega)

theorem findPages_none_of_no_match (fields : List Field) (pkIdx : Nat) (pk : PyStr)
    (file : List Nat) (n : Nat)
    (hal : file.length = n * pageSize (compute_record_size fields))
    (hno : ∀ k s, k < n → s < NUM_SLOTS → ¬ slotMatchProp fields pkIdx pk file k s) :
    findPages fields pkIdx pk file 0 = none := by
  have h := findPages_none_aux fields pkIdx pk file n hal hno n 0 (by omega)
  rw [Nat.zero_mul] at h
  exact h

theorem findPages_hit (fields : List Field) (pkIdx : Nat) (pk : PyStr)
    (file : List Nat) (n : Nat)
    (hal : file.length = n * pageSize (compute_record_size fields))
    (hinv : invOcc (pageSize (compute_record_size fields)) file)
    (k s : Nat) (hk : k < n) (hs : s < NUM_SLOTS)
    (hm : slotMatchProp fields pkIdx pk file k s) :
    (findPages fields pkIdx pk file (k * pageSize (compute_record_size fields))).isSome
    = true := by
  have hps : PAGE_HEADER_SIZE ≤ pageSize (compute_record_size fields) := pageSize_ge _
  have hphs : PAGE_HEADER_SIZE = 11 := rfl
  have hmul : k * pageSize (compute_record_size fields) + pageSize (compute_record_size fields)
      ≤ n * pageSize (compute_record_size fields) := mul_page_bound _ _ _ hk
  have hhdr : k * pageSize (compute_record_size fields) + PAGE_HEADER_SIZE ≤ file.length := by
    omega
  obtain ⟨hbit, hdec⟩ := hm
  have hbit1 : ((file.drop (k * pageSize (compute_record_size fields))).take
      PAGE_HEADER_SIZE).getD (1 + s) 0 = 1 := by
    rw [header_getD file _ (1 + s) hhdr (by unfold NUM_SLOTS at hs; unfold PAGE_HEADER_SIZE NUM_SLOTS; omega)]
    rw [← Nat.add_assoc]
    exact hbit
  have hocc0 : ((file.drop (k * pageSize (compute_record_size fields))).take
      PAGE_HEADER_SIZE).getD 0 0 ≠ 0 := by
    rw [header_getD file _ 0 hhdr (by unfold PAGE_HEADER_SIZE NUM_SLOTS; omega)]
    rw [Nat.add_zero]
    have heq := hinv k hhdr
    unfold occAt at heq
    rw [heq]
    have hpos : 0 < (List.range NUM_SLOTS).countP (fun t =>
        bitAt file (pageSize (compute_record_size fields)) k t == 1) :=
      List.countP_pos_iff.mpr ⟨s, List.mem_range.mpr hs, beq_iff_eq.mpr hbit⟩
    omega
  rw [findPages]
  rw [dif_neg (by omega)]
  rw [if_neg hocc0]
  have hfindSome : ((List.range NUM_SLOTS).find? (fun t =>
      ((file.drop (k * pageSize (compute_record_size fields))).take
        PAGE_HEADER_SIZE).getD (1 + t) 0 == 1
      && slotPkMatches fields pkIdx (compute_record_size fields) pk file
          (k * pageSize (compute_record_size fields)) t)).isSome = true := by
    apply List.find?_isSome.mpr
    refine ⟨s, List.mem_range.mpr hs, ?_⟩
    rw [Bool.and_eq_true]
    constructor
    · exact beq_iff_eq.mpr hbit1
    · unfold slotPkMatches
      apply beq_iff_eq.mpr
      unfold recBytesAt at hdec
      exact hdec
  obtain ⟨x, hx⟩ := Option.isSome_iff_exists.mp hfindSome
  rw [hx]
  rfl

theorem findPages_isSome_of_match (fields : List Field) (pkIdx : Nat) (pk : PyStr)
    (file : List Nat) (n : Nat)
    (hal : file.length = n * pageSize (compute_record_size fields))
    (hinv : invOcc (pageSize (compute_record_size fields)) file)
    (k s : Nat) (hk : k < n) (hs : s < NUM_SLOTS)
    (hm : slotMatchProp fields pkIdx pk file k s) :
    (findPages fields pkIdx pk file 0).isSome = true := by
  have hps : PAGE_HEADER_SIZE ≤ pageSize (compute_record_size fields) := pageSize_ge _
  have hphs : PAGE_HEADER_SIZE = 11 := rfl
  have hwalk : ∀ (d k0 : Nat), k ≤ k0 + d → k0 ≤ k →
      (findPages fields pkIdx pk file
        (k0 * pageSize (compute_record_size fields))).isSome = true := by
    intro d
    induction d with
    | zero =>
      intro k0 h1 h2
      have hek : k0 = k := by omega
      subst hek
      exact findPages_hit fields pkIdx pk file n hal hinv k0 s hk hs hm
    | succ d ih =>
      intro k0 h1 h2
      by_cases hek : k0 = k
      · subst hek
        exact findPages_hit fields pkIdx pk file n hal hinv k0 s hk hs hm
      · have hk0k : k0 < k := by omega
        have hk0n : k0 < n := by omega
        have hmul : k0 * pageSize (compute_record_size fields)
              + pageSize (compute_record_size fields)
            ≤ n * pageSize (compute_record_size fields) := mul_page_bound _ _ _ hk0n
        have hnext : k0 * pageSize (compute_record_size fields)
              + pageSize (compute_record_size fields)
            = (k0 + 1) * pageSize (compute_record_size fields) :=
          (Nat.succ_mul k0 _).symm
        rw [findPages]
        rw [dif_neg (by omega)]
        by_cases hocc : ((file.drop (k0 * pageSize (compute_record_size fields))).take
            PAGE_HEADER_SIZE).getD 0 0 = 0
        · rw [if_pos hocc, hnext]
          exact ih (k0 + 1) (by omega) (by omega)
        · rw [if_neg hocc]
          cases hfind : (List.range NUM_SLOTS).find? (fun t =>
              ((file.drop (k0 * pageSize (compute_record_size fields))).take
                PAGE_HEADER_SIZE).getD (1 + t) 0 == 1
              && slotPkMatches fields pkIdx (compute_record_size fields) pk file
                  (k0 * pageSize (compute_record_size fields)) t) with
          | some x => rfl
          | none =>
            rw [hnext]
            exact ih (k0 + 1) (by omega) (by omega)
  have h := hwalk k 0 (by omega) (by omega)
  rw [Nat.zero_mul] at h
  exact h

theorem findPages_some_inv (fields : List Field) (pkIdx : Nat) (pk : PyStr)
    (file : List Nat) (n : Nat)
    (hal : file.length = n * pageSize (compute_record_size fields)) :
    ∀ (d k0 po s : Nat), n ≤ k0 + d →
      findPages fields pkIdx pk file (k0 * pageSize (compute_record_size fields))
        = some (po, s) →
      ∃ k, k0 ≤ k ∧ k < n ∧ po = k * pageSize (compute_record_size fields)
        ∧ s < NUM_SLOTS ∧ slotMatchProp fields pkIdx pk file k s := by
  have hps : PAGE_HEADER_SIZE ≤ pageSize (compute_record_size fields) := pageSize_ge _
  have hphs : PAGE_HEADER_SIZE = 11 := rfl
  intro d
  induction d with
  | zero =>
    intro k0 po s h1 h2
    have hmul : n * pageSize (compute_record_size fields)
        ≤ k0 * pageSize (compute_record_size fields) :=
      Nat.mul_le_mul_right _ (by omega)
    rw [findPages, dif_pos (by omega)] at h2
    exact absurd h2 (by simp)
  | succ d ih =>
    intro k0 po s h1 h2
    by_cases hend : n ≤ k0
    · have hmul : n * pageSize (compute_record_size fields)
          ≤ k0 * pageSize (compute_record_size fields) :=
        Nat.mul_le_mul_right _ hend
      rw [findPages, dif_pos (by omega)] at h2
      exact absurd h2 (by simp)
    · have hk0n : k0 < n := by omega
      have hmul : k0 * pageSize (compute_record_size fields)
            + pageSize (compute_record_size fields)
          ≤ n * pageSize (compute_record_size fields) := mul_page_bound _ _ _ hk0n
      have hhdr : k0 * pageSize (compute_record_size fields) + PAGE_HEADER_SIZE
          ≤ file.length := by omega
      have hnext : k0 * pageSize (compute_record_size fields)
            + pageSize (compute_record_size fields)
          = (k0 + 1) * pageSize (compute_record_size fields) :=
        (Nat.succ_mul k0 _).symm
      rw [findPages, dif_neg (by omega)] at h2
      by_cases hocc : ((file.drop (k0 * pageSize (compute_record_size fields))).take
          PAGE_HEADER_SIZE).getD 0 0 = 0
      · rw [if_pos hocc, hnext] at h2
        obtain ⟨k, hk1, hk2, hk3, hk4, hk5⟩ := ih (k0 + 1) po s (by omega) h2
        exact ⟨k, by omega, hk2, hk3, hk4, hk5⟩
      · rw [if_neg hocc] at h2
        cases hfind : (List.range NUM_SLOTS).find? (fun t =>
            ((file.drop (k0 * pageSize (compute_record_size fields))).take
              PAGE_HEADER_SIZE).getD (1 + t) 0 == 1
            && slotPkMatches fields pkIdx (compute_record_size fields) pk file
                (k0 * pageSize (compute_record_size fields)) t) with
        | some x =>
          rw [hfind] at h2
          simp only [] at h2
          injection h2 with h2
          injection h2 with hpo2 hs2
          subst hpo2
          subst hs2
          have hx := List.find?_some hfind
          have hmem := List.mem_of_find?_eq_some hfind
          have hxs : x < NUM_SLOTS := List.mem_range.mp hmem
          rw [Bool.and_eq_true] at hx
          obtain ⟨hb, hmj⟩ := hx
          refine ⟨k0, by omega, hk0n, rfl, hxs, ?_⟩
          constructor
          · have hg := header_getD file (k0 * pageSize (compute_record_size fields)) (1 + x)
              hhdr (by unfold NUM_SLOTS at hxs; unfold PAGE_HEADER_SIZE NUM_SLOTS; omega)
            rw [hg] at hb
            unfold bitAt
            rw [← Nat.add_assoc] at hb
            exact eq_of_beq hb
          · unfold slotPkMatches at hmj
            unfold recBytesAt
            exact eq_of_beq hmj
        | none =>
          rw [hfind, hnext] at h2
          obtain ⟨k, hk1, hk2, hk3, hk4, hk5⟩ := ih (k0 + 1) po s (by omega) h2
          exact ⟨k, by omega, hk2, hk3, hk4, hk5⟩

theorem insertScanLoop_none_of_full (fields : List Field) (rb file : List Nat) (n : Nat)
    (hal : file.length = n * pageSize (compute_record_size fields))
    (hfull : ∀ k, k < n → NUM_SLOTS ≤ occAt file (pageSize (compute_record_size fields)) k) :
    ∀ (d k0 : Nat), n ≤ k0 + d →
      insertScanLoop fields rb file file.length
        (k0 * pageSize (compute_record_size fields)) = none := by
  have hps : PAGE_HEADER_SIZE ≤ pageSize (compute_record_size fields) := pageSize_ge _
  have hphs : PAGE_HEADER_SIZE = 11 := rfl
  intro d
  induction d with
  | zero =>
    intro k0 hk0
    have hmul : n * pageSize (compute_record_size fields)
        ≤ k0 * pageSize (compute_record_size fields) :=
      Nat.mul_le_mul_right _ (by omega)
    rw [insertScanLoop]
    rw [dif_neg (by omega)]
  | succ d ih =>
    intro k0 hk0
    by_cases hend : n ≤ k0
    · have hmul : n * pageSize (compute_record_size fields)
          ≤ k0 * pageSize (compute_record_size fields) :=
        Nat.mul_le_mul_right _ hend
      rw [insertScanLoop]
      rw [dif_neg (by omega)]
    · have hk0n : k0 < n := by omega
      have hmul : k0 * pageSize (compute_record_size fields)
            + pageSize (compute_record_size fields)
          ≤ n * pageSize (compute_record_size fields) := mul_page_bound _ _ _ hk0n
      have hhdr : k0 * pageSize (compute_record_size fields) + PAGE_HEADER_SIZE
          ≤ file.length := by omega
      have hnext : k0 * pageSize (compute_record_size fields)
            + pageSize (compute_record_size fields)
          = (k0 + 1) * pageSize (compute_record_size fields) :=
        (Nat.succ_mul k0 _).symm
      have hffs : find_free_slot_in_page file
          (k0 * pageSize (compute_record_size fields)) = none := by
        rw [find_free_slot_eq file _ hhdr]
        rw [if_pos (show NUM_SLOTS ≤ byteAt file (k0 * pageSize (compute_record_size fields))
          from hfull k0 hk0n)]
      rw [insertScanLoop]
      rw [dif_pos (by omega)]
      rw [hffs, hnext]
      exact ih (k0 + 1) (by omega)

theorem insertScanLoop_reaches (fields : List Field) (rb file : List Nat) (n : Nat)
    (hal : file.length = n * pageSize (compute_record_size fields))
    (k : Nat) (hk : k < n)
    (hbefore : ∀ j, j < k → NUM_SLOTS ≤ occAt file (pageSize (compute_record_size fields)) j)
    (s : Nat)
    (hffs : find_free_slot_in_page file (k * pageSize (compute_record_size fields)) = some s) :
    insertScanLoop fields rb file file.length 0
      = some (applyInsert fields rb file (k * pageSize (compute_record_size fields)) s) := by
  have hps : PAGE_HEADER_SIZE ≤ pageSize (compute_record_size fields) := pageSize_ge _
  have hphs : PAGE_HEADER_SIZE = 11 := rfl
  have hwalk : ∀ (d k0 : Nat), k ≤ k0 + d → k0 ≤ k →
      insertScanLoop fields rb file file.length
        (k0 * pageSize (compute_record_size fields))
      = some (applyInsert fields rb file (k * pageSize (compute_record_size fields)) s) := by
    intro d
    induction d with
    | zero =>
      intro k0 h1 h2
      have hek : k0 = k := by omega
      subst hek
      have hmul : k0 * pageSize (compute_record_size fields)
            + pageSize (compute_record_size fields)
          ≤ n * pageSize (compute_record_size fields) := mul_page_bound _ _ _ hk
      rw [insertScanLoop]
      rw [dif_pos (by omega)]
      rw [hffs]
    | succ d ih =>
      intro k0 h1 h2
      by_cases hek : k0 = k
      · subst hek
        have hmul : k0 * pageSize (compute_record_size fields)
              + pageSize (compute_record_size fields)
            ≤ n * pageSize (compute_record_size fields) := mul_page_bound _ _ _ hk
        rw [insertScanLoop]
        rw [dif_pos (by omega)]
        rw [hffs]
      · have hk0k : k0 < k := by omega
        have hk0n : k0 < n := by omega
        have hmul : k0 * pageSize (compute_record_size fields)
              + pageSize (compute_record_size fields)
            ≤ n * pageSize (compute_record_size fields) := mul_page_bound _ _ _ hk0n
        have hhdr : k0 * pageSize (compute_record_size fields) + PAGE_HEADER_SIZE
            ≤ file.length := by omega
        have hnext : k0 * pageSize (compute_record_size fields)
              + pageSize (compute_record_size fields)
            = (k0 + 1) * pageSize (compute_record_size fields) :=
          (Nat.succ_mul k0 _).symm
        have hffs0 : find_free_slot_in_page file
            (k0 * pageSize (compute_record_size fields)) = none := by
          rw [find_free_slot_eq file _ hhdr]
          rw [if_pos (show NUM_SLOTS ≤ byteAt file (k0 * pageSize (compute_record_size fields))
            from hbefore k0 hk0k)]
        rw [insertScanLoop]
        rw [dif_pos (by omega)]
        rw [hffs0, hnext]
        exact ih (k0 + 1) (by omega) (by omega)
  have h := hwalk k 0 (by omega) (by omega)
  rw [Nat.zero_mul] at h
  exact h

theorem insertScanLoop_some_inv (fields : List Field) (rb file : List Nat) (n : Nat)
    (hal : file.length = n * pageSize (compute_record_size fields)) :
    ∀ (d k0 : Nat) (f' : List Nat), n ≤ k0 + d →
      insertScanLoop fields rb file file.length
        (k0 * pageSize (compute_record_size fields)) = some f' →
      ∃ k s, k0 ≤ k ∧ k < n
        ∧ find_free_slot_in_page file (k * pageSize (compute_record_size fields)) = some s
        ∧ f' = applyInsert fields rb file (k * pageSize (compute_record_size fields)) s := by
  have hps : PAGE_HEADER_SIZE ≤ pageSize (compute_record_size fields) := pageSize_ge _
  have hphs : PAGE_HEADER_SIZE = 11 := rfl
  intro d
  induction d with
  | zero =>
    intro k0 f' h1 h2
    have hmul : n * pageSize (compute_record_size fields)
        ≤ k0 * pageSize (compute_record_size fields) :=
      Nat.mul_le_mul_right _ (by omega)
    rw [insertScanLoop, dif_neg (by omega)] at h2
    exact absurd h2 (by simp)
  | succ d ih =>
    intro k0 f' h1 h2
    by_cases hend : n ≤ k0
    · have hmul : n * pageSize (compute_record_size fields)
          ≤ k0 * pageSize (compute_record_size fields) :=
        Nat.mul_le_mul_right _ hend
      rw [insertScanLoop, dif_neg (by omega)] at h2
      exact absurd h2 (by simp)
    · have hk0n : k0 < n := by omega
      have hmul : k0 * pageSize (compute_record_size fields)
            + pageSize (compute_record_size fields)
          ≤ n * pageSize (compute_record_size fields) := mul_page_bound _ _ _ hk0n
      have hnext : k0 * pageSize (compute_record_size fields)
            + pageSize (compute_record_size fields)
          = (k0 + 1) * pageSize (compute_record_size fields) :=
        (Nat.succ_mul k0 _).symm
      rw [insertScanLoop, dif_pos (by omega)] at h2
      cases hffs : find_free_slot_in_page file
          (k0 * pageSize (compute_record_size fields)) with
      | some s =>
        rw [hffs] at h2
        simp only [] at h2
        injection h2 with h2
        exact ⟨k0, s, by omega, hk0n, hffs, h2.symm⟩
      | none =>
        rw [hffs, hnext] at h2
        obtain ⟨k, s, hk1, hk2, hk3, hk4⟩ := ih (k0 + 1) f' (by omega) h2
        exact ⟨k, s, by omega, hk2, hk3, hk4⟩

theorem find_free_slot_some_inv (file : List Nat) (po s : Nat)
    (hpo : po + PAGE_HEADER_SIZE ≤ file.length)
    (h : find_free_slot_in_page file po = some s) :
    byteAt file po < NUM_SLOTS ∧ s < NUM_SLOTS ∧ byteAt file (po + 1 + s) = 0
      ∧ ∀ t, t < s → byteAt file (po + 1 + t) ≠ 0 := by
  rw [find_free_slot_eq file po hpo] at h
  by_cases hocc : NUM_SLOTS ≤ byteAt file po
  · rw [if_pos hocc] at h
    exact absurd h (by simp)
  · rw [if_neg hocc] at h
    obtain ⟨h1, h2, h3⟩ := find?_range_first NUM_SLOTS _ s h
    refine ⟨by omega, h1, eq_of_beq h2, ?_⟩
    intro t ht
    have := h3 t ht
    intro h0
    rw [h0] at this
    simp at this

/-- Existence of a free slot on a non-full page, under the occupancy
invariant with boolean bitmap bytes. -/
theorem find_free_slot_isSome_of_not_full (file : List Nat) (k ps : Nat)
    (hhdr : k * ps + PAGE_HEADER_SIZE ≤ file.length)
    (hinv : invOcc ps file) (hbb : bitsBool ps file)
    (hocc : occAt file ps k < NUM_SLOTS) :
    ∃ s, (List.range NUM_SLOTS).find? (fun t => byteAt file (k * ps + 1 + t) == 0)
      = some s := by
  have hcnt := hinv k hhdr
  by_cases hex : ∃ t ∈ List.range NUM_SLOTS, (byteAt file (k * ps + 1 + t) == 0) = true
  · have := List.find?_isSome.mpr hex
    exact Option.isSome_iff_exists.mp this
  · exfalso
    push_neg at hex
    have hall : ∀ t ∈ List.range NUM_SLOTS,
        (bitAt file ps k t == 1) = true := by
      intro t ht
      have ht' : t < NUM_SLOTS := List.mem_range.mp ht
      have hb := hbb k t hhdr ht'
      cases hb with
      | inl h0 =>
        exfalso
        apply hex t ht
        unfold bitAt at h0
        rw [h0]
        rfl
      | inr h1 => exact beq_iff_eq.mpr h1
    have := List.countP_eq_length.mpr hall
    rw [this] at hcnt
    simp only [List.length_range] at hcnt
    unfold occAt at hocc
    unfold occAt at hcnt
    omega

theorem getD_set (l : List Nat) (i j a : Nat) :
    (l.set i a).getD j 0 = if i = j ∧ j < l.length then a else l.getD j 0 := by
  simp only [List.getD_eq_getElem?_getD, List.getElem?_set]
  by_cases hij : i = j
  · subst hij
    by_cases hlen : i < l.length
    · rw [if_pos rfl, if_pos hlen, if_pos ⟨rfl, hlen⟩]
      rfl
    · rw [if_pos rfl, if_neg hlen, if_neg (by intro h; exact hlen h.2)]
      rw [List.getElem?_eq_none (by omega)]
  · rw [if_neg hij, if_neg (by intro h; exact hij h.1)]

theorem byteAt_append (f g : List Nat) (x : Nat) :
    byteAt (f ++ g) x = if x < f.length then byteAt f x else byteAt g (x - f.length) := by
  unfold byteAt
  simp only [List.getD_eq_getElem?_getD]
  by_cases hx : x < f.length
  · rw [if_pos hx, List.getElem?_append_left hx]
  · rw [if_neg hx, List.getElem?_append_right (by omega)]

theorem compute_record_size_eq (fields : List Field) :
    compute_record_size fields = 1 + (fields.map Field.flen).sum := by
  unfold compute_record_size
  have hgen : ∀ (a : Nat) (fs : List Field),
      fs.foldl (fun total f => total + f.flen) a = a + (fs.map Field.flen).sum := by
    intro a fs
    induction fs generalizing a with
    | nil => simp
    | cons f rest ih =>
      simp only [List.foldl_cons, List.map_cons, List.sum_cons]
      rw [ih (a + f.flen)]
      omega
  exact hgen 1 fields

theorem compute_record_size_pos (fields : List Field) : 1 ≤ compute_record_size fields := by
  rw [compute_record_size_eq]
  omega

theorem countP_range_flip (n s : Nat) (p q : Nat → Bool) (hs : s < n)
    (hp : p s = false) (hq : q s = true) (hag : ∀ t, t < n → t ≠ s → q t = p t) :
    (List.range n).countP q = (List.range n).countP p + 1 := by
  induction n with
  | zero => omega
  | succ m ih =>
    rw [List.range_succ, List.countP_append, List.countP_append]
    by_cases hsm : s = m
    · subst hsm
      have heq : (List.range s).countP q = (List.range s).countP p := by
        apply List.countP_congr
        intro t ht
        have ht' : t < s := List.mem_range.mp ht
        rw [hag t (by omega) (by omega)]
      rw [heq]
      have h1 : List.countP q [s] = 1 := by simp [List.countP_cons, hq]
      have h2 : List.countP p [s] = 0 := by simp [List.countP_cons, hp]
      rw [h1, h2]
    · have hsm' : s < m := by omega
      rw [ih hsm' (fun t ht hts => hag t (by omega) hts)]
      have heq : List.countP q [m] = List.countP p [m] := by
        simp only [List.countP_cons, List.countP_nil]
        rw [hag m (by omega) (by omega)]
      rw [heq]
      omega

/-! ## Byte-level characterizations of the insert and delete writes -/

theorem byteAt_applyInsert (fields : List Field) (rb file : List Nat) (po s x : Nat)
    (hpo : po + PAGE_HEADER_SIZE ≤ file.length) (hs : s < NUM_SLOTS) :
    byteAt (applyInsert fields rb file po s) x =
      if x = po then byteAt file po + 1
      else if x = po + 1 + s then 1
      else if po + PAGE_HEADER_SIZE + s * compute_record_size fields ≤ x ∧
          x < po + PAGE_HEADER_SIZE + s * compute_record_size fields + rb.length then
        rb.getD (x - (po + PAGE_HEADER_SIZE + s * compute_record_size fields)) 0
      else byteAt file x := by
  have hns : NUM_SLOTS = 10 := rfl
  have hphs : PAGE_HEADER_SIZE = 11 := rfl
  set rs := compute_record_size fields with hrs
  set ro := po + PAGE_HEADER_SIZE + s * rs with hro
  set f1 := writeBytes file ro rb with hf1
  set header := (f1.drop po).take PAGE_HEADER_SIZE with hheader
  set header2 := (header.set 0 (header.getD 0 0 + 1)).set (1 + s) 1 with hheader2
  have hf1len : file.length ≤ f1.length := by
    rw [hf1, length_writeBytes]
    omega
  have hh_len : header.length = PAGE_HEADER_SIZE := by
    rw [hheader]
    simp only [List.length_take, List.length_drop]
    omega
  have hh2_len : header2.length = PAGE_HEADER_SIZE := by
    rw [hheader2]
    simp only [List.length_set]
    exact hh_len
  have hf1at : ∀ i, i < ro → byteAt f1 i = byteAt file i := by
    intro i hi
    rw [hf1, byteAt_writeBytes, if_neg (by omega)]
  have hhget : ∀ j, j < PAGE_HEADER_SIZE → header.getD j 0 = byteAt file (po + j) := by
    intro j hj
    rw [hheader, header_getD f1 po j (by omega) hj]
    exact hf1at (po + j) (by omega)
  have happ : byteAt (applyInsert fields rb file po s) x
      = byteAt (writeBytes f1 po header2) x := rfl
  rw [happ, byteAt_writeBytes]
  by_cases hx0 : x = po
  · subst hx0
    rw [if_pos (by omega), if_pos rfl, Nat.sub_self]
    have hv : header2.getD 0 0 = header.getD 0 0 + 1 := by
      rw [hheader2, getD_set, if_neg (by omega), getD_set, if_pos ⟨rfl, by omega⟩]
    rw [hv, hhget 0 (by omega)]
    simp
  · by_cases hx1 : x = po + 1 + s
    · rw [if_pos (by omega), if_neg hx0, if_pos hx1]
      have hsub : x - po = 1 + s := by omega
      rw [hsub, hheader2, getD_set,
        if_pos ⟨rfl, by simp only [List.length_set]; omega⟩]
    · by_cases hx2 : ro ≤ x ∧ x < ro + rb.length
      · rw [if_neg (by omega), hf1, byteAt_writeBytes, if_pos hx2,
          if_neg hx0, if_neg hx1]
      · by_cases hxh : po ≤ x ∧ x < po + PAGE_HEADER_SIZE
        · rw [if_pos (by omega), if_neg hx0, if_neg hx1, if_neg hx2]
          have hv : header2.getD (x - po) 0 = header.getD (x - po) 0 := by
            rw [hheader2, getD_set, if_neg (by omega), getD_set, if_neg (by omega)]
          rw [hv, hhget (x - po) (by omega)]
          have hpx : po + (x - po) = x := by omega
          rw [hpx]
        · rw [if_neg (by omega), hf1, byteAt_writeBytes, if_neg hx2,
            if_neg hx0, if_neg hx1]

theorem length_applyInsert (fields : List Field) (rb file : List Nat) (po s : Nat)
    (hpage : po + pageSize (compute_record_size fields) ≤ file.length)
    (hs : s < NUM_SLOTS) (hrb : rb.length ≤ compute_record_size fields) :
    (applyInsert fields rb file po s).length = file.length := by
  have hns : NUM_SLOTS = 10 := rfl
  have hphs : PAGE_HEADER_SIZE = 11 := rfl
  set rs := compute_record_size fields with hrs
  have hpsz : pageSize rs = 11 + 10 * rs := by
    unfold pageSize PAGE_HEADER_SIZE NUM_SLOTS
    omega
  set ro := po + PAGE_HEADER_SIZE + s * rs with hro
  set f1 := writeBytes file ro rb with hf1
  set header := (f1.drop po).take PAGE_HEADER_SIZE with hheader
  set header2 := (header.set 0 (header.getD 0 0 + 1)).set (1 + s) 1 with hheader2
  have hsm : (s + 1) * rs = s * rs + rs := Nat.succ_mul s rs
  have hm10 : (s + 1) * rs ≤ 10 * rs := Nat.mul_le_mul_right rs (by omega)
  have hf1len : f1.length = file.length := by
    rw [hf1, length_writeBytes]
    omega
  have hh_len : header.length = PAGE_HEADER_SIZE := by
    rw [hheader]
    simp only [List.length_take, List.length_drop]
    omega
  have hh2_len : header2.length = PAGE_HEADER_SIZE := by
    rw [hheader2]
    simp only [List.length_set]
    exact hh_len
  have happ : applyInsert fields rb file po s = writeBytes f1 po header2 := rfl
  rw [happ, length_writeBytes]
  omega

theorem byteAt_applyDelete (fields : List Field) (file : List Nat) (po s x : Nat)
    (hpo : po + PAGE_HEADER_SIZE ≤ file.length) (hs : s < NUM_SLOTS) :
    byteAt (applyDelete fields file po s) x =
      if x = po then byteAt file po - 1
      else if x = po + 1 + s then 0
      else if x = po + PAGE_HEADER_SIZE + s * compute_record_size fields then 0
      else byteAt file x := by
  have hns : NUM_SLOTS = 10 := rfl
  have hphs : PAGE_HEADER_SIZE = 11 := rfl
  set rs := compute_record_size fields with hrs
  set ro := po + PAGE_HEADER_SIZE + s * rs with hro
  set f1 := writeBytes file ro [0] with hf1
  set header := (f1.drop po).take PAGE_HEADER_SIZE with hheader
  set header1 := if 0 < header.getD 0 0 then header.set 0 (header.getD 0 0 - 1) else header
    with hheader1
  set header2 := header1.set (1 + s) 0 with hheader2
  have hf1len : file.length ≤ f1.length := by
    rw [hf1, length_writeBytes]
    omega
  have hh_len : header.length = PAGE_HEADER_SIZE := by
    rw [hheader]
    simp only [List.length_take, List.length_drop]
    omega
  have hh1_len : header1.length = PAGE_HEADER_SIZE := by
    rw [hheader1]
    by_cases hc : 0 < header.getD 0 0
    · rw [if_pos hc]
      simp only [List.length_set]
      exact hh_len
    · rw [if_neg hc]
      exact hh_len
  have hh2_len : header2.length = PAGE_HEADER_SIZE := by
    rw [hheader2]
    simp only [List.length_set]
    exact hh1_len
  have hf1at : ∀ i, byteAt f1 i = if i = ro then 0 else byteAt file i := by
    intro i
    rw [hf1, byteAt_writeBytes]
    by_cases hi : i = ro
    · subst hi
      rw [if_pos (by simp only [List.length_cons, List.length_nil]; omega), if_pos rfl,
        Nat.sub_self]
      rfl
    · rw [if_neg (by simp only [List.length_cons, List.length_nil]; omega), if_neg hi]
  have hhget : ∀ j, j < PAGE_HEADER_SIZE → header.getD j 0 = byteAt file (po + j) := by
    intro j hj
    rw [hheader, header_getD f1 po j (by omega) hj, hf1at (po + j), if_neg (by omega)]
  have happ : byteAt (applyDelete fields file po s) x
      = byteAt (writeBytes f1 po header2) x := rfl
  rw [happ, byteAt_writeBytes]
  by_cases hx0 : x = po
  · subst hx0
    rw [if_pos (by omega), if_pos rfl, Nat.sub_self]
    have hv : header2.getD 0 0 = header.getD 0 0 - 1 := by
      rw [hheader2, getD_set, if_neg (by omega), hheader1]
      by_cases hc : 0 < header.getD 0 0
      · rw [if_pos hc, getD_set, if_pos ⟨rfl, by omega⟩]
      · rw [if_neg hc]
        omega
    rw [hv, hhget 0 (by omega)]
    simp
  · by_cases hx1 : x = po + 1 + s
    · rw [if_pos (by omega), if_neg hx0, if_pos hx1]
      have hsub : x - po = 1 + s := by omega
      rw [hsub, hheader2, getD_set, if_pos ⟨rfl, by omega⟩]
    · by_cases hx2 : x = ro
      · rw [if_neg (by omega), hf1at, if_pos hx2, if_neg hx0, if_neg hx1]
      · by_cases hxh : po ≤ x ∧ x < po + PAGE_HEADER_SIZE
        · rw [if_pos (by omega), if_neg hx0, if_neg hx1, if_neg hx2]
          have hv : header2.getD (x - po) 0 = header.getD (x - po) 0 := by
            rw [hheader2, getD_set, if_neg (by omega), hheader1]
            by_cases hc : 0 < header.getD 0 0
            · rw [if_pos hc, getD_set, if_neg (by omega)]
            · rw [if_neg hc]
          rw [hv, hhget (x - po) (by omega)]
          have hpx : po + (x - po) = x := by omega
          rw [hpx]
        · rw [if_neg (by omega), hf1at, if_neg hx2, if_neg hx0, if_neg hx1]

theorem length_applyDelete (fields : List Field) (file : List Nat) (po s : Nat)
    (hpage : po + pageSize (compute_record_size fields) ≤ file.length)
    (hs : s < NUM_SLOTS) :
    (applyDelete fields file po s).length = file.length := by
  have hns : NUM_SLOTS = 10 := rfl
  have hphs : PAGE_HEADER_SIZE = 11 := rfl
  set rs := compute_record_size fields with hrs
  have hpos : 1 ≤ rs := compute_record_size_pos fields
  have hpsz : pageSize rs = 11 + 10 * rs := by
    unfold pageSize PAGE_HEADER_SIZE NUM_SLOTS
    omega
  set ro := po + PAGE_HEADER_SIZE + s * rs with hro
  set f1 := writeBytes file ro [0] with hf1
  set header := (f1.drop po).take PAGE_HEADER_SIZE with hheader
  set header1 := if 0 < header.getD 0 0 then header.set 0 (header.getD 0 0 - 1) else header
    with hheader1
  set header2 := header1.set (1 + s) 0 with hheader2
  have hm9 : s * rs ≤ 9 * rs := Nat.mul_le_mul_right rs (by omega)
  have hf1len : f1.length = file.length := by
    rw [hf1, length_writeBytes]
    simp only [List.length_cons, List.length_nil]
    omega
  have hh_len : header.length = PAGE_HEADER_SIZE := by
    rw [hheader]
    simp only [List.length_take, List.length_drop]
    omega
  have hh1_len : header1.length = PAGE_HEADER_SIZE := by
    rw [hheader1]
    by_cases hc : 0 < header.getD 0 0
    · rw [if_pos hc]
      simp only [List.length_set]
      exact hh_len
    · rw [if_neg hc]
      exact hh_len
  have hh2_len : header2.length = PAGE_HEADER_SIZE := by
    rw [hheader2]
    simp only [List.length_set]
    exact hh1_len
  have happ : applyDelete fields file po s = writeBytes f1 po header2 := rfl
  rw [happ, length_writeBytes]
  omega

/-! ## Occupancy-invariant preservation -/

theorem byteAt_replicate (m i : Nat) : byteAt (List.replicate m 0) i = 0 := by
  unfold byteAt
  simp only [List.getD_eq_getElem?_getD]
  by_cases hi : i < m
  · rw [List.getElem?_replicate_of_lt hi]
    rfl
  · rw [List.getElem?_eq_none (by simp only [List.length_replicate]; omega)]
    rfl

theorem length_emptyPage (rs : Nat) : (emptyPage rs).length = pageSize rs := by
  unfold emptyPage pageSize
  rw [List.length_append, List.length_replicate, List.length_replicate]

theorem emptyPage_byteAt (rs i : Nat) : byteAt (emptyPage rs) i = 0 := by
  unfold emptyPage
  rw [byteAt_append]
  by_cases hi : i < (List.replicate PAGE_HEADER_SIZE (0 : Nat)).length
  · rw [if_pos hi, byteAt_replicate]
  · rw [if_neg hi, byteAt_replicate]

theorem invOcc_emptyPage (rs : Nat) : invOcc (pageSize rs) (emptyPage rs) := by
  intro k hk
  unfold occAt
  rw [emptyPage_byteAt]
  have hcnt : (List.range NUM_SLOTS).countP
      (fun s => bitAt (emptyPage rs) (pageSize rs) k s == 1) = 0 := by
    apply List.countP_eq_zero.mpr
    intro t ht
    unfold bitAt
    rw [emptyPage_byteAt]
    simp
  rw [hcnt]

theorem length_appendedPage (rs : Nat) (rb : List Nat) (hrb : rb.length = rs) :
    (appendedPage rs rb).length = pageSize rs := by
  have hns : NUM_SLOTS = 10 := rfl
  have hphs : PAGE_HEADER_SIZE = 11 := rfl
  unfold appendedPage pageSize
  simp only [List.length_append, List.length_cons, List.length_replicate, hns, hphs]
  omega

theorem appendedPage_byteAt_header (rs : Nat) (rb : List Nat) (i : Nat)
    (hi : i < PAGE_HEADER_SIZE) :
    byteAt (appendedPage rs rb) i = if i ≤ 1 then 1 else 0 := by
  have hphs : PAGE_HEADER_SIZE = 11 := rfl
  have hlen : (1 :: 1 :: List.replicate (NUM_SLOTS - 1) 0 : List Nat).length = 11 := by
    simp [NUM_SLOTS]
  unfold appendedPage
  rw [byteAt_append, if_pos (by simp only [List.length_append]; omega)]
  rw [byteAt_append, if_pos (by omega)]
  have hi' : i < 11 := by omega
  interval_cases i <;> decide

theorem invOcc_append (rs : Nat) (file rb : List Nat) (n : Nat)
    (hal : file.length = n * pageSize rs)
    (hinv : invOcc (pageSize rs) file)
    (hrb : rb.length = rs) :
    invOcc (pageSize rs) (file ++ appendedPage rs rb) := by
  have hphs : PAGE_HEADER_SIZE = 11 := rfl
  have hns : NUM_SLOTS = 10 := rfl
  have hps11 : PAGE_HEADER_SIZE ≤ pageSize rs := pageSize_ge rs
  have hpg : (appendedPage rs rb).length = pageSize rs := length_appendedPage rs rb hrb
  intro k hk
  rw [List.length_append, hpg] at hk
  by_cases hkn : k < n
  · have hbound : k * pageSize rs + pageSize rs ≤ file.length := by
      have := mul_page_bound k n (pageSize rs) hkn
      omega
    have hby : ∀ x, k * pageSize rs ≤ x → x < k * pageSize rs + PAGE_HEADER_SIZE →
        byteAt (file ++ appendedPage rs rb) x = byteAt file x := by
      intro x hx1 hx2
      rw [byteAt_append, if_pos (by omega)]
    unfold occAt bitAt
    rw [hby (k * pageSize rs) (Nat.le_refl _) (by omega)]
    have hcnt : (List.range NUM_SLOTS).countP
          (fun t => byteAt (file ++ appendedPage rs rb) (k * pageSize rs + 1 + t) == 1)
        = (List.range NUM_SLOTS).countP
          (fun t => byteAt file (k * pageSize rs + 1 + t) == 1) := by
      apply List.countP_congr
      intro t ht
      have ht' : t < NUM_SLOTS := List.mem_range.mp ht
      rw [hby (k * pageSize rs + 1 + t) (by omega) (by omega)]
    rw [hcnt]
    have hone := hinv k (by omega)
    unfold occAt bitAt at hone
    exact hone
  · have hkn' : k = n := by
      by_contra hne
      have hk1 : n + 1 ≤ k := by omega
      have hm := Nat.mul_le_mul_right (pageSize rs) hk1
      have hsm : (n + 1) * pageSize rs = n * pageSize rs + pageSize rs := Nat.succ_mul n _
      omega
    subst hkn'
    have hby : ∀ x, k * pageSize rs ≤ x → x < k * pageSize rs + PAGE_HEADER_SIZE →
        byteAt (file ++ appendedPage rs rb) x
          = if x - k * pageSize rs ≤ 1 then 1 else 0 := by
      intro x hx1 hx2
      rw [byteAt_append, if_neg (by omega)]
      have hsub : x - file.length = x - k * pageSize rs := by omega
      rw [hsub, appendedPage_byteAt_header rs rb _ (by omega)]
    unfold occAt bitAt
    rw [hby (k * pageSize rs) (Nat.le_refl _) (by omega), if_pos (by omega)]
    have hcnt : (List.range NUM_SLOTS).countP
          (fun t => byteAt (file ++ appendedPage rs rb) (k * pageSize rs + 1 + t) == 1)
        = (List.range NUM_SLOTS).countP (fun t => t == 0) := by
      apply List.countP_congr
      intro t ht
      have ht' : t < NUM_SLOTS := List.mem_range.mp ht
      rw [hby (k * pageSize rs + 1 + t) (by omega) (by omega)]
      have hsub : k * pageSize rs + 1 + t - k * pageSize rs = 1 + t := by omega
      rw [hsub]
      by_cases ht0 : t = 0
      · subst ht0
        simp
      · rw [if_neg (by omega)]
        simp [ht0]
    rw [hcnt]
    decide

theorem invOcc_applyInsert (fields : List Field) (rb file : List Nat) (n k s : Nat)
    (hal : file.length = n * pageSize (compute_record_size fields))
    (hinv : invOcc (pageSize (compute_record_size fields)) file)
    (hk : k < n) (hs : s < NUM_SLOTS)
    (hfree : byteAt file (k * pageSize (compute_record_size fields) + 1 + s) = 0)
    (hrb : rb.length ≤ compute_record_size fields) :
    invOcc (pageSize (compute_record_size fields))
      (applyInsert fields rb file (k * pageSize (compute_record_size fields)) s) := by
  have hphs : PAGE_HEADER_SIZE = 11 := rfl
  have hns : NUM_SLOTS = 10 := rfl
  have hpsz : pageSize (compute_record_size fields)
      = 11 + 10 * compute_record_size fields := by
    unfold pageSize PAGE_HEADER_SIZE NUM_SLOTS
    omega
  have hbound : k * pageSize (compute_record_size fields)
      + pageSize (compute_record_size fields) ≤ file.length := by
    have := mul_page_bound k n (pageSize (compute_record_size fields)) hk
    omega
  set f' := applyInsert fields rb file (k * pageSize (compute_record_size fields)) s with hf'
  have hlen : f'.length = file.length := by
    rw [hf']
    exact length_applyInsert fields rb file (k * pageSize (compute_record_size fields)) s
      (by omega) hs hrb
  have hsm : (s + 1) * compute_record_size fields
      = s * compute_record_size fields + compute_record_size fields :=
    Nat.succ_mul s (compute_record_size fields)
  have hm10 : (s + 1) * compute_record_size fields ≤ 10 * compute_record_size fields :=
    Nat.mul_le_mul_right (compute_record_size fields) (by omega)
  intro j hj
  rw [hlen] at hj
  by_cases hjk : j = k
  · subst hjk
    have hocc' : byteAt f' (j * pageSize (compute_record_size fields))
        = byteAt file (j * pageSize (compute_record_size fields)) + 1 := by
      rw [hf', byteAt_applyInsert fields rb file (j * pageSize (compute_record_size fields)) s
        (j * pageSize (compute_record_size fields)) (by omega) hs, if_pos rfl]
    have hbit' : byteAt f' (j * pageSize (compute_record_size fields) + 1 + s) = 1 := by
      rw [hf', byteAt_applyInsert fields rb file (j * pageSize (compute_record_size fields)) s
        (j * pageSize (compute_record_size fields) + 1 + s) (by omega) hs,
        if_neg (by omega), if_pos rfl]
    have hbits : ∀ t, t < NUM_SLOTS → t ≠ s →
        byteAt f' (j * pageSize (compute_record_size fields) + 1 + t)
          = byteAt file (j * pageSize (compute_record_size fields) + 1 + t) := by
      intro t ht hts
      rw [hf', byteAt_applyInsert fields rb file (j * pageSize (compute_record_size fields)) s
        (j * pageSize (compute_record_size fields) + 1 + t) (by omega) hs,
        if_neg (by omega), if_neg (by omega), if_neg (by omega)]
    unfold occAt bitAt
    rw [hocc']
    have hflip : (List.range NUM_SLOTS).countP
          (fun t => byteAt f' (j * pageSize (compute_record_size fields) + 1 + t) == 1)
        = (List.range NUM_SLOTS).countP
          (fun t => byteAt file (j * pageSize (compute_record_size fields) + 1 + t) == 1)
          + 1 := by
      refine countP_range_flip NUM_SLOTS s _ _ hs ?_ ?_ ?_
      · show (byteAt file (j * pageSize (compute_record_size fields) + 1 + s) == 1) = false
        rw [hfree]
        rfl
      · show (byteAt f' (j * pageSize (compute_record_size fields) + 1 + s) == 1) = true
        rw [hbit']
        rfl
      · intro t ht hts
        show (byteAt f' (j * pageSize (compute_record_size fields) + 1 + t) == 1)
          = (byteAt file (j * pageSize (compute_record_size fields) + 1 + t) == 1)
        rw [hbits t ht hts]
    rw [hflip]
    have hone := hinv j (by omega)
    unfold occAt bitAt at hone
    omega
  · have hby : ∀ x, j * pageSize (compute_record_size fields) ≤ x →
        x < j * pageSize (compute_record_size fields) + PAGE_HEADER_SIZE →
        byteAt f' x = byteAt file x := by
      intro x hx1 hx2
      rcases Nat.lt_or_ge j k with hjk' | hjk'
      · have h1 : j * pageSize (compute_record_size fields)
            + pageSize (compute_record_size fields)
            ≤ k * pageSize (compute_record_size fields) :=
          mul_page_bound j k (pageSize (compute_record_size fields)) hjk'
        rw [hf', byteAt_applyInsert fields rb file (k * pageSize (compute_record_size fields))
          s x (by omega) hs, if_neg (by omega), if_neg (by omega), if_neg (by omega)]
      · have hjk'' : k < j := by omega
        have h1 : k * pageSize (compute_record_size fields)
            + pageSize (compute_record_size fields)
            ≤ j * pageSize (compute_record_size fields) :=
          mul_page_bound k j (pageSize (compute_record_size fields)) hjk''
        rw [hf', byteAt_applyInsert fields rb file (k * pageSize (compute_record_size fields))
          s x (by omega) hs, if_neg (by omega), if_neg (by omega), if_neg (by omega)]
    unfold occAt bitAt
    rw [hby (j * pageSize (compute_record_size fields)) (Nat.le_refl _) (by omega)]
    have hcnt : (List.range NUM_SLOTS).countP
          (fun t => byteAt f' (j * pageSize (compute_record_size fields) + 1 + t) == 1)
        = (List.range NUM_SLOTS).countP
          (fun t => byteAt file (j * pageSize (compute_record_size fields) + 1 + t) == 1) := by
      apply List.countP_congr
      intro t ht
      have ht' : t < NUM_SLOTS := List.mem_range.mp ht
      rw [hby (j * pageSize (compute_record_size fields) + 1 + t) (by omega) (by omega)]
    rw [hcnt]
    have hone := hinv j (by omega)
    unfold occAt bitAt at hone
    exact hone

theorem invOcc_applyDelete (fields : List Field) (file : List Nat) (n k s : Nat)
    (hal : file.length = n * pageSize (compute_record_size fields))
    (hinv : invOcc (pageSize (compute_record_size fields)) file)
    (hk : k < n) (hs : s < NUM_SLOTS)
    (hbit1 : byteAt file (k * pageSize (compute_record_size fields) + 1 + s) = 1) :
    invOcc (pageSize (compute_record_size fields))
      (applyDelete fields file (k * pageSize (compute_record_size fields)) s) := by
  have hphs : PAGE_HEADER_SIZE = 11 := rfl
  have hns : NUM_SLOTS = 10 := rfl
  have hpos : 1 ≤ compute_record_size fields := compute_record_size_pos fields
  have hpsz : pageSize (compute_record_size fields)
      = 11 + 10 * compute_record_size fields := by
    unfold pageSize PAGE_HEADER_SIZE NUM_SLOTS
    omega
  have hbound : k * pageSize (compute_record_size fields)
      + pageSize (compute_record_size fields) ≤ file.length := by
    have := mul_page_bound k n (pageSize (compute_record_size fields)) hk
    omega
  set f' := applyDelete fields file (k * pageSize (compute_record_size fields)) s with hf'
  have hlen : f'.length = file.length := by
    rw [hf']
    exact length_applyDelete fields file (k * pageSize (compute_record_size fields)) s
      (by omega) hs
  have hm9 : s * compute_record_size fields ≤ 9 * compute_record_size fields :=
    Nat.mul_le_mul_right (compute_record_size fields) (by omega)
  intro j hj
  rw [hlen] at hj
  by_cases hjk : j = k
  · subst hjk
    have hocc' : byteAt f' (j * pageSize (compute_record_size fields))
        = byteAt file (j * pageSize (compute_record_size fields)) - 1 := by
      rw [hf', byteAt_applyDelete fields file (j * pageSize (compute_record_size fields)) s
        (j * pageSize (compute_record_size fields)) (by omega) hs, if_pos rfl]
    have hbit' : byteAt f' (j * pageSize (compute_record_size fields) + 1 + s) = 0 := by
      rw [hf', byteAt_applyDelete fields file (j * pageSize (compute_record_size fields)) s
        (j * pageSize (compute_record_size fields) + 1 + s) (by omega) hs,
        if_neg (by omega), if_pos rfl]
    have hbits : ∀ t, t < NUM_SLOTS → t ≠ s →
        byteAt f' (j * pageSize (compute_record_size fields) + 1 + t)
          = byteAt file (j * pageSize (compute_record_size fields) + 1 + t) := by
      intro t ht hts
      rw [hf', byteAt_applyDelete fields file (j * pageSize (compute_record_size fields)) s
        (j * pageSize (compute_record_size fields) + 1 + t) (by omega) hs,
        if_neg (by omega), if_neg (by omega), if_neg (by omega)]
    unfold occAt bitAt
    rw [hocc']
    have hflip : (List.range NUM_SLOTS).countP
          (fun t => byteAt file (j * pageSize (compute_record_size fields) + 1 + t) == 1)
        = (List.range NUM_SLOTS).countP
          (fun t => byteAt f' (j * pageSize (compute_record_size fields) + 1 + t) == 1)
          + 1 := by
      refine countP_range_flip NUM_SLOTS s _ _ hs ?_ ?_ ?_
      · show (byteAt f' (j * pageSize (compute_record_size fields) + 1 + s) == 1) = false
        rw [hbit']
        rfl
      · show (byteAt file (j * pageSize (compute_record_size fields) + 1 + s) == 1) = true
        rw [hbit1]
        rfl
      · intro t ht hts
        show (byteAt file (j * pageSize (compute_record_size fields) + 1 + t) == 1)
          = (byteAt f' (j * pageSize (compute_record_size fields) + 1 + t) == 1)
        rw [hbits t ht hts]
    have hone := hinv j (by omega)
    unfold occAt bitAt at hone
    omega
  · have hby : ∀ x, j * pageSize (compute_record_size fields) ≤ x →
        x < j * pageSize (compute_record_size fields) + PAGE_HEADER_SIZE →
        byteAt f' x = byteAt file x := by
      intro x hx1 hx2
      rcases Nat.lt_or_ge j k with hjk' | hjk'
      · have h1 : j * pageSize (compute_record_size fields)
            + pageSize (compute_record_size fields)
            ≤ k * pageSize (compute_record_size fields) :=
          mul_page_bound j k (pageSize (compute_record_size fields)) hjk'
        rw [hf', byteAt_applyDelete fields file (k * pageSize (compute_record_size fields))
          s x (by omega) hs, if_neg (by omega), if_neg (by omega), if_neg (by omega)]
      · have hjk'' : k < j := by omega
        have h1 : k * pageSize (compute_record_size fields)
            + pageSize (compute_record_size fields)
            ≤ j * pageSize (compute_record_size fields) :=
          mul_page_bound k j (pageSize (compute_record_size fields)) hjk''
        rw [hf', byteAt_applyDelete fields file (k * pageSize (compute_record_size fields))
          s x (by omega) hs, if_neg (by omega), if_neg (by omega), if_neg (by omega)]
    unfold occAt bitAt
    rw [hby (j * pageSize (compute_record_size fields)) (Nat.le_refl _) (by omega)]
    have hcnt : (List.range NUM_SLOTS).countP
          (fun t => byteAt f' (j * pageSize (compute_record_size fields) + 1 + t) == 1)
        = (List.range NUM_SLOTS).countP
          (fun t => byteAt file (j * pageSize (compute_record_size fields) + 1 + t) == 1) := by
      apply List.countP_congr
      intro t ht
      have ht' : t < NUM_SLOTS := List.mem_range.mp ht
      rw [hby (j * pageSize (compute_record_size fields) + 1 + t) (by omega) (by omega)]
    rw [hcnt]
    have hone := hinv j (by omega)
    unfold occAt bitAt at hone
    exact hone

theorem bitsBool_applyDelete (fields : List Field) (file : List Nat) (n k s : Nat)
    (hal : file.length = n * pageSize (compute_record_size fields))
    (hbb : bitsBool (pageSize (compute_record_size fields)) file)
    (hk : k < n) (hs : s < NUM_SLOTS) :
    bitsBool (pageSize (compute_record_size fields))
      (applyDelete fields file (k * pageSize (compute_record_size fields)) s) := by
  have hphs : PAGE_HEADER_SIZE = 11 := rfl
  have hns : NUM_SLOTS = 10 := rfl
  have hpos : 1 ≤ compute_record_size fields := compute_record_size_pos fields
  have hpsz : pageSize (compute_record_size fields)
      = 11 + 10 * compute_record_size fields := by
    unfold pageSize PAGE_HEADER_SIZE NUM_SLOTS
    omega
  have hbound : k * pageSize (compute_record_size fields)
      + pageSize (compute_record_size fields) ≤ file.length := by
    have := mul_page_bound k n (pageSize (compute_record_size fields)) hk
    omega
  set f' := applyDelete fields file (k * pageSize (compute_record_size fields)) s with hf'
  have hlen : f'.length = file.length := by
    rw [hf']
    exact length_applyDelete fields file (k * pageSize (compute_record_size fields)) s
      (by omega) hs
  have hm9 : s * compute_record_size fields ≤ 9 * compute_record_size fields :=
    Nat.mul_le_mul_right (compute_record_size fields) (by omega)
  intro j t hj ht
  rw [hlen] at hj
  unfold bitAt
  by_cases hjt : j = k ∧ t = s
  · obtain ⟨hj', ht'⟩ := hjt
    subst hj'
    subst ht'
    rw [hf', byteAt_applyDelete fields file (j * pageSize (compute_record_size fields)) t
      (j * pageSize (compute_record_size fields) + 1 + t) (by omega) hs,
      if_neg (by omega), if_pos rfl]
    left
    rfl
  · have hby : byteAt f' (j * pageSize (compute_record_size fields) + 1 + t)
        = byteAt file (j * pageSize (compute_record_size fields) + 1 + t) := by
      by_cases hjk : j = k
      · subst hjk
        have hts : ¬ t = s := fun h => hjt ⟨rfl, h⟩
        rw [hf', byteAt_applyDelete fields file (j * pageSize (compute_record_size fields)) s
          (j * pageSize (compute_record_size fields) + 1 + t) (by omega) hs,
          if_neg (by omega), if_neg (by omega), if_neg (by omega)]
      · rcases Nat.lt_or_ge j k with hjk' | hjk'
        · have h1 : j * pageSize (compute_record_size fields)
              + pageSize (compute_record_size fields)
              ≤ k * pageSize (compute_record_size fields) :=
            mul_page_bound j k (pageSize (compute_record_size fields)) hjk'
          rw [hf', byteAt_applyDelete fields file (k * pageSize (compute_record_size fields))
            s (j * pageSize (compute_record_size fields) + 1 + t) (by omega) hs,
            if_neg (by omega), if_neg (by omega), if_neg (by omega)]
        · have hjk'' : k < j := by omega
          have h1 : k * pageSize (compute_record_size fields)
              + pageSize (compute_record_size fields)
              ≤ j * pageSize (compute_record_size fields) :=
            mul_page_bound k j (pageSize (compute_record_size fields)) hjk''
          rw [hf', byteAt_applyDelete fields file (k * pageSize (compute_record_size fields))
            s (j * pageSize (compute_record_size fields) + 1 + t) (by omega) hs,
            if_neg (by omega), if_neg (by omega), if_neg (by omega)]
    rw [hby]
    have hone := hbb j t (by omega) ht
    unfold bitAt at hone
    exact hone

/-! ## Length of an encoded record -/

theorem packFields_length (pairs : List (Field × PyStr)) (body : List Nat)
    (h : packFields pairs = Except.ok body) :
    body.length = (pairs.map (fun p => if p.1.ftype = strInt then 4 else p.1.flen)).sum := by
  induction pairs generalizing body with
  | nil =>
    simp only [packFields] at h
    injection h with h
    subst h
    simp
  | cons pv rest ih =>
    obtain ⟨f, v⟩ := pv
    simp only [packFields] at h
    by_cases hint : f.ftype = strInt
    · rw [if_pos hint] at h
      cases hpi : pyInt v with
      | none =>
        rw [hpi] at h
        simp at h
      | some ival =>
        rw [hpi] at h
        simp only [] at h
        cases hib : int_to_bytes ival with
        | error e =>
          rw [hib] at h
          simp at h
        | ok bs =>
          rw [hib] at h
          cases hrest : packFields rest with
          | error e =>
            rw [hrest] at h
            simp at h
          | ok tail =>
            rw [hrest] at h
            simp only [] at h
            injection h with h
            subst h
            rw [List.length_append, int_to_bytes_length ival bs hib, ih tail hrest]
            simp [hint]
    · rw [if_neg hint] at h
      cases hrest : packFields rest with
      | error e =>
        rw [hrest] at h
        simp at h
      | ok tail =>
        rw [hrest] at h
        simp only [] at h
        injection h with h
        subst h
        rw [List.length_append, List.length_append, List.length_replicate, ih tail hrest]
        simp only [List.map_cons, List.sum_cons, if_neg hint]
        by_cases htr : f.flen < (utf8Encode v).length
        · rw [if_pos htr]
          simp only [List.length_take]
          omega
        · rw [if_neg htr]
          omega

theorem pack_record_length (fields : List Field) (values : List PyStr) (rb : List Nat)
    (hlen : fields.length = values.length)
    (hwf : ∀ f ∈ fields, f.ftype = strInt → f.flen = 4)
    (h : pack_record fields values = Except.ok rb) :
    rb.length = compute_record_size fields := by
  unfold pack_record at h
  cases hp : packFields (fields.zip values) with
  | error e =>
    rw [hp] at h
    simp at h
  | ok body =>
    rw [hp] at h
    simp only [] at h
    injection h with h
    subst h
    rw [List.length_cons, packFields_length _ body hp, compute_record_size_eq]
    have h1 : (fields.zip values).map (fun p => if p.1.ftype = strInt then 4 else p.1.flen)
        = ((fields.zip values).map Prod.fst).map
            (fun f => if f.ftype = strInt then 4 else f.flen) := by
      rw [List.map_map]
      rfl
    rw [h1, List.map_fst_zip fields values (le_of_eq hlen)]
    have hsum : (fields.map (fun f => if f.ftype = strInt then 4 else f.flen)).sum
        = (fields.map Field.flen).sum := by
      apply congrArg List.sum
      apply List.map_congr_left
      intro f hf
      by_cases hi : f.ftype = strInt
      · rw [if_pos hi, hwf f hf hi]
      · rw [if_neg hi]
    rw [hsum]
    omega

/-! ## Handler control-flow lemmas -/

theorem handle_create_record_true_inv (catalog : Catalog) (dat : Option (List Nat))
    (tokens : List PyStr) (ti : TypeInfo) (f' : List Nat)
    (hlook : lookupType catalog (tokens.getD 2 []) = some ti)
    (h : handle_create_record catalog dat tokens = Except.ok (true, some f')) :
    ∃ rb, (tokens.drop 3).length = ti.num_fields
      ∧ pack_record ti.fields (tokens.drop 3) = Except.ok rb
      ∧ (insertScanLoop ti.fields rb
            (if (dat.getD []).length = 0 then emptyPage (compute_record_size ti.fields)
              else dat.getD [])
            (if (dat.getD []).length = 0 then emptyPage (compute_record_size ti.fields)
              else dat.getD []).length 0 = some f'
        ∨ (insertScanLoop ti.fields rb
            (if (dat.getD []).length = 0 then emptyPage (compute_record_size ti.fields)
              else dat.getD [])
            (if (dat.getD []).length = 0 then emptyPage (compute_record_size ti.fields)
              else dat.getD []).length 0 = none
          ∧ f' = (if (dat.getD []).length = 0 then emptyPage (compute_record_size ti.fields)
              else dat.getD []) ++ appendedPage (compute_record_size ti.fields) rb)) := by
  simp only [handle_create_record] at h
  by_cases h4 : tokens.length < 4
  · rw [if_pos h4] at h
    simp at h
  · rw [if_neg h4] at h
    rw [hlook] at h
    simp only [] at h
    by_cases hnum : (tokens.drop 3).length ≠ ti.num_fields
    · rw [if_pos hnum] at h
      simp at h
    · rw [if_neg hnum] at h
      cases hfind : find_record_page_slot catalog dat (tokens.getD 2 [])
          ((tokens.drop 3).getD (ti.pk_index - 1) []) with
      | some pr =>
        rw [hfind] at h
        simp at h
      | none =>
        rw [hfind] at h
        simp only [] at h
        cases hpack : pack_record ti.fields (tokens.drop 3) with
        | error e =>
          cases e
          · rw [hpack] at h
            simp at h
          · rw [hpack] at h
            simp at h
        | ok rb =>
          rw [hpack] at h
          simp only [] at h
          refine ⟨rb, not_not.mp hnum, rfl, ?_⟩
          cases hscan : insertScanLoop ti.fields rb
              (if (dat.getD []).length = 0 then emptyPage (compute_record_size ti.fields)
                else dat.getD [])
              (if (dat.getD []).length = 0 then emptyPage (compute_record_size ti.fields)
                else dat.getD []).length 0 with
          | some f2 =>
            rw [hscan] at h
            simp only [] at h
            injection h with h
            injection h with h1 h2
            left
            exact h2
          | none =>
            rw [hscan] at h
            simp only [] at h
            by_cases hcap : MAX_PAGES ≤ (if (dat.getD []).length = 0
                then emptyPage (compute_record_size ti.fields) else dat.getD []).length
                  / pageSize (compute_record_size ti.fields)
            · rw [if_pos hcap] at h
              simp at h
            · rw [if_neg hcap] at h
              injection h with h
              injection h with h1 h2
              injection h2 with h2
              right
              exact ⟨rfl, h2.symm⟩

theorem handle_delete_record_true_inv (catalog : Catalog) (file : List Nat)
    (tokens : List PyStr) (ti : TypeInfo) (f' : List Nat)
    (hlook : lookupType catalog (tokens.getD 2 []) = some ti)
    (h : handle_delete_record catalog (some file) tokens = (true, some f')) :
    ∃ po s, find_record_page_slot catalog (some file) (tokens.getD 2 [])
        (tokens.getD 3 []) = some (po, s)
      ∧ f' = applyDelete ti.fields file po s := by
  simp only [handle_delete_record] at h
  by_cases h4 : tokens.length ≠ 4
  · rw [if_pos h4] at h
    simp at h
  · rw [if_neg h4] at h
    rw [hlook] at h
    simp only [] at h
    cases hfind : find_record_page_slot catalog (some file) (tokens.getD 2 [])
        (tokens.getD 3 []) with
    | none =>
      rw [hfind] at h
      simp at h
    | some pr =>
      obtain ⟨po, s⟩ := pr
      rw [hfind] at h
      simp only [] at h
      injection h with h1 h2
      injection h2 with h2
      exact ⟨po, s, rfl, h2.symm⟩

theorem handle_create_record_dup (catalog : Catalog) (dat : Option (List Nat))
    (tokens : List PyStr) (ti : TypeInfo)
    (h4 : ¬ tokens.length < 4)
    (hlook : lookupType catalog (tokens.getD 2 []) = some ti)
    (hnum : (tokens.drop 3).length = ti.num_fields)
    (hfind : (find_record_page_slot catalog dat (tokens.getD 2 [])
        ((tokens.drop 3).getD (ti.pk_index - 1) [])).isSome = true) :
    handle_create_record catalog dat tokens = Except.ok (false, dat) := by
  simp only [handle_create_record]
  rw [if_neg h4, hlook]
  simp only []
  rw [if_neg (fun hne => hne hnum)]
  obtain ⟨pr, hpr⟩ := Option.isSome_iff_exists.mp hfind
  rw [hpr]

theorem handle_search_record_none (catalog : Catalog) (file : List Nat)
    (t0 t1 tname pk : PyStr)
    (hfind : find_record_page_slot catalog (some file) tname pk = none) :
    handle_search_record catalog (some file) [t0, t1, tname, pk] = none := by
  have hg2 : ([t0, t1, tname, pk] : List PyStr).getD 2 [] = tname := rfl
  have hg3 : ([t0, t1, tname, pk] : List PyStr).getD 3 [] = pk := rfl
  simp only [handle_search_record]
  rw [if_neg (by simp), hg2, hg3]
  cases hlook : lookupType catalog tname with
  | none => rfl
  | some ti =>
    simp only []
    rw [hfind]

theorem handle_search_record_some (catalog : Catalog) (file : List Nat)
    (t0 t1 tname pk : PyStr) (ti : TypeInfo) (po s : Nat)
    (hlook : lookupType catalog tname = some ti)
    (hfind : find_record_page_slot catalog (some file) tname pk = some (po, s)) :
    handle_search_record catalog (some file) [t0, t1, tname, pk]
      = some (unpack_record ti.fields
          ((file.drop (po + PAGE_HEADER_SIZE + s * compute_record_size ti.fields)).take
            (compute_record_size ti.fields))) := by
  have hg2 : ([t0, t1, tname, pk] : List PyStr).getD 2 [] = tname := rfl
  have hg3 : ([t0, t1, tname, pk] : List PyStr).getD 3 [] = pk := rfl
  simp only [handle_search_record]
  rw [if_neg (by simp), hg2, hg3, hlook]
  simp only []
  rw [hfind]

/-! ## C4: the occupancy-count invariant is preserved by insert and delete -/

/-- C4: on every page of a type's data file the occupied-count header byte
equals the number of set slot-bitmap entries; starting from any aligned
file state satisfying this on every page (with a well-formed catalog
entry), the invariant still holds on every page after any single
successful InsertRecord (slot write or page append, including first-page
initialization) and after any single successful DeleteRecord. -/
theorem c4_occupancy_invariant (catalog : Catalog) (file : List Nat) (tokens : List PyStr)
    (ti : TypeInfo) (n : Nat) (f' : List Nat)
    (hlook : lookupType catalog (tokens.getD 2 []) = some ti)
    (hwf1 : ti.fields.length = ti.num_fields)
    (hwf2 : ∀ f ∈ ti.fields, f.ftype = strInt → f.flen = 4)
    (hal : file.length = n * pageSize (compute_record_size ti.fields))
    (hinv : invOcc (pageSize (compute_record_size ti.fields)) file) :
    (handle_create_record catalog (some file) tokens = Except.ok (true, some f')
      → invOcc (pageSize (compute_record_size ti.fields)) f')
    ∧ (handle_delete_record catalog (some file) tokens = (true, some f')
      → invOcc (pageSize (compute_record_size ti.fields)) f') := by
  have hps11 : PAGE_HEADER_SIZE ≤ pageSize (compute_record_size ti.fields) := pageSize_ge _
  constructor
  · intro h
    obtain ⟨rb, hnum, hpack, hcase⟩ :=
      handle_create_record_true_inv catalog (some file) tokens ti f' hlook h
    have hrblen : rb.length = compute_record_size ti.fields :=
      pack_record_length ti.fields (tokens.drop 3) rb (by omega) hwf2 hpack
    simp only [Option.getD_some] at hcase
    by_cases hemp : file.length = 0
    · rw [if_pos hemp] at hcase
      have hal1 : (emptyPage (compute_record_size ti.fields)).length
          = 1 * pageSize (compute_record_size ti.fields) := by
        rw [length_emptyPage, Nat.one_mul]
      have hinv1 : invOcc (pageSize (compute_record_size ti.fields))
          (emptyPage (compute_record_size ti.fields)) := invOcc_emptyPage _
      rcases hcase with hscan | ⟨hscan, happ⟩
      · have hsi := insertScanLoop_some_inv ti.fields rb
          (emptyPage (compute_record_size ti.fields)) 1 hal1 1 0 f' (by omega)
        rw [Nat.zero_mul] at hsi
        obtain ⟨k, s, hk0, hkn, hffs, hf'⟩ := hsi hscan
        have hmul := mul_page_bound k 1 (pageSize (compute_record_size ti.fields)) hkn
        obtain ⟨hocc, hs, hfree, hfirst⟩ := find_free_slot_some_inv
          (emptyPage (compute_record_size ti.fields))
          (k * pageSize (compute_record_size ti.fields)) s (by omega) hffs
        rw [hf']
        exact invOcc_applyInsert ti.fields rb (emptyPage (compute_record_size ti.fields))
          1 k s hal1 hinv1 hkn hs hfree (le_of_eq hrblen)
      · rw [happ]
        exact invOcc_append (compute_record_size ti.fields)
          (emptyPage (compute_record_size ti.fields)) rb 1 hal1 hinv1 hrblen
    · rw [if_neg hemp] at hcase
      rcases hcase with hscan | ⟨hscan, happ⟩
      · have hsi := insertScanLoop_some_inv ti.fields rb file n hal n 0 f' (by omega)
        rw [Nat.zero_mul] at hsi
        obtain ⟨k, s, hk0, hkn, hffs, hf'⟩ := hsi hscan
        have hmul := mul_page_bound k n (pageSize (compute_record_size ti.fields)) hkn
        obtain ⟨hocc, hs, hfree, hfirst⟩ := find_free_slot_some_inv file
          (k * pageSize (compute_record_size ti.fields)) s (by omega) hffs
        rw [hf']
        exact invOcc_applyInsert ti.fields rb file n k s hal hinv hkn hs hfree
          (le_of_eq hrblen)
      · rw [happ]
        exact invOcc_append (compute_record_size ti.fields) file rb n hal hinv hrblen
  · intro h
    obtain ⟨po, s, hfind, hf'⟩ :=
      handle_delete_record_true_inv catalog file tokens ti f' hlook h
    have hfp : findPages ti.fields (ti.pk_index - 1) (tokens.getD 3 []) file 0
        = some (po, s) := by
      unfold find_record_page_slot at hfind
      rw [hlook] at hfind
      exact hfind
    have hinv0 := findPages_some_inv ti.fields (ti.pk_index - 1) (tokens.getD 3 [])
      file n hal n 0 po s (by omega)
    rw [Nat.zero_mul] at hinv0
    obtain ⟨k, hk0, hkn, hpo, hs, hm⟩ := hinv0 hfp
    obtain ⟨hbit, hdec⟩ := hm
    rw [hf', hpo]
    exact invOcc_applyDelete ti.fields file n k s hal hinv hkn hs hbit

/-! ## C2: duplicate primary key fails before any write -/

/-- C2: when the raw primary-key text of an InsertRecord request equals
the decoded primary-key text of some live record of that type, the insert
returns failure with the data file completely unchanged, and a subsequent
SearchRecord still retrieves the stored record, whose decoded primary key
is that text. -/
theorem c2_duplicate_key_unchanged (catalog : Catalog) (file : List Nat) (tokens : List PyStr)
    (ti : TypeInfo) (n k s : Nat)
    (h4 : 4 ≤ tokens.length)
    (hlook : lookupType catalog (tokens.getD 2 []) = some ti)
    (hnum : (tokens.drop 3).length = ti.num_fields)
    (hal : file.length = n * pageSize (compute_record_size ti.fields))
    (hinv : invOcc (pageSize (compute_record_size ti.fields)) file)
    (hk : k < n) (hs : s < NUM_SLOTS)
    (hm : slotMatchProp ti.fields (ti.pk_index - 1)
        ((tokens.drop 3).getD (ti.pk_index - 1) []) file k s) :
    handle_create_record catalog (some file) tokens = Except.ok (false, some file)
    ∧ ∃ vals, handle_search_record catalog (some file)
        [[], [], tokens.getD 2 [], (tokens.drop 3).getD (ti.pk_index - 1) []] = some vals
      ∧ vals.getD (ti.pk_index - 1) [] = (tokens.drop 3).getD (ti.pk_index - 1) [] := by
  have hsome : (findPages ti.fields (ti.pk_index - 1)
      ((tokens.drop 3).getD (ti.pk_index - 1) []) file 0).isSome = true :=
    findPages_isSome_of_match ti.fields _ _ file n hal hinv k s hk hs hm
  have hfindeq : find_record_page_slot catalog (some file) (tokens.getD 2 [])
      ((tokens.drop 3).getD (ti.pk_index - 1) [])
      = findPages ti.fields (ti.pk_index - 1)
          ((tokens.drop 3).getD (ti.pk_index - 1) []) file 0 := by
    unfold find_record_page_slot
    rw [hlook]
  constructor
  · exact handle_create_record_dup catalog (some file) tokens ti (by omega) hlook hnum
      (by rw [hfindeq]; exact hsome)
  · obtain ⟨pr, hpr⟩ := Option.isSome_iff_exists.mp hsome
    obtain ⟨po, s0⟩ := pr
    have hinv0 := findPages_some_inv ti.fields (ti.pk_index - 1)
        ((tokens.drop 3).getD (ti.pk_index - 1) []) file n hal n 0 po s0 (by omega)
    rw [Nat.zero_mul] at hinv0
    obtain ⟨k0, hk00, hk0n, hpo, hs0, hm0⟩ := hinv0 hpr
    obtain ⟨hbit0, hdec0⟩ := hm0
    refine ⟨unpack_record ti.fields
        ((file.drop (po + PAGE_HEADER_SIZE + s0 * compute_record_size ti.fields)).take
          (compute_record_size ti.fields)), ?_, ?_⟩
    · exact handle_search_record_some catalog file [] [] _ _ ti po s0 hlook
        (by rw [hfindeq]; exact hpr)
    · rw [hpo]
      exact hdec0

/-- A one-Integer-field schema used by the concrete page-store witnesses
(record size 5, page size 61). -/
def witFields : List Field := [⟨[97], strInt, 4⟩]

/-- Its catalog entry: one field, primary-key index 1. -/
def witTi : TypeInfo := ⟨1, 1, witFields⟩

/-- A catalog holding the single type `"T"`. -/
def witCatalog : Catalog := [([84], witTi)]

/-- One page whose slot 0 holds the live record with primary key `"5"`
(record bytes `1,0,0,0,5`), the other slots free. -/
def c2File : List Nat :=
  [1, 1, 0, 0, 0, 0, 0, 0, 0, 0, 0, 1, 0, 0, 0, 5] ++ List.replicate 45 0

set_option maxRecDepth 40000 in
theorem c4_occupancy_invariant_witness :
    handle_create_record witCatalog (some c2File) [[], [], [84], [54]]
      = Except.ok (true, some (applyInsert witTi.fields [1, 0, 0, 0, 6] c2File 0 1))
    ∧ invOcc (pageSize (compute_record_size witTi.fields))
        (applyInsert witTi.fields [1, 0, 0, 0, 6] c2File 0 1)
    ∧ handle_delete_record witCatalog (some c2File) [[], [], [84], [53]]
      = (true, some (applyDelete witTi.fields c2File 0 0))
    ∧ invOcc (pageSize (compute_record_size witTi.fields))
        (applyDelete witTi.fields c2File 0 0) := by
  have hup : unpack_record witFields [1, 0, 0, 0, 5] = [[53]] := by
    simp [unpack_record, unpackFields, renderField, witFields, strInt, bytes_to_int,
      bytesToNatBE, intToStr, natToDigits]
  have hinvFile : invOcc (pageSize (compute_record_size witTi.fields)) c2File := by
    intro k hk
    have hph : PAGE_HEADER_SIZE = 11 := rfl
    have hps : pageSize (compute_record_size witTi.fields) = 61 := rfl
    have hfl : c2File.length = 61 := by decide
    rw [hps, hfl] at hk
    have hk0 : k = 0 := by omega
    subst hk0
    decide
  have hIns : handle_create_record witCatalog (some c2File) [[], [], [84], [54]]
      = Except.ok (true, some (applyInsert witTi.fields [1, 0, 0, 0, 6] c2File 0 1)) := by
    have hdup : find_record_page_slot witCatalog (some c2File)
        ([[], [], [84], [54]].getD 2 [])
        (([[], [], [84], [54]].drop 3).getD (witTi.pk_index - 1) []) = none := by
      unfold find_record_page_slot
      rw [show lookupType witCatalog ([[], [], [84], [54]].getD 2 [])
        = some witTi from by decide]
      exact findPages_none_of_no_match witTi.fields (witTi.pk_index - 1)
        (([[], [], [84], [54]].drop 3).getD (witTi.pk_index - 1) []) c2File 1 (by decide)
        (by
          intro k s hk hs hmm
          obtain ⟨hb1, hd⟩ := hmm
          have hk0 : k = 0 := by omega
          subst hk0
          have hns : NUM_SLOTS = 10 := rfl
          have hs' : s < 10 := by omega
          interval_cases s
          · have hrec : recBytesAt c2File (pageSize (compute_record_size witTi.fields))
                (compute_record_size witTi.fields) 0 0 = [1, 0, 0, 0, 5] := by decide
            rw [hrec, show witTi.fields = witFields from rfl, hup] at hd
            exact absurd hd (by decide)
          all_goals exact absurd hb1 (by decide))
    simp only [handle_create_record]
    rw [if_neg (by decide)]
    rw [show lookupType witCatalog ([[], [], [84], [54]].getD 2 [])
      = some witTi from by decide]
    simp only []
    rw [if_neg (by decide), hdup]
    simp only []
    rw [show pack_record witTi.fields ([[], [], [84], [54]].drop 3)
      = Except.ok [1, 0, 0, 0, 6] from by decide]
    simp only [Option.getD_some]
    rw [if_neg (by decide)]
    have hreach := insertScanLoop_reaches witTi.fields [1, 0, 0, 0, 6] c2File 1 (by decide)
      0 (by decide) (fun j hj => absurd hj (by omega)) 1 (by decide)
    rw [Nat.zero_mul] at hreach
    rw [hreach]
  have hDel : handle_delete_record witCatalog (some c2File) [[], [], [84], [53]]
      = (true, some (applyDelete witTi.fields c2File 0 0)) := by
    have hm0 : slotMatchProp witTi.fields (witTi.pk_index - 1)
        ([[], [], [84], [53]].getD 3 []) c2File 0 0 := by
      refine ⟨by decide, ?_⟩
      show (unpack_record witFields [1, 0, 0, 0, 5]).getD 0 [] = [53]
      rw [hup]
      rfl
    have hsome := findPages_isSome_of_match witTi.fields (witTi.pk_index - 1)
      ([[], [], [84], [53]].getD 3 []) c2File 1 (by decide) hinvFile 0 0 (by decide)
      (by decide) hm0
    obtain ⟨pr, hpr⟩ := Option.isSome_iff_exists.mp hsome
    obtain ⟨po, s0⟩ := pr
    have hinv0 := findPages_some_inv witTi.fields (witTi.pk_index - 1)
      ([[], [], [84], [53]].getD 3 []) c2File 1 (by decide) 1 0 po s0 (by omega)
    rw [Nat.zero_mul] at hinv0
    obtain ⟨k, hk0, hk1, hpo, hs0, hmk⟩ := hinv0 hpr
    have hk00 : k = 0 := by omega
    subst hk00
    rw [Nat.zero_mul] at hpo
    subst hpo
    have hs00 : s0 = 0 := by
      obtain ⟨hmb, hmd⟩ := hmk
      have hns : NUM_SLOTS = 10 := rfl
      have hs0' : s0 < 10 := by omega
      interval_cases s0
      · rfl
      all_goals exact absurd hmb (by decide)
    subst hs00
    simp only [handle_delete_record]
    rw [if_neg (by decide)]
    rw [show lookupType witCatalog ([[], [], [84], [53]].getD 2 [])
      = some witTi from by decide]
    simp only []
    rw [show find_record_page_slot witCatalog (some c2File)
        ([[], [], [84], [53]].getD 2 []) ([[], [], [84], [53]].getD 3 [])
        = some (0, 0) from by
      unfold find_record_page_slot
      rw [show lookupType witCatalog ([[], [], [84], [53]].getD 2 [])
        = some witTi from by decide]
      exact hpr]
  exact ⟨hIns,
    (c4_occupancy_invariant witCatalog c2File [[], [], [84], [54]] witTi 1
      (applyInsert witTi.fields [1, 0, 0, 0, 6] c2File 0 1)
      (by decide) (by decide) (by decide) (by decide) hinvFile).1 hIns,
    hDel,
    (c4_occupancy_invariant witCatalog c2File [[], [], [84], [53]] witTi 1
      (applyDelete witTi.fields c2File 0 0)
      (by decide) (by decide) (by decide) (by decide) hinvFile).2 hDel⟩

theorem c2_duplicate_key_unchanged_witness :
    handle_create_record witCatalog (some c2File) [[], [], [84], [53]]
        = Except.ok (false, some c2File)
    ∧ ∃ vals, handle_search_record witCatalog (some c2File) [[], [], [84], [53]]
        = some vals ∧ vals.getD 0 [] = [53] :=
  c2_duplicate_key_unchanged witCatalog c2File [[], [], [84], [53]] witTi 1 0 0
    (by decide) (by decide) (by decide) (by decide)
    (by
      intro k hk
      have hph : PAGE_HEADER_SIZE = 11 := rfl
      have hps : pageSize (compute_record_size witTi.fields) = 61 := rfl
      have hfl : c2File.length = 61 := by decide
      rw [hps, hfl] at hk
      have hk0 : k = 0 := by omega
      subst hk0
      decide)
    (by decide) (by decide)
    ⟨by decide, by
      show (unpack_record witFields [1, 0, 0, 0, 5]).getD 0 [] = [53]
      have hup : unpack_record witFields [1, 0, 0, 0, 5] = [[53]] := by
        simp [unpack_record, unpackFields, renderField, witFields, strInt, bytes_to_int,
          bytesToNatBE, intToStr, natToDigits]
      rw [hup]
      rfl⟩

/-! ## C9: out-of-range integers escape as OverflowError -/

/-- C9: an Integer value whose text parses to an integer outside the
signed 32-bit range makes the 4-byte conversion fail with OverflowError
rather than ValueError, and the insert handler's except-ValueError guard
does not catch it: the error escapes `handle_create_record` instead of
being returned as a failure outcome. -/
theorem c9_overflow_escapes (catalog : Catalog) (dat : Option (List Nat))
    (tokens : List PyStr) (ti : TypeInfo)
    (h4 : 4 ≤ tokens.length)
    (hlook : lookupType catalog (tokens.getD 2 []) = some ti)
    (hnum : (tokens.drop 3).length = ti.num_fields)
    (hfind : find_record_page_slot catalog dat (tokens.getD 2 [])
        ((tokens.drop 3).getD (ti.pk_index - 1) []) = none)
    (hpack : pack_record ti.fields (tokens.drop 3) = Except.error PackErr.overflowError) :
    (∀ m : Int, (m < -(2 ^ 31) ∨ 2 ^ 31 ≤ m) →
      int_to_bytes m = Except.error PackErr.overflowError)
    ∧ handle_create_record catalog dat tokens = Except.error PackErr.overflowError := by
  constructor
  · intro m hm
    unfold int_to_bytes
    rw [if_neg (by omega)]
  · simp only [handle_create_record]
    rw [if_neg (by omega), hlook]
    simp only []
    rw [if_neg (fun hne => hne hnum), hfind]
    simp only []
    rw [hpack]

/-- The digits of `"2147483648"`, the least integer rejected by the
signed 32-bit conversion. -/
def c9Pk : PyStr := [50, 49, 52, 55, 52, 56, 51, 54, 52, 56]

theorem c9_overflow_escapes_witness :
    (∀ m : Int, (m < -(2 ^ 31) ∨ 2 ^ 31 ≤ m) →
      int_to_bytes m = Except.error PackErr.overflowError)
    ∧ handle_create_record witCatalog none [[], [], [84], c9Pk]
        = Except.error PackErr.overflowError :=
  c9_overflow_escapes witCatalog none [[], [], [84], c9Pk] witTi
    (by decide) (by decide) (by decide) (by decide) (by decide)

/-! ## C3: a full 1000-page file rejects one more insert unchanged -/

theorem length_flatten_replicate (n : Nat) (l : List Nat) :
    (List.replicate n l).flatten.length = n * l.length := by
  induction n with
  | zero => simp
  | succ m ih =>
    rw [List.replicate_succ, List.flatten_cons, List.length_append, ih, Nat.succ_mul]
    omega

theorem byteAt_flatten_replicate (page : List Nat) (m : Nat) (hm : page.length = m) :
    ∀ n k i, k < n → i < m →
      byteAt (List.replicate n page).flatten (k * m + i) = byteAt page i := by
  intro n
  induction n with
  | zero =>
    intro k i hk hi
    omega
  | succ q ih =>
    intro k i hk hi
    rw [List.replicate_succ, List.flatten_cons, byteAt_append]
    cases k with
    | zero =>
      rw [if_pos (by omega)]
      have h0 : 0 * m + i = i := by omega
      rw [h0]
    | succ j =>
      have hsm : (j + 1) * m = j * m + m := Nat.succ_mul j m
      rw [if_neg (by omega)]
      have hsub : (j + 1) * m + i - page.length = j * m + i := by omega
      rw [hsub]
      exact ih j i (by omega) hi

theorem slice_shift_congr (f g : List Nat) (a b n : Nat)
    (h : ∀ i, i < n → byteAt f (a + i) = byteAt g (b + i))
    (hf : a + n ≤ f.length) (hg : b + n ≤ g.length) :
    (f.drop a).take n = (g.drop b).take n := by
  apply List.ext_getElem?
  intro i
  by_cases hi : i < n
  · rw [List.getElem?_take_of_lt hi, List.getElem?_take_of_lt hi,
      List.getElem?_drop, List.getElem?_drop]
    have h1 : a + i < f.length := by omega
    have h2 : b + i < g.length := by omega
    have hb := h i hi
    unfold byteAt at hb
    simp only [List.getD_eq_getElem?_getD] at hb
    rw [List.getElem?_eq_getElem h1, List.getElem?_eq_getElem h2] at hb ⊢
    simp only [Option.getD_some] at hb
    rw [hb]
  · rw [List.getElem?_eq_none, List.getElem?_eq_none]
    · simp only [List.length_take, List.length_drop]
      omega
    · simp only [List.length_take, List.length_drop]
      omega

theorem slice_flatten_replicate (page : List Nat) (m : Nat) (hm : page.length = m)
    (n k off len : Nat) (hk : k < n) (hoff : off + len ≤ m) :
    (((List.replicate n page).flatten.drop (k * m + off)).take len)
      = (page.drop off).take len := by
  apply slice_shift_congr
  · intro i hi
    have h1 : k * m + off + i = k * m + (off + i) := by omega
    rw [h1, byteAt_flatten_replicate page m hm n k (off + i) hk (by omega)]
  · rw [length_flatten_replicate, hm]
    have hmb := Nat.mul_le_mul_right m (show k + 1 ≤ n by omega)
    have hsm : (k + 1) * m = k * m + m := Nat.succ_mul k m
    omega
  · omega

/-- C3: when a type's data file already holds `MAX_PAGES` pages whose
occupied-counts are all `NUM_SLOTS` (every slot taken), an InsertRecord
with a fresh primary key that encodes successfully returns failure and
leaves the data file untouched. -/
theorem c3_capacity_exceeded (catalog : Catalog) (file : List Nat) (tokens : List PyStr)
    (ti : TypeInfo) (rb : List Nat)
    (h4 : 4 ≤ tokens.length)
    (hlook : lookupType catalog (tokens.getD 2 []) = some ti)
    (hnum : (tokens.drop 3).length = ti.num_fields)
    (hal : file.length = MAX_PAGES * pageSize (compute_record_size ti.fields))
    (hfull : ∀ k, k < MAX_PAGES →
      occAt file (pageSize (compute_record_size ti.fields)) k = NUM_SLOTS)
    (hfresh : ∀ k s, k < MAX_PAGES → s < NUM_SLOTS →
      ¬ slotMatchProp ti.fields (ti.pk_index - 1)
        ((tokens.drop 3).getD (ti.pk_index - 1) []) file k s)
    (hpack : pack_record ti.fields (tokens.drop 3) = Except.ok rb) :
    handle_create_record catalog (some file) tokens = Except.ok (false, some file) := by
  have hps11 : PAGE_HEADER_SIZE ≤ pageSize (compute_record_size ti.fields) := pageSize_ge _
  have hphs : PAGE_HEADER_SIZE = 11 := rfl
  have hMP : MAX_PAGES * pageSize (compute_record_size ti.fields)
      = 1000 * pageSize (compute_record_size ti.fields) := by
    have h1 : MAX_PAGES = 1000 := rfl
    rw [h1]
  have hfp : findPages ti.fields (ti.pk_index - 1)
      ((tokens.drop 3).getD (ti.pk_index - 1) []) file 0 = none :=
    findPages_none_of_no_match ti.fields _ _ file MAX_PAGES hal hfresh
  have hfind : find_record_page_slot catalog (some file) (tokens.getD 2 [])
      ((tokens.drop 3).getD (ti.pk_index - 1) []) = none := by
    unfold find_record_page_slot
    rw [hlook]
    exact hfp
  have hscan : insertScanLoop ti.fields rb file file.length 0 = none := by
    have h := insertScanLoop_none_of_full ti.fields rb file MAX_PAGES hal
      (fun k hk => le_of_eq (hfull k hk).symm) MAX_PAGES 0 (by omega)
    rw [Nat.zero_mul] at h
    exact h
  have hne : ¬ file.length = 0 := by omega
  have hcap : MAX_PAGES ≤ file.length / pageSize (compute_record_size ti.fields) := by
    rw [hal, Nat.mul_div_cancel _ (by omega)]
  simp only [handle_create_record]
  rw [if_neg (by omega), hlook]
  simp only []
  rw [if_neg (fun hne' => hne' hnum), hfind]
  simp only []
  rw [hpack]
  simp only [Option.getD_some]
  rw [if_neg hne, hscan]
  simp only []
  rw [if_pos hcap]

/-- One completely full page for the witness schema: occupied-count 10,
all bitmap bits 1, every slot holding the record with primary key `"7"`. -/
def c3Page : List Nat :=
  (10 :: List.replicate 10 1) ++ (List.replicate 10 ([1, 0, 0, 0, 7] : List Nat)).flatten

/-- 1000 full pages. -/
def c3File : List Nat := (List.replicate 1000 c3Page).flatten

theorem c3_capacity_exceeded_witness :
    handle_create_record witCatalog (some c3File) [[], [], [84], [56]]
      = Except.ok (false, some c3File) :=
  c3_capacity_exceeded witCatalog c3File [[], [], [84], [56]] witTi [1, 0, 0, 0, 8]
    (by decide) (by decide) (by decide)
    (by
      show c3File.length = MAX_PAGES * pageSize (compute_record_size witTi.fields)
      rw [show c3File = (List.replicate 1000 c3Page).flatten from rfl,
        length_flatten_replicate]
      decide)
    (by
      intro k hk
      unfold occAt
      have hps : pageSize (compute_record_size witTi.fields) = 61 := rfl
      rw [hps]
      rw [show c3File = (List.replicate 1000 c3Page).flatten from rfl]
      have hb := byteAt_flatten_replicate c3Page 61 (by decide) 1000 k 0 hk (by decide)
      have h0 : k * 61 + 0 = k * 61 := by omega
      rw [h0] at hb
      rw [hb]
      decide)
    (by
      intro k s hk hs hmm
      obtain ⟨hb1, hd⟩ := hmm
      have hrec : recBytesAt c3File (pageSize (compute_record_size witTi.fields))
          (compute_record_size witTi.fields) k s = [1, 0, 0, 0, 7] := by
        unfold recBytesAt
        have hps : pageSize (compute_record_size witTi.fields) = 61 := rfl
        have hrs : compute_record_size witTi.fields = 5 := rfl
        rw [hps, hrs]
        rw [show c3File = (List.replicate 1000 c3Page).flatten from rfl]
        have h1 : k * 61 + PAGE_HEADER_SIZE + s * 5 = k * 61 + (11 + s * 5) := by
          have hphs : PAGE_HEADER_SIZE = 11 := rfl
          omega
        rw [h1]
        rw [slice_flatten_replicate c3Page 61 (by decide) 1000 k (11 + s * 5) 5 hk
          (by have hns : NUM_SLOTS = 10 := rfl; omega)]
        rw [show c3Page = (10 :: List.replicate 10 1)
          ++ (List.replicate 10 ([1, 0, 0, 0, 7] : List Nat)).flatten from rfl]
        rw [show (11 : Nat) + s * 5
          = (10 :: List.replicate 10 1 : List Nat).length + (s * 5 + 0) from by simp]
        rw [List.drop_append]
        rw [show (s * 5 + 0 : Nat) = s * 5 + 0 from rfl]
        rw [show ((List.replicate 10 ([1, 0, 0, 0, 7] : List Nat)).flatten.drop
              (s * 5 + 0)).take 5
            = (([1, 0, 0, 0, 7] : List Nat).drop 0).take 5 from
          slice_flatten_replicate [1, 0, 0, 0, 7] 5 (by decide) 10 s 0 5 hs (by omega)]
        decide
      rw [hrec] at hd
      rw [show witTi.fields = witFields from rfl] at hd
      have hup : unpack_record witFields [1, 0, 0, 0, 7] = [[55]] := by
        simp [unpack_record, unpackFields, renderField, witFields, strInt, bytes_to_int,
          bytesToNatBE, intToStr, natToDigits]
      rw [hup] at hd
      exact absurd hd (by decide))
    (by decide)

/-! ## C10: an oversized Text primary key defeats the duplicate check -/

theorem utf8Encode_cons (a : Nat) (l : List Nat) :
    utf8Encode (a :: l) = utf8EncodeChar a ++ utf8Encode l := by
  unfold utf8Encode
  simp

theorem length_utf8EncodeChar_one (c : Nat) (h : c < 0x80) :
    (utf8EncodeChar c).length = 1 := by
  unfold utf8EncodeChar
  rw [if_pos h]
  rfl

theorem length_utf8EncodeChar_le_two (c : Nat) (h : c < 0x800) :
    (utf8EncodeChar c).length ≤ 2 := by
  unfold utf8EncodeChar
  by_cases h1 : c < 0x80
  · rw [if_pos h1]
    simp
  · rw [if_neg h1, if_pos h]
    simp

theorem length_utf8EncodeChar_le_three (c : Nat) (h : c < 0x10000) :
    (utf8EncodeChar c).length ≤ 3 := by
  unfold utf8EncodeChar
  by_cases h1 : c < 0x80
  · rw [if_pos h1]
    simp
  · rw [if_neg h1]
    by_cases h2 : c < 0x800
    · rw [if_pos h2]
      simp
    · rw [if_neg h2, if_pos h]
      simp

theorem length_utf8EncodeChar_le_four (c : Nat) :
    (utf8EncodeChar c).length ≤ 4 := by
  unfold utf8EncodeChar
  by_cases h1 : c < 0x80
  · rw [if_pos h1]
    simp
  · rw [if_neg h1]
    by_cases h2 : c < 0x800
    · rw [if_pos h2]
      simp
    · rw [if_neg h2]
      by_cases h3 : c < 0x10000
      · rw [if_pos h3]
        simp
      · rw [if_neg h3]
        simp

theorem cont2OK_bounds (b0 b1 : Nat) (h : cont2OK b0 b1 = true) :
    0x80 ≤ b1 ∧ b1 < 0xC0 := by
  unfold cont2OK at h
  by_cases hb : b0 = 0xE0
  · rw [if_pos hb] at h
    simp only [Bool.and_eq_true, decide_eq_true_eq] at h
    omega
  · rw [if_neg hb] at h
    by_cases hb' : b0 = 0xED
    · rw [if_pos hb'] at h
      simp only [Bool.and_eq_true, decide_eq_true_eq] at h
      omega
    · rw [if_neg hb'] at h
      simp only [Bool.and_eq_true, decide_eq_true_eq] at h
      omega

theorem cont2OK4_bounds (b0 b1 : Nat) (h : cont2OK4 b0 b1 = true) :
    0x80 ≤ b1 ∧ b1 < 0xC0 := by
  unfold cont2OK4 at h
  by_cases hb : b0 = 0xF0
  · rw [if_pos hb] at h
    simp only [Bool.and_eq_true, decide_eq_true_eq] at h
    omega
  · rw [if_neg hb] at h
    by_cases hb' : b0 = 0xF4
    · rw [if_pos hb'] at h
      simp only [Bool.and_eq_true, decide_eq_true_eq] at h
      omega
    · rw [if_neg hb'] at h
      simp only [Bool.and_eq_true, decide_eq_true_eq] at h
      omega

/-- Re-encoding the lenient decode of a byte string never produces more
bytes than were decoded: each decoded code point came from at least as
many input bytes as its UTF-8 encoding occupies. -/
theorem utf8Encode_decodeIgnore_le (bs : List Nat) :
    (utf8Encode (utf8DecodeIgnore bs)).length ≤ bs.length := by
  suffices H : ∀ q bs, bs.length ≤ q →
      (utf8Encode (utf8DecodeIgnore bs)).length ≤ bs.length from
    H bs.length bs (Nat.le_refl _)
  intro q
  induction q with
  | zero =>
    intro bs hb
    have hnil : bs = [] := by
      cases bs with
      | nil => rfl
      | cons a l => simp at hb
    subst hnil
    simp [utf8DecodeIgnore, utf8Encode]
  | succ q ih =>
    intro bs hb
    cases bs with
    | nil => simp [utf8DecodeIgnore, utf8Encode]
    | cons b0 r0 =>
      rw [utf8DecodeIgnore.eq_def]
      simp only []
      by_cases h1 : b0 < 0x80
      · rw [if_pos h1]
        rw [utf8Encode_cons, List.length_append]
        have he : (utf8EncodeChar b0).length = 1 := length_utf8EncodeChar_one b0 h1
        have hrec := ih r0 (by simp only [List.length_cons] at hb; omega)
        simp only [List.length_cons]
        omega
      · rw [if_neg h1]
        by_cases h2 : b0 < 0xC2
        · rw [if_pos h2]
          have hrec := ih r0 (by simp only [List.length_cons] at hb; omega)
          simp only [List.length_cons]
          omega
        · rw [if_neg h2]
          by_cases h3 : b0 < 0xE0
          · rw [if_pos h3]
            cases r0 with
            | nil => simp [utf8Encode]
            | cons b1 r1 =>
              simp only []
              by_cases hc : contOK b1
              · rw [if_pos hc]
                rw [utf8Encode_cons, List.length_append]
                have hb1 := (contOK_iff b1).mp hc
                have he : (utf8EncodeChar ((b0 - 0xC0) * 0x40 + (b1 - 0x80))).length ≤ 2 :=
                  length_utf8EncodeChar_le_two _ (by omega)
                have hrec := ih r1 (by simp only [List.length_cons] at hb; omega)
                simp only [List.length_cons]
                omega
              · rw [if_neg hc]
                have hrec := ih (b1 :: r1)
                  (by simp only [List.length_cons] at hb ⊢; omega)
                simp only [List.length_cons] at hrec ⊢
                omega
          · rw [if_neg h3]
            by_cases h4 : b0 < 0xF0
            · rw [if_pos h4]
              cases r0 with
              | nil => simp [utf8Encode]
              | cons b1 r1 =>
                simp only []
                by_cases hc2 : cont2OK b0 b1
                · rw [if_pos hc2]
                  cases r1 with
                  | nil => simp [utf8Encode]
                  | cons b2 r2 =>
                    simp only []
                    by_cases hc : contOK b2
                    · rw [if_pos hc]
                      rw [utf8Encode_cons, List.length_append]
                      have hb1 := cont2OK_bounds b0 b1 hc2
                      have hb2 := (contOK_iff b2).mp hc
                      have he : (utf8EncodeChar ((b0 - 0xE0) * 0x1000
                          + (b1 - 0x80) * 0x40 + (b2 - 0x80))).length ≤ 3 :=
                        length_utf8EncodeChar_le_three _ (by omega)
                      have hrec := ih r2 (by simp only [List.length_cons] at hb; omega)
                      simp only [List.length_cons]
                      omega
                    · rw [if_neg hc]
                      have hrec := ih (b2 :: r2)
                        (by simp only [List.length_cons] at hb ⊢; omega)
                      simp only [List.length_cons] at hrec ⊢
                      omega
                · rw [if_neg hc2]
                  have hrec := ih (b1 :: r1)
                    (by simp only [List.length_cons] at hb ⊢; omega)
                  simp only [List.length_cons] at hrec ⊢
                  omega
            · rw [if_neg h4]
              by_cases h5 : b0 < 0xF5
              · rw [if_pos h5]
                cases r0 with
                | nil => simp [utf8Encode]
                | cons b1 r1 =>
                  simp only []
                  by_cases hc2 : cont2OK4 b0 b1
                  · rw [if_pos hc2]
                    cases r1 with
                    | nil => simp [utf8Encode]
                    | cons b2 r2 =>
                      simp only []
                      by_cases hc : contOK b2
                      · rw [if_pos hc]
                        cases r2 with
                        | nil => simp [utf8Encode]
                        | cons b3 r3 =>
                          simp only []
                          by_cases hc3 : contOK b3
                          · rw [if_pos hc3]
                            rw [utf8Encode_cons, List.length_append]
                            have he := length_utf8EncodeChar_le_four
                              ((b0 - 0xF0) * 0x40000 + (b1 - 0x80) * 0x1000
                                + (b2 - 0x80) * 0x40 + (b3 - 0x80))
                            have hrec := ih r3
                              (by simp only [List.length_cons] at hb; omega)
                            simp only [List.length_cons]
                            omega
                          · rw [if_neg hc3]
                            have hrec := ih (b3 :: r3)
                              (by simp only [List.length_cons] at hb ⊢; omega)
                            simp only [List.length_cons] at hrec ⊢
                            omega
                      · rw [if_neg hc]
                        have hrec := ih (b2 :: r2)
                          (by simp only [List.length_cons] at hb ⊢; omega)
                        simp only [List.length_cons] at hrec ⊢
                        omega
                  · rw [if_neg hc2]
                    have hrec := ih (b1 :: r1)
                      (by simp only [List.length_cons] at hb ⊢; omega)
                    simp only [List.length_cons] at hrec ⊢
                    omega
              · rw [if_neg h5]
                have hrec := ih r0 (by simp only [List.length_cons] at hb; omega)
                simp only [List.length_cons]
                omega

theorem rstrip0_length_le (bs : List Nat) : (rstrip0 bs).length ≤ bs.length := by
  unfold rstrip0
  simp only [List.length_reverse]
  have h : ∀ (l : List Nat), (l.dropWhile (fun b => b == 0)).length ≤ l.length := by
    intro l
    induction l with
    | nil => simp
    | cons a t ih =>
      rw [List.dropWhile_cons]
      by_cases ha : (a == 0) = true
      · rw [if_pos ha]
        simp only [List.length_cons]
        omega
      · rw [if_neg ha]
  have h2 := h bs.reverse
  simp only [List.length_reverse] at h2
  exact h2

/-- When a Text value's UTF-8 encoding exceeds the 20-byte field width,
decoding the stored (truncated, zero-stripped) key bytes can never give
back the raw value: the stored key and the raw key always differ. -/
theorem decode_truncated_ne (v : PyStr) (hlen : 20 < (utf8Encode v).length) :
    utf8DecodeIgnore (rstrip0 ((utf8Encode v).take 20)) ≠ v := by
  intro heq
  have h1 := utf8Encode_decodeIgnore_le (rstrip0 ((utf8Encode v).take 20))
  rw [heq] at h1
  have h2 := rstrip0_length_le ((utf8Encode v).take 20)
  have h3 : ((utf8Encode v).take 20).length ≤ 20 := by
    simp only [List.length_take]
    omega
  omega

/-- A one-Text-field schema (field width 20; record size 21, page size
221). -/
def c10Fields : List Field := [⟨[97], strStr, 20⟩]

/-- Its catalog entry. -/
def c10Ti : TypeInfo := ⟨1, 1, c10Fields⟩

/-- A catalog holding the single type `"U"`. -/
def c10Catalog : Catalog := [([85], c10Ti)]

/-- The oversized Text primary key: 21 `'a'`s, whose UTF-8 encoding (21
bytes) exceeds the 20-byte field width. -/
def c10v : PyStr := List.replicate 21 97

/-- Its encoded record: valid flag plus the 20-byte truncation. -/
def c10rb : List Nat := 1 :: List.replicate 20 97

/-- The data file after the first insert. -/
def c10f1 : List Nat :=
  applyInsert c10Fields c10rb (emptyPage (compute_record_size c10Fields)) 0 0

/-- The data file after the second insert of the same value. -/
def c10f2 : List Nat := applyInsert c10Fields c10rb c10f1 0 1

set_option maxRecDepth 40000 in
/-- C10: a Text primary-key value whose UTF-8 encoding exceeds the
20-byte field width is stored truncated, so the duplicate check (raw
input text against the decoded truncated stored key) never matches: the
decoded stored key always differs from the raw value, and two successive
InsertRecord calls with the identical oversized value both succeed,
leaving two live records whose stored primary-key bytes are identical. -/
theorem c10_oversized_text_pk_duplicates :
    (∀ v : PyStr, 20 < (utf8Encode v).length →
      utf8DecodeIgnore (rstrip0 ((utf8Encode v).take 20)) ≠ v)
    ∧ handle_create_record c10Catalog none [[], [], [85], c10v]
        = Except.ok (true, some c10f1)
    ∧ handle_create_record c10Catalog (some c10f1) [[], [], [85], c10v]
        = Except.ok (true, some c10f2)
    ∧ bitAt c10f2 (pageSize (compute_record_size c10Fields)) 0 0 = 1
    ∧ bitAt c10f2 (pageSize (compute_record_size c10Fields)) 0 1 = 1
    ∧ recBytesAt c10f2 (pageSize (compute_record_size c10Fields))
        (compute_record_size c10Fields) 0 0
      = recBytesAt c10f2 (pageSize (compute_record_size c10Fields))
        (compute_record_size c10Fields) 0 1 := by
  refine ⟨decode_truncated_ne, ?_, ?_, by decide, by decide, by decide⟩
  · simp only [handle_create_record]
    rw [if_neg (by decide)]
    rw [show lookupType c10Catalog ([[], [], [85], c10v].getD 2 [])
      = some c10Ti from by decide]
    simp only []
    rw [if_neg (by decide)]
    rw [show find_record_page_slot c10Catalog none ([[], [], [85], c10v].getD 2 [])
      (([[], [], [85], c10v].drop 3).getD (c10Ti.pk_index - 1) []) = none from rfl]
    simp only []
    rw [show pack_record c10Ti.fields ([[], [], [85], c10v].drop 3)
      = Except.ok c10rb from by decide]
    simp only [Option.getD_none]
    rw [if_pos (by decide)]
    have hreach := insertScanLoop_reaches c10Ti.fields c10rb
      (emptyPage (compute_record_size c10Ti.fields)) 1 (by decide) 0 (by decide)
      (fun j hj => absurd hj (by omega)) 0 (by decide)
    rw [Nat.zero_mul] at hreach
    rw [hreach]
    rfl
  · have hfind2 : find_record_page_slot c10Catalog (some c10f1)
        ([[], [], [85], c10v].getD 2 [])
        (([[], [], [85], c10v].drop 3).getD (c10Ti.pk_index - 1) []) = none := by
      unfold find_record_page_slot
      rw [show lookupType c10Catalog ([[], [], [85], c10v].getD 2 [])
        = some c10Ti from by decide]
      exact findPages_none_of_no_match c10Ti.fields (c10Ti.pk_index - 1)
        (([[], [], [85], c10v].drop 3).getD (c10Ti.pk_index - 1) []) c10f1 1 (by decide)
        (by
          intro k s hk hs hmm
          obtain ⟨hb1, hd⟩ := hmm
          have hk0 : k = 0 := by omega
          subst hk0
          have hns : NUM_SLOTS = 10 := rfl
          have hs' : s < 10 := by omega
          interval_cases s
          · have hrec : recBytesAt c10f1 (pageSize (compute_record_size c10Ti.fields))
                (compute_record_size c10Ti.fields) 0 0 = c10rb := by decide
            rw [hrec] at hd
            have hu : (unpack_record c10Ti.fields c10rb).getD (c10Ti.pk_index - 1) []
                = utf8DecodeIgnore (rstrip0 (List.replicate 20 97)) := rfl
            rw [hu] at hd
            have hne := decode_truncated_ne c10v (by decide)
            rw [show (utf8Encode c10v).take 20 = List.replicate 20 97 from by decide] at hne
            exact hne hd
          all_goals exact absurd hb1 (by decide))
    simp only [handle_create_record]
    rw [if_neg (by decide)]
    rw [show lookupType c10Catalog ([[], [], [85], c10v].getD 2 [])
      = some c10Ti from by decide]
    simp only []
    rw [if_neg (by decide)]
    rw [hfind2]
    simp only []
    rw [show pack_record c10Ti.fields ([[], [], [85], c10v].drop 3)
      = Except.ok c10rb from by decide]
    simp only [Option.getD_some]
    rw [if_neg (by decide)]
    have hreach2 := insertScanLoop_reaches c10Ti.fields c10rb c10f1 1 (by decide) 0
      (by decide) (fun j hj => absurd hj (by omega)) 1 (by decide)
    rw [Nat.zero_mul] at hreach2
    rw [hreach2]
    rfl

set_option maxRecDepth 40000 in
theorem c10_oversized_text_pk_duplicates_witness :
    20 < (utf8Encode (List.replicate 21 97)).length
    ∧ utf8DecodeIgnore (rstrip0 ((utf8Encode (List.replicate 21 97)).take 20))
      ≠ List.replicate 21 97 :=
  ⟨by decide, c10_oversized_text_pk_duplicates.1 (List.replicate 21 97) (by decide)⟩

/-! ## C7: delete, then search misses, then reinsert reuses capacity -/

/-- C7: deleting a located record (the unique live record with its key)
yields the file state `applyDelete`; a SearchRecord for the same key then
reports not-found; and a subsequent InsertRecord for the same type whose
duplicate check passes lands in the first free slot in file order (all
earlier pages are full, the chosen page's first free slot is taken) with
the file length unchanged — capacity is reclaimed, not leaked. -/
theorem c7_delete_search_reinsert (catalog : Catalog) (file : List Nat)
    (dtok itok : List PyStr) (ti : TypeInfo) (n kp sp : Nat) (rb : List Nat)
    (hd4 : dtok.length = 4)
    (hlook : lookupType catalog (dtok.getD 2 []) = some ti)
    (hal : file.length = n * pageSize (compute_record_size ti.fields))
    (hinv : invOcc (pageSize (compute_record_size ti.fields)) file)
    (hbb : bitsBool (pageSize (compute_record_size ti.fields)) file)
    (hkp : kp < n) (hsp : sp < NUM_SLOTS)
    (hm : slotMatchProp ti.fields (ti.pk_index - 1) (dtok.getD 3 []) file kp sp)
    (huniq : ∀ k s, k < n → s < NUM_SLOTS →
      slotMatchProp ti.fields (ti.pk_index - 1) (dtok.getD 3 []) file k s
      → k = kp ∧ s = sp)
    (hi4 : 4 ≤ itok.length)
    (hlooki : lookupType catalog (itok.getD 2 []) = some ti)
    (hinum : (itok.drop 3).length = ti.num_fields)
    (hwf1 : ti.fields.length = ti.num_fields)
    (hwf2 : ∀ f ∈ ti.fields, f.ftype = strInt → f.flen = 4)
    (hpack : pack_record ti.fields (itok.drop 3) = Except.ok rb)
    (hfresh : find_record_page_slot catalog
        (some (applyDelete ti.fields file
          (kp * pageSize (compute_record_size ti.fields)) sp))
        (itok.getD 2 []) ((itok.drop 3).getD (ti.pk_index - 1) []) = none) :
    handle_delete_record catalog (some file) dtok
      = (true, some (applyDelete ti.fields file
          (kp * pageSize (compute_record_size ti.fields)) sp))
    ∧ handle_search_record catalog
        (some (applyDelete ti.fields file
          (kp * pageSize (compute_record_size ti.fields)) sp))
        [[], [], dtok.getD 2 [], dtok.getD 3 []] = none
    ∧ ∃ k s, k < n
      ∧ (∀ j, j < k → NUM_SLOTS ≤ occAt (applyDelete ti.fields file
          (kp * pageSize (compute_record_size ti.fields)) sp)
          (pageSize (compute_record_size ti.fields)) j)
      ∧ find_free_slot_in_page (applyDelete ti.fields file
          (kp * pageSize (compute_record_size ti.fields)) sp)
          (k * pageSize (compute_record_size ti.fields)) = some s
      ∧ handle_create_record catalog
          (some (applyDelete ti.fields file
            (kp * pageSize (compute_record_size ti.fields)) sp)) itok
        = Except.ok (true, some (applyInsert ti.fields rb
            (applyDelete ti.fields file
              (kp * pageSize (compute_record_size ti.fields)) sp)
            (k * pageSize (compute_record_size ti.fields)) s))
      ∧ (applyInsert ti.fields rb
          (applyDelete ti.fields file
            (kp * pageSize (compute_record_size ti.fields)) sp)
          (k * pageSize (compute_record_size ti.fields)) s).length = file.length := by
  have hphs : PAGE_HEADER_SIZE = 11 := rfl
  have hns : NUM_SLOTS = 10 := rfl
  have hpos : 1 ≤ compute_record_size ti.fields := compute_record_size_pos _
  have hpsz : pageSize (compute_record_size ti.fields)
      = 11 + 10 * compute_record_size ti.fields := by
    unfold pageSize PAGE_HEADER_SIZE NUM_SLOTS
    omega
  have hbound : kp * pageSize (compute_record_size ti.fields)
      + pageSize (compute_record_size ti.fields) ≤ file.length := by
    have := mul_page_bound kp n (pageSize (compute_record_size ti.fields)) hkp
    omega
  set f' := applyDelete ti.fields file
    (kp * pageSize (compute_record_size ti.fields)) sp with hf'
  have hlen' : f'.length = file.length := by
    rw [hf']
    exact length_applyDelete ti.fields file
      (kp * pageSize (compute_record_size ti.fields)) sp (by omega) hsp
  obtain ⟨hbitkp, hdeckp⟩ := hm
  have hinv' : invOcc (pageSize (compute_record_size ti.fields)) f' := by
    rw [hf']
    exact invOcc_applyDelete ti.fields file n kp sp hal hinv hkp hsp hbitkp
  have hbb' : bitsBool (pageSize (compute_record_size ti.fields)) f' := by
    rw [hf']
    exact bitsBool_applyDelete ti.fields file n kp sp hal hbb hkp hsp
  -- the delete handler locates exactly (kp, sp)
  have hsome : (findPages ti.fields (ti.pk_index - 1) (dtok.getD 3 []) file 0).isSome
      = true :=
    findPages_isSome_of_match ti.fields _ _ file n hal hinv kp sp hkp hsp ⟨hbitkp, hdeckp⟩
  obtain ⟨pr, hpr⟩ := Option.isSome_iff_exists.mp hsome
  obtain ⟨po, s0⟩ := pr
  have hinv0 := findPages_some_inv ti.fields (ti.pk_index - 1) (dtok.getD 3 [])
    file n hal n 0 po s0 (by omega)
  rw [Nat.zero_mul] at hinv0
  obtain ⟨k1, hk10, hk1n, hpo1, hs01, hm1⟩ := hinv0 hpr
  obtain ⟨hke, hse⟩ := huniq k1 s0 hk1n hs01 hm1
  subst hke
  subst hse
  subst hpo1
  have hfind : find_record_page_slot catalog (some file) (dtok.getD 2 []) (dtok.getD 3 [])
      = some (k1 * pageSize (compute_record_size ti.fields), s0) := by
    unfold find_record_page_slot
    rw [hlook]
    exact hpr
  refine ⟨?_, ?_, ?_⟩
  · -- delete result
    simp only [handle_delete_record]
    rw [if_neg (fun hne => hne hd4), hlook]
    simp only []
    rw [hfind]
  · -- search misses
    have hnomatch : ∀ k s, k < n → s < NUM_SLOTS →
        ¬ slotMatchProp ti.fields (ti.pk_index - 1) (dtok.getD 3 []) f' k s := by
      intro k s hk hs hmm
      obtain ⟨hb', hd'⟩ := hmm
      by_cases hksp : k = k1 ∧ s = s0
      · obtain ⟨hk', hs'⟩ := hksp
        rw [hk', hs'] at hb'
        have h0 : bitAt f' (pageSize (compute_record_size ti.fields)) k1 s0 = 0 := by
          unfold bitAt
          rw [hf', byteAt_applyDelete ti.fields file
            (k1 * pageSize (compute_record_size ti.fields)) s0
            (k1 * pageSize (compute_record_size ti.fields) + 1 + s0) (by omega) hsp,
            if_neg (by omega), if_pos rfl]
        omega
      · have hb_eq : bitAt f' (pageSize (compute_record_size ti.fields)) k s
            = bitAt file (pageSize (compute_record_size ti.fields)) k s := by
          unfold bitAt
          by_cases hkkp : k = k1
          · have hssp : ¬ s = s0 := fun h => hksp ⟨hkkp, h⟩
            subst hkkp
            rw [hf', byteAt_applyDelete ti.fields file
              (k * pageSize (compute_record_size ti.fields)) s0
              (k * pageSize (compute_record_size ti.fields) + 1 + s) (by omega) hsp,
              if_neg (by omega), if_neg (by omega), if_neg (by omega)]
          · rcases Nat.lt_or_ge k k1 with hlt | hge
            · have h1 := mul_page_bound k k1
                (pageSize (compute_record_size ti.fields)) hlt
              rw [hf', byteAt_applyDelete ti.fields file
                (k1 * pageSize (compute_record_size ti.fields)) s0
                (k * pageSize (compute_record_size ti.fields) + 1 + s) (by omega) hsp,
                if_neg (by omega), if_neg (by omega), if_neg (by omega)]
            · have hgt : k1 < k := by omega
              have h1 := mul_page_bound k1 k
                (pageSize (compute_record_size ti.fields)) hgt
              have hm9 : s0 * compute_record_size ti.fields
                  ≤ 9 * compute_record_size ti.fields :=
                Nat.mul_le_mul_right _ (by omega)
              rw [hf', byteAt_applyDelete ti.fields file
                (k1 * pageSize (compute_record_size ti.fields)) s0
                (k * pageSize (compute_record_size ti.fields) + 1 + s) (by omega) hsp,
                if_neg (by omega), if_neg (by omega), if_neg (by omega)]
        have hr_eq : recBytesAt f' (pageSize (compute_record_size ti.fields))
              (compute_record_size ti.fields) k s
            = recBytesAt file (pageSize (compute_record_size ti.fields))
              (compute_record_size ti.fields) k s := by
          unfold recBytesAt
          have hkb := mul_page_bound k n (pageSize (compute_record_size ti.fields)) hk
          have hsm : (s + 1) * compute_record_size ti.fields
              = s * compute_record_size ti.fields + compute_record_size ti.fields :=
            Nat.succ_mul s _
          have hm10 : (s + 1) * compute_record_size ti.fields
              ≤ 10 * compute_record_size ti.fields :=
            Nat.mul_le_mul_right _ (by omega)
          apply slice_congr
          · intro i hi
            rw [hf', byteAt_applyDelete ti.fields file
              (k1 * pageSize (compute_record_size ti.fields)) s0
              (k * pageSize (compute_record_size ti.fields) + PAGE_HEADER_SIZE
                + s * compute_record_size ti.fields + i) (by omega) hsp]
            by_cases hkkp : k = k1
            · have hssp : ¬ s = s0 := fun h => hksp ⟨hkkp, h⟩
              subst hkkp
              rcases Nat.lt_or_ge s s0 with hlt | hge
              · have hm1 : (s + 1) * compute_record_size ti.fields
                    ≤ s0 * compute_record_size ti.fields :=
                  Nat.mul_le_mul_right _ (by omega)
                rw [if_neg (by omega), if_neg (by omega), if_neg (by omega)]
              · have hsgt : s0 < s := by omega
                have hm1 : (s0 + 1) * compute_record_size ti.fields
                    ≤ s * compute_record_size ti.fields :=
                  Nat.mul_le_mul_right _ (by omega)
                have hsmp : (s0 + 1) * compute_record_size ti.fields
                    = s0 * compute_record_size ti.fields + compute_record_size ti.fields :=
                  Nat.succ_mul s0 _
                rw [if_neg (by omega), if_neg (by omega), if_neg (by omega)]
            · rcases Nat.lt_or_ge k k1 with hlt | hge
              · have h1 := mul_page_bound k k1
                  (pageSize (compute_record_size ti.fields)) hlt
                rw [if_neg (by omega), if_neg (by omega), if_neg (by omega)]
              · have hgt : k1 < k := by omega
                have h1 := mul_page_bound k1 k
                  (pageSize (compute_record_size ti.fields)) hgt
                have hm9 : s0 * compute_record_size ti.fields
                    ≤ 9 * compute_record_size ti.fields :=
                  Nat.mul_le_mul_right _ (by omega)
                rw [if_neg (by omega), if_neg (by omega), if_neg (by omega)]
          · omega
          · omega
        have hmfile : slotMatchProp ti.fields (ti.pk_index - 1) (dtok.getD 3 []) file k s := by
          refine ⟨?_, ?_⟩
          · rw [← hb_eq]
            exact hb'
          · rw [← hr_eq]
            exact hd'
        exact hksp (huniq k s hk hs hmfile)
    have hfp' : findPages ti.fields (ti.pk_index - 1) (dtok.getD 3 []) f' 0 = none :=
      findPages_none_of_no_match ti.fields _ _ f' n (by omega) hnomatch
    exact handle_search_record_none catalog f' [] [] _ _
      (by unfold find_record_page_slot; rw [hlook]; exact hfp')
  · -- reinsert lands in the first free slot
    have hrbl : rb.length = compute_record_size ti.fields :=
      pack_record_length ti.fields (itok.drop 3) rb (by omega) hwf2 hpack
    have hoccp : byteAt f' (k1 * pageSize (compute_record_size ti.fields)) < 10 := by
      have h1 : byteAt f' (k1 * pageSize (compute_record_size ti.fields))
          = byteAt file (k1 * pageSize (compute_record_size ti.fields)) - 1 := by
        rw [hf', byteAt_applyDelete ti.fields file
          (k1 * pageSize (compute_record_size ti.fields)) s0
          (k1 * pageSize (compute_record_size ti.fields)) (by omega) hsp, if_pos rfl]
      have h2 := hinv k1 (by omega)
      have h3 : (List.range NUM_SLOTS).countP
          (fun t => bitAt file (pageSize (compute_record_size ti.fields)) k1 t == 1)
          ≤ NUM_SLOTS := by
        have h4 : (List.range NUM_SLOTS).countP
            (fun t => bitAt file (pageSize (compute_record_size ti.fields)) k1 t == 1)
            ≤ (List.range NUM_SLOTS).length := List.countP_le_length _
        simp only [List.length_range] at h4
        exact h4
      unfold occAt at h2
      omega
    have hisSome : ((List.range n).find? (fun j =>
        byteAt f' (j * pageSize (compute_record_size ti.fields)) < 10)).isSome = true := by
      apply List.find?_isSome.mpr
      refine ⟨k1, List.mem_range.mpr hkp, ?_⟩
      simp only [decide_eq_true_eq]
      exact hoccp
    obtain ⟨k, hkfind⟩ := Option.isSome_iff_exists.mp hisSome
    obtain ⟨hkn, hkpred, hkmin⟩ := find?_range_first n _ k hkfind
    have hkocc : byteAt f' (k * pageSize (compute_record_size ti.fields)) < 10 := by
      simpa using hkpred
    have hkb := mul_page_bound k n (pageSize (compute_record_size ti.fields)) hkn
    have hbefore : ∀ j, j < k → NUM_SLOTS
        ≤ occAt f' (pageSize (compute_record_size ti.fields)) j := by
      intro j hj
      have hjf := hkmin j hj
      simp only [decide_eq_false_iff_not] at hjf
      unfold occAt
      omega
    obtain ⟨s, hsfind⟩ := find_free_slot_isSome_of_not_full f' k
      (pageSize (compute_record_size ti.fields)) (by omega) hinv' hbb'
      (by unfold occAt; omega)
    have hffs : find_free_slot_in_page f'
        (k * pageSize (compute_record_size ti.fields)) = some s := by
      rw [find_free_slot_eq f' (k * pageSize (compute_record_size ti.fields)) (by omega)]
      rw [if_neg (by omega)]
      exact hsfind
    obtain ⟨hocc2, hslt, hsfree, hsfirst⟩ := find_free_slot_some_inv f'
      (k * pageSize (compute_record_size ti.fields)) s (by omega) hffs
    have hreach := insertScanLoop_reaches ti.fields rb f' n (by omega) k hkn hbefore s hffs
    have hins : handle_create_record catalog (some f') itok
        = Except.ok (true, some (applyInsert ti.fields rb f'
            (k * pageSize (compute_record_size ti.fields)) s)) := by
      simp only [handle_create_record]
      rw [if_neg (by omega), hlooki]
      simp only []
      rw [if_neg (fun hne => hne hinum), hfresh]
      simp only []
      rw [hpack]
      simp only [Option.getD_some]
      rw [if_neg (by omega)]
      rw [hreach]
    have hlen2 : (applyInsert ti.fields rb f'
        (k * pageSize (compute_record_size ti.fields)) s).length = file.length := by
      rw [length_applyInsert ti.fields rb f'
        (k * pageSize (compute_record_size ti.fields)) s (by omega) hslt
        (le_of_eq hrbl)]
      exact hlen'
    exact ⟨k, s, hkn, hbefore, hffs, hins, hlen2⟩

/-- The witness store after deleting the record with primary key `"5"`. -/
def c7fd : List Nat := applyDelete witFields c2File 0 0

set_option maxRecDepth 40000 in
theorem c7_delete_search_reinsert_witness :
    handle_delete_record witCatalog (some c2File) [[], [], [84], [53]]
      = (true, some c7fd)
    ∧ handle_search_record witCatalog (some c7fd) [[], [], [84], [53]] = none
    ∧ ∃ k s, k < 1
      ∧ (∀ j, j < k →
          NUM_SLOTS ≤ occAt c7fd (pageSize (compute_record_size witTi.fields)) j)
      ∧ find_free_slot_in_page c7fd (k * pageSize (compute_record_size witTi.fields))
          = some s
      ∧ handle_create_record witCatalog (some c7fd) [[], [], [84], [54]]
        = Except.ok (true, some (applyInsert witTi.fields [1, 0, 0, 0, 6] c7fd
            (k * pageSize (compute_record_size witTi.fields)) s))
      ∧ (applyInsert witTi.fields [1, 0, 0, 0, 6] c7fd
          (k * pageSize (compute_record_size witTi.fields)) s).length = c2File.length :=
  c7_delete_search_reinsert witCatalog c2File [[], [], [84], [53]] [[], [], [84], [54]]
    witTi 1 0 0 [1, 0, 0, 0, 6]
    (by decide) (by decide) (by decide)
    (by
      intro k hk
      have hph : PAGE_HEADER_SIZE = 11 := rfl
      have hps : pageSize (compute_record_size witTi.fields) = 61 := rfl
      have hfl : c2File.length = 61 := by decide
      rw [hps, hfl] at hk
      have hk0 : k = 0 := by omega
      subst hk0
      decide)
    (by
      intro k t hk ht
      have hph : PAGE_HEADER_SIZE = 11 := rfl
      have hps : pageSize (compute_record_size witTi.fields) = 61 := rfl
      have hfl : c2File.length = 61 := by decide
      rw [hps, hfl] at hk
      have hk0 : k = 0 := by omega
      subst hk0
      have hns : NUM_SLOTS = 10 := rfl
      have ht' : t < 10 := by omega
      interval_cases t <;> decide)
    (by decide) (by decide)
    ⟨by decide, by
      show (unpack_record witFields [1, 0, 0, 0, 5]).getD 0 [] = [53]
      have hup : unpack_record witFields [1, 0, 0, 0, 5] = [[53]] := by
        simp [unpack_record, unpackFields, renderField, witFields, strInt, bytes_to_int,
          bytesToNatBE, intToStr, natToDigits]
      rw [hup]
      rfl⟩
    (by
      intro k s hk hs hmm
      obtain ⟨hb1, hd1⟩ := hmm
      have hk0 : k = 0 := by omega
      subst hk0
      have hns : NUM_SLOTS = 10 := rfl
      have hs' : s < 10 := by omega
      refine ⟨rfl, ?_⟩
      interval_cases s
      · rfl
      all_goals exact absurd hb1 (by decide))
    (by decide) (by decide) (by decide) (by decide) (by decide) (by decide)
    (by
      unfold find_record_page_slot
      rw [show lookupType witCatalog ([[], [], [84], [54]].getD 2 [])
        = some witTi from by decide]
      exact findPages_none_of_no_match witTi.fields (witTi.pk_index - 1)
        (([[], [], [84], [54]].drop 3).getD (witTi.pk_index - 1) [])
        (applyDelete witTi.fields c2File
          (0 * pageSize (compute_record_size witTi.fields)) 0)
        1 (by decide)
        (by
          intro k s hk hs hmm
          obtain ⟨hb1, hd1⟩ := hmm
          have hk0 : k = 0 := by omega
          subst hk0
          have hns : NUM_SLOTS = 10 := rfl
          have hs' : s < 10 := by omega
          interval_cases s <;> exact absurd hb1 (by decide)))

end Archive
